import Mathlib

/-! # GraphQL subscription client (subscription.go)

A shallow embedding of the subscription client of `subscription.go`: the
handshake, the dispatch loop `run`, `Subscribe`, `Unsubscribe`, `Close` and the
registry helpers `addSubscription` / `removeSubscription`.

Modelling conventions

* Go strings and byte slices (`json.RawMessage`) are both byte sequences; both are
  embedded as `String`, and the conversion `string(b)` is the identity. A nil
  slice and an empty slice are identified (the code never compares with nil).
* A Go `error` is identified by its message.
* Go channels live in a heap `chans`; a `chan` value is an index into it. Closing
  a closed channel and sending on a closed channel panic; a panic is the
  `Except.error` result of an operation.
* The websocket connection is an external collaborator. Its state records the
  frames handed to `SendJSONMessage`, the outcomes the transport will give to the
  coming sends, the inbound stream and whether `Close` was called on it.
* `encoding/json` is external: marshalling of the init options, encoding of the
  request body and decoding of an inbound frame are parameters (`JSON`).
* Every operation is one atomic step, and the mutex is not part of the state; the
  accesses of each method to the mutex, the map and the counter are listed
  separately (`Access`).
* Two things are first left out and then put back. `Subscribe` counts with an
  unbounded number; `SubscribeInt` has the counter of the source, a Go `int` that
  wraps around, and agrees with `Subscribe` below the wrap. `dispatch`, `runLoop`
  and `run` take every send as completed by its receiver; `dispatchWith`,
  `runLoopWith` and `runWith` take the receivers into account, so that a send
  nobody receives blocks for ever.
-/

namespace Graphql

/-! ## Data model -/

deriving instance DecidableEq for Except

/-- A Go error value, identified by the message `Error()` returns. -/
structure GoError where
  msg : String
deriving DecidableEq, Repr

/-- The function `errors.New`. -/
def GoError.New (message : String) : GoError := ⟨message⟩

/-- The function `errors.Wrap(err, message)`: the message is prepended. -/
def GoError.Wrap (err : GoError) (message : String) : GoError :=
  ⟨message ++ ": " ++ err.msg⟩

/-- The type `json.RawMessage`: uninterpreted bytes. -/
abbrev RawMessage := String

/-- The type `subscriptionMessageType`, a Go string. -/
abbrev subscriptionMessageType := String

def subscriptionMessageTypeConnectionInit : subscriptionMessageType := "connection_init"
def subscriptionMessageTypeStart : subscriptionMessageType := "start"
def subscriptionMessageTypeStop : subscriptionMessageType := "stop"
def subscriptionMessageTypeAck : subscriptionMessageType := "connection_ack"
def subscriptionMessageTerminate : subscriptionMessageType := "connection_terminate"
def subscriptionMessageTypeConnectionError : subscriptionMessageType := "connection_error"
def subscriptionMessageTypeData : subscriptionMessageType := "data"
def subscriptionMessageTypeError : subscriptionMessageType := "error"
def subscriptionMessageTypeComplete : subscriptionMessageType := "complete"

/-- The wire envelope `subscriptionMessage`. `ID` is a `*string`: `none` is nil.
The field `Type` of the source is named `Type_` here. -/
structure subscriptionMessage where
  ID : Option String
  Type_ : subscriptionMessageType
  Payload : RawMessage
deriving DecidableEq, Repr

/-- The struct `SubscriptionPayload`. -/
structure SubscriptionPayload where
  Data : RawMessage
  Error : RawMessage
deriving DecidableEq, Repr

/-- The struct `Subscription`. `Channel` is the address of the Go channel in the
heap of channels. -/
structure Subscription where
  id : String
  Channel : Nat
deriving DecidableEq, Repr

/-- The struct `subscriptionRequestBody`; `V` is the type of the variable mapping
(`map[string]interface{}` in the source). -/
structure subscriptionRequestBody (V : Type) where
  Query : String
  Variables : V
deriving DecidableEq, Repr

/-- Modelled from the spec: the type `Request` is declared in a file of the
repository that is not at hand; the spec describes a request as a query text
plus a variable mapping, and `Subscribe` reads its fields `q` and `vars`. -/
structure Request (V : Type) where
  q : String
  vars : V
deriving DecidableEq, Repr

/-- A raw inbound frame, as the websocket stream yields it. -/
abbrev Message := String

/-- The functions of `encoding/json` the client calls, for init options of type
`I` and variable mappings of type `V`: `json.Marshal(initOptions)`,
`json.NewEncoder(&buf).Encode(body)` and `rawMsg.UnmarshalAsJSON(&msg)` on a
zeroed `msg`. -/
structure JSON (I V : Type) where
  Marshal : I → Except GoError RawMessage
  Encode : subscriptionRequestBody V → Except GoError RawMessage
  UnmarshalAsJSON : Message → Except GoError subscriptionMessage

/-- State of one Go channel of `SubscriptionPayload`: whether `close` was called
on it, and the payloads sent on it so far (oldest first). The channel is
unbuffered, so a completed send is a payload handed to the receiver. -/
structure Chan where
  closed : Bool
  received : List SubscriptionPayload
deriving DecidableEq, Repr

/-- How an operation stops without returning: the run-time panics of channel
operations, and a send on a nil channel, which blocks forever. An address outside
the heap is the nil channel. -/
inductive Fault where
  | closeOfClosedChannel
  | closeOfNilChannel
  | sendOnClosedChannel
  | sendOnNilChannel
deriving DecidableEq, Repr

/-- The websocket connection `*wsconn.Conn`, seen from the client.
`sent` lists the frames handed to `SendJSONMessage`, oldest first, whether or not
the transport accepted them. `sendResults` lists the results the transport gives
to the coming calls of `SendJSONMessage` (`none` is a nil error); once the list is
used up every send succeeds. `stream` holds the inbound frames not yet received,
up to the end of the stream. `closed` records a call of `Close` on the
connection. -/
structure Conn where
  sent : List subscriptionMessage
  sendResults : List (Option GoError)
  stream : List Message
  closed : Bool
deriving DecidableEq, Repr

/-- The struct `SubscriptionClient` (without its mutex), together with the heap
of channels. `subscriptions` is the Go map, as an association list. `nextSubID`
is a Go `int` that starts at zero and advances by one per `Subscribe`. With
`Subscribe` the field counts the allocations as an unbounded number, which is the
Go counter as long as it has not wrapped around; with `SubscribeInt` the field
holds the counter as a machine word of the width of `int`, and the increment
wraps around as in Go. -/
structure SubscriptionClient where
  conn : Conn
  subscriptions : List (String × Subscription)
  nextSubID : Nat
  chans : List Chan
deriving DecidableEq, Repr

/-! ## Go maps and channels -/

/-- Map lookup `m[k]` with the comma-ok form. -/
def mapGet (m : List (String × Subscription)) (k : String) : Option Subscription :=
  match m with
  | [] => none
  | (k', v) :: rest => if k' = k then some v else mapGet rest k

/-- The builtin `delete(m, k)`. -/
def mapDelete (m : List (String × Subscription)) (k : String) :
    List (String × Subscription) :=
  m.filter (fun e => decide (e.1 ≠ k))

/-- Map assignment `m[k] = v`: an existing entry for `k` is replaced. -/
def mapSet (m : List (String × Subscription)) (k : String) (v : Subscription) :
    List (String × Subscription) :=
  mapDelete m k ++ [(k, v)]

/-- The builtin `close(ch)`. -/
def closeChan (chans : List Chan) (ch : Nat) : Except Fault (List Chan) :=
  match chans[ch]? with
  | none => .error .closeOfNilChannel
  | some st =>
    if st.closed then .error .closeOfClosedChannel
    else .ok (chans.set ch { st with closed := true })

/-- The send statement `ch <- p` as a completed hand-off: what the send does to
the channel once a receiver has taken the payload. Whether a receiver ever takes
it, so that the send does not block for ever, is the business of `sendChanWith`. -/
def sendChan (chans : List Chan) (ch : Nat) (p : SubscriptionPayload) :
    Except Fault (List Chan) :=
  match chans[ch]? with
  | none => .error .sendOnNilChannel
  | some st =>
    if st.closed then .error .sendOnClosedChannel
    else .ok (chans.set ch { st with received := st.received ++ [p] })

/-- The builtin `make(chan SubscriptionPayload)`: a fresh open channel at the end
of the heap; returns the new heap and the address. -/
def makeChan (chans : List Chan) : List Chan × Nat :=
  (chans ++ [{ closed := false, received := [] }], chans.length)

/-- Whether address `ch` holds a channel that is not closed. -/
def chanOpen (chans : List Chan) (ch : Nat) : Bool :=
  match chans[ch]? with
  | none => false
  | some st => !st.closed

/-- Whether address `ch` holds a closed channel. -/
def chanClosed (chans : List Chan) (ch : Nat) : Bool :=
  match chans[ch]? with
  | none => false
  | some st => st.closed

/-- The payloads delivered so far on the channel at address `ch`. -/
def delivered (chans : List Chan) (ch : Nat) : List SubscriptionPayload :=
  match chans[ch]? with
  | none => []
  | some st => st.received

/-! ## The connection -/

/-- The method `conn.SendJSONMessage(m)`: the frame is recorded and the transport
gives its next result. -/
def Conn.SendJSONMessage (conn : Conn) (m : subscriptionMessage) : Conn × Option GoError :=
  match conn.sendResults with
  | [] => ({ conn with sent := conn.sent ++ [m] }, none)
  | r :: rs => ({ conn with sent := conn.sent ++ [m], sendResults := rs }, r)

/-- The method `conn.Close()`. -/
def Conn.Close (conn : Conn) : Conn :=
  { conn with closed := true }

/-- The receive `<-conn.Stream()`: the next inbound frame, or the zero `Message`
when the stream has ended. -/
def Conn.recv (conn : Conn) : Message × Conn :=
  match conn.stream with
  | [] => ("", conn)
  | m :: rest => (m, { conn with stream := rest })

/-! ## The client -/

/-- The function `strconv.Itoa` on a non-negative `int`. -/
def Itoa (n : Nat) : String := Nat.repr n

/-- The method `addSubscription`. -/
def addSubscription (c : SubscriptionClient) (sub : Subscription) : SubscriptionClient :=
  { c with subscriptions := mapSet c.subscriptions sub.id sub }

/-- The method `removeSubscription`: close the channel, then delete the id. -/
def removeSubscription (c : SubscriptionClient) (sub : Subscription) :
    Except Fault SubscriptionClient :=
  match closeChan c.chans sub.Channel with
  | .error f => .error f
  | .ok chans => .ok { c with chans := chans, subscriptions := mapDelete c.subscriptions sub.id }

/-- The range loop of `Close` over the map. `pending` holds the entries the
iteration has not reached yet; an entry deleted before it is reached is not
produced. -/
def closeLoop (pending : List (String × Subscription)) (c : SubscriptionClient) :
    Except Fault SubscriptionClient :=
  match pending with
  | [] => .ok c
  | (k, sub) :: rest =>
    if (mapGet c.subscriptions k).isSome then
      match removeSubscription c sub with
      | .error f => .error f
      | .ok c' => closeLoop rest c'
    else closeLoop rest c

/-- The method `Close`. -/
def Close (c : SubscriptionClient) : Except Fault (SubscriptionClient × Option GoError) :=
  match closeLoop c.subscriptions c with
  | .error f => .error f
  | .ok c' =>
    let r := c'.conn.SendJSONMessage
      { ID := none, Type_ := subscriptionMessageTerminate, Payload := "" }
    .ok ({ c' with conn := r.1 }, r.2)

/-- The client value `NewSubscriptionClient` builds on a connection: an empty map
and a zero counter; no channel has been made yet. -/
def fresh (conn : Conn) : SubscriptionClient :=
  { conn := conn, subscriptions := [], nextSubID := 0, chans := [] }

/-- The method `handshake`. -/
def handshake {I V : Type} (J : JSON I V) (c : SubscriptionClient) (initOptions : I) :
    SubscriptionClient × Option GoError :=
  match J.Marshal initOptions with
  | .error err => (c, some err)
  | .ok initPayload =>
    let msg : subscriptionMessage :=
      { ID := none, Type_ := subscriptionMessageTypeConnectionInit, Payload := initPayload }
    match c.conn.SendJSONMessage msg with
    | (conn, some err) => ({ c with conn := conn.Close }, some err)
    | (conn, none) =>
      let r := conn.recv
      match J.UnmarshalAsJSON r.1 with
      | .error err => ({ c with conn := r.2.Close }, some err)
      | .ok msg =>
        if msg.Type_ ≠ subscriptionMessageTypeAck then
          if msg.Type_ = subscriptionMessageTypeConnectionError then
            ({ c with conn := r.2.Close }, some (GoError.New msg.Payload))
          else
            ({ c with conn := r.2.Close }, some (GoError.New "failed acknowledge"))
        else ({ c with conn := r.2 }, none)

/-- The function `NewSubscriptionClient`, from the result of `wsconn.Connect` on.
The dispatch loop it starts in the background is `run`. -/
def NewSubscriptionClient {I V : Type} (J : JSON I V) (connect : Except GoError Conn)
    (initOptions : I) : Option SubscriptionClient × Option GoError :=
  match connect with
  | .error err => (none, some err)
  | .ok conn =>
    let cli := fresh conn
    match handshake J cli initOptions with
    | (_, some err) => (none, some err)
    | (cli', none) => (some cli', none)

/-- The body of the loop of `run` for one inbound frame. -/
def dispatch {I V : Type} (J : JSON I V) (c : SubscriptionClient) (rawMsg : Message) :
    Except Fault SubscriptionClient :=
  match J.UnmarshalAsJSON rawMsg with
  | .error _ => .ok c
  | .ok msg =>
    match msg.ID with
    | none => .ok c
    | some id =>
      if msg.Type_ = subscriptionMessageTypeError then
        match mapGet c.subscriptions id with
        | none => .ok c
        | some sub =>
          match sendChan c.chans sub.Channel { Data := "", Error := msg.Payload } with
          | .error f => .error f
          | .ok chans => .ok { c with chans := chans }
      else if msg.Type_ = subscriptionMessageTypeData then
        match mapGet c.subscriptions id with
        | none => .ok c
        | some sub =>
          match sendChan c.chans sub.Channel { Data := msg.Payload, Error := "" } with
          | .error f => .error f
          | .ok chans => .ok { c with chans := chans }
      else if msg.Type_ = subscriptionMessageTypeComplete then
        match mapGet c.subscriptions id with
        | none => .ok c
        | some sub => removeSubscription c sub
      else .ok c

/-- The range loop of `run` over the inbound stream. -/
def runLoop {I V : Type} (J : JSON I V) (frames : List Message) (c : SubscriptionClient) :
    Except Fault SubscriptionClient :=
  match frames with
  | [] => .ok c
  | rawMsg :: rest =>
    match dispatch J { c with conn := { c.conn with stream := rest } } rawMsg with
    | .error f => .error f
    | .ok c' => runLoop J rest c'

/-- The client state in which the range loop of `run` panics: the state before
the turn that panics, with that frame taken off the stream. When the loop does
not panic this is the state it ends in. -/
def panicState {I V : Type} (J : JSON I V) (frames : List Message) (c : SubscriptionClient) :
    SubscriptionClient :=
  match frames with
  | [] => c
  | rawMsg :: rest =>
    match dispatch J { c with conn := { c.conn with stream := rest } } rawMsg with
    | .error _ => { c with conn := { c.conn with stream := rest } }
    | .ok c' => panicState J rest c'

/-- The method `run`: the loop, then the deferred `Close`, with every send of the
loop completed by its receiver. When the loop panics the deferred `Close` runs
all the same, in the state the loop had reached, and the panic goes on after it;
a panic of that `Close` takes the place of the first one. -/
def run {I V : Type} (J : JSON I V) (c : SubscriptionClient) :
    Except Fault (SubscriptionClient × Option GoError) :=
  match runLoop J c.conn.stream c with
  | .error f =>
    match Close (panicState J c.conn.stream c) with
    | .error f' => .error f'
    | .ok _ => .error f
  | .ok c' => Close c'

/-- The method `Subscribe`. -/
def Subscribe {I V : Type} (J : JSON I V) (c : SubscriptionClient) (req : Request V) :
    SubscriptionClient × Except GoError Subscription :=
  match J.Encode { Query := req.q, Variables := req.vars } with
  | .error err => (c, .error (err.Wrap "failed to encode request body"))
  | .ok reqBody =>
    let id := Itoa c.nextSubID
    let c1 := { c with nextSubID := c.nextSubID + 1 }
    let msg : subscriptionMessage :=
      { ID := some id, Type_ := subscriptionMessageTypeStart, Payload := reqBody }
    match c1.conn.SendJSONMessage msg with
    | (conn, some err) => ({ c1 with conn := conn }, .error err)
    | (conn, none) =>
      let ch := makeChan c1.chans
      let sub : Subscription := { id := id, Channel := ch.2 }
      (addSubscription { c1 with conn := conn, chans := ch.1 } sub, .ok sub)

/-- The method `Unsubscribe`. -/
def Unsubscribe (c : SubscriptionClient) (sub : Subscription) :
    Except Fault (SubscriptionClient × Option GoError) :=
  match removeSubscription c sub with
  | .error f => .error f
  | .ok c' =>
    let r := c'.conn.SendJSONMessage
      { ID := some sub.id, Type_ := subscriptionMessageTypeStop, Payload := "" }
    .ok ({ c' with conn := r.1 }, r.2)

/-! ## Runs of the client -/

/-- One call on the client, or one turn of the dispatch loop. -/
inductive Op (V : Type) where
  | subscribe (req : Request V)
  | unsubscribe (sub : Subscription)
  | close
  | dispatch (rawMsg : Message)

/-- The client state after one step; the value a call returns is dropped. -/
def step {I V : Type} (J : JSON I V) (c : SubscriptionClient) (op : Op V) :
    Except Fault SubscriptionClient :=
  match op with
  | .subscribe req => .ok (Subscribe J c req).1
  | .unsubscribe sub =>
    match Unsubscribe c sub with
    | .error f => .error f
    | .ok r => .ok r.1
  | .close =>
    match Close c with
    | .error f => .error f
    | .ok r => .ok r.1
  | .dispatch rawMsg => dispatch J c rawMsg

/-- The client state after a finite sequence of steps. -/
def steps {I V : Type} (J : JSON I V) (c : SubscriptionClient) (ops : List (Op V)) :
    Except Fault SubscriptionClient :=
  match ops with
  | [] => .ok c
  | op :: rest =>
    match step J c op with
    | .error f => .error f
    | .ok c' => steps J c' rest

/-- A sequence of `Subscribe` calls: the final client and what each call
returned, in call order. -/
def subscribeAll {I V : Type} (J : JSON I V) (c : SubscriptionClient) (reqs : List (Request V)) :
    SubscriptionClient × List (Except GoError Subscription) :=
  match reqs with
  | [] => (c, [])
  | req :: rest =>
    let r := Subscribe J c req
    let rs := subscribeAll J r.1 rest
    (rs.1, r.2 :: rs.2)

/-- The subscriptions among the results of a sequence of calls. -/
def returned (rs : List (Except GoError Subscription)) : List Subscription :=
  rs.filterMap (fun r => match r with
    | .ok sub => some sub
    | .error _ => none)

/-- The registry invariant: every key of the map is the decimal string of a number
below the counter, the subscription stored under a key carries that key as its
id, and its channel is open. -/
def registryInv (c : SubscriptionClient) : Bool :=
  c.subscriptions.all (fun e =>
    (List.range c.nextSubID).any (fun n => decide (e.1 = Itoa n))
      && decide (e.2.id = e.1) && chanOpen c.chans e.2.Channel)

/-! ## A sample JSON codec

A small concrete instance of the external JSON functions, used to run the client
on concrete inputs. Init options are an optional string (`none` cannot be
marshalled), variable mappings are strings, and a handful of frames decode. -/

/-- Decoding of the sample frames. -/
def sampleUnmarshal (rawMsg : Message) : Except GoError subscriptionMessage :=
  if rawMsg = "ack" then .ok { ID := none, Type_ := "connection_ack", Payload := "" }
  else if rawMsg = "refused" then
    .ok { ID := none, Type_ := "connection_error", Payload := "no entry" }
  else if rawMsg = "ka" then .ok { ID := none, Type_ := "ka", Payload := "x" }
  else if rawMsg = "data0" then .ok { ID := some "0", Type_ := "data", Payload := "bar" }
  else if rawMsg = "data1" then .ok { ID := some "1", Type_ := "data", Payload := "baz" }
  else if rawMsg = "error0" then .ok { ID := some "0", Type_ := "error", Payload := "oops" }
  else if rawMsg = "complete0" then .ok { ID := some "0", Type_ := "complete", Payload := "" }
  else .error (GoError.New "invalid character")

/-- The sample codec. -/
def sampleJSON : JSON (Option String) String where
  Marshal := fun o => match o with
    | none => .error (GoError.New "json: unsupported type")
    | some s => .ok s
  Encode := fun b => .ok (b.Query ++ "|" ++ b.Variables)
  UnmarshalAsJSON := sampleUnmarshal

/-- A connection on which every send succeeds and whose stream holds `frames`. -/
def sampleConn (frames : List Message) : Conn :=
  { sent := [], sendResults := [], stream := frames, closed := false }

/-- The request of the test. -/
def sampleRequest : Request String :=
  { q := "subscription ($q: String) \x7b cnt \x7d", vars := "q=foo" }

/-- The number a list of decimal digit characters stands for. -/
def digitsValue : List Char → Nat
  | [] => 0
  | d :: ds => (d.toNat - 48) * 10 ^ ds.length + digitsValue ds

/-- The handles `Subscribe` has returned, after one more step from client `c`
whose earlier calls returned `hs`. -/
def handlesAfter {I V : Type} (J : JSON I V) (c : SubscriptionClient)
    (hs : List Subscription) (op : Op V) : List Subscription :=
  match op with
  | .subscribe req =>
    match (Subscribe J c req).2 with
    | .ok sub => sub :: hs
    | .error _ => hs
  | _ => hs

/-- Whether a sequence of steps from client `c`, whose earlier calls returned the
handles `hs`, calls `Unsubscribe` only on handles that `Subscribe` has returned
before. Steps after a panic are not run and not looked at. -/
def legalRun {I V : Type} (J : JSON I V) (c : SubscriptionClient)
    (hs : List Subscription) (ops : List (Op V)) : Bool :=
  match ops with
  | [] => true
  | op :: rest =>
    (match op with
      | .unsubscribe sub => decide (sub ∈ hs)
      | _ => true)
    && (match step J c op with
      | .error _ => true
      | .ok c' => legalRun J c' (handlesAfter J c hs op) rest)

/-- The invariant of a client `c` together with the handles `hs` its `Subscribe`
has returned: every handle has an allocated id and a channel in the heap, no two
handles share an id or a channel, and every map entry is a handle stored under
its own id with an open channel. -/
def sessionInv (c : SubscriptionClient) (hs : List Subscription) : Prop :=
  (∀ h ∈ hs, (∃ n, n < c.nextSubID ∧ h.id = Itoa n) ∧ h.Channel < c.chans.length)
  ∧ hs.Pairwise (fun a b => a.id ≠ b.id ∧ a.Channel ≠ b.Channel)
  ∧ (∀ e ∈ c.subscriptions, e.2 ∈ hs ∧ e.2.id = e.1 ∧ chanOpen c.chans e.2.Channel = true)

/-- Following the spec: the payloads the subscription with id `i` is to receive
from a list of inbound frames, namely the frames that decode with id `i` and type
`data` or `error`, in the order of the list, each mapped to a payload with `Data`
or with `Error` set, up to the first `complete` frame for `i`. -/
def expectedPayloads {I V : Type} (J : JSON I V) (i : String) :
    List Message → List SubscriptionPayload
  | [] => []
  | rawMsg :: rest =>
    match J.UnmarshalAsJSON rawMsg with
    | .error _ => expectedPayloads J i rest
    | .ok msg =>
      if msg.ID = some i then
        if msg.Type_ = subscriptionMessageTypeComplete then []
        else if msg.Type_ = subscriptionMessageTypeData then
          { Data := msg.Payload, Error := "" } :: expectedPayloads J i rest
        else if msg.Type_ = subscriptionMessageTypeError then
          { Data := "", Error := msg.Payload } :: expectedPayloads J i rest
        else expectedPayloads J i rest
      else expectedPayloads J i rest

/-! ## The mutex

The state above leaves the mutex `mut` out. The definitions below follow the same
methods once more and list, in program order, what a call does to the mutex, to
the map `subscriptions` and to the counter `nextSubID`. -/

/-- One operation on the mutex or on the state it is meant to guard. -/
inductive Access where
  | lock
  | unlock
  | mapRead
  | mapWrite
  | counterRead
  | counterWrite
deriving DecidableEq, Repr

/-- The method `addSubscription`: `Lock`, the map assignment, the deferred
`Unlock`. -/
def addSubscriptionAccesses : List Access :=
  [.lock, .mapWrite, .unlock]

/-- The method `removeSubscription`: `Lock`, the `delete` on the map, the deferred
`Unlock`. -/
def removeSubscriptionAccesses : List Access :=
  [.lock, .mapWrite, .unlock]

/-- The method `Unsubscribe`: the call of `removeSubscription`. -/
def UnsubscribeAccesses : List Access :=
  removeSubscriptionAccesses

/-- The method `Subscribe`: nothing when the body does not encode; otherwise the
read of the counter for `strconv.Itoa`, the increment, and after a successful
send the call of `addSubscription`. -/
def SubscribeAccesses {I V : Type} (J : JSON I V) (c : SubscriptionClient) (req : Request V) :
    List Access :=
  match J.Encode { Query := req.q, Variables := req.vars } with
  | .error _ => []
  | .ok reqBody =>
    let msg : subscriptionMessage :=
      { ID := some (Itoa c.nextSubID), Type_ := subscriptionMessageTypeStart,
        Payload := reqBody }
    match (c.conn.SendJSONMessage msg).2 with
    | some _ => [.counterRead, .counterRead, .counterWrite]
    | none => [.counterRead, .counterRead, .counterWrite] ++ addSubscriptionAccesses

/-- One turn of the loop of `run`: each case of the switch looks the id up in the
map, and the `complete` case calls `removeSubscription` when the id is found. -/
def dispatchAccesses {I V : Type} (J : JSON I V) (c : SubscriptionClient) (rawMsg : Message) :
    List Access :=
  match J.UnmarshalAsJSON rawMsg with
  | .error _ => []
  | .ok msg =>
    match msg.ID with
    | none => []
    | some id =>
      if msg.Type_ = subscriptionMessageTypeError then [.mapRead]
      else if msg.Type_ = subscriptionMessageTypeData then [.mapRead]
      else if msg.Type_ = subscriptionMessageTypeComplete then
        match mapGet c.subscriptions id with
        | none => [.mapRead]
        | some _ => .mapRead :: removeSubscriptionAccesses
      else []

/-- The range loop of `Close`: the loop reads the map for every entry it produces
and once more to find the end, and calls `removeSubscription` on every entry. -/
def closeLoopAccesses (pending : List (String × Subscription)) (c : SubscriptionClient) :
    List Access :=
  match pending with
  | [] => [.mapRead]
  | (k, sub) :: rest =>
    if (mapGet c.subscriptions k).isSome then
      match removeSubscription c sub with
      | .error _ => .mapRead :: removeSubscriptionAccesses
      | .ok c' => .mapRead :: removeSubscriptionAccesses ++ closeLoopAccesses rest c'
    else closeLoopAccesses rest c

/-- The method `Close`. -/
def CloseAccesses (c : SubscriptionClient) : List Access :=
  closeLoopAccesses c.subscriptions c

/-- Whether every read and write in a list of accesses happens while the mutex is
held; `held` tells whether it is held at the start. -/
def lockDiscipline (held : Bool) (accesses : List Access) : Bool :=
  match accesses with
  | [] => true
  | .lock :: rest => lockDiscipline true rest
  | .unlock :: rest => lockDiscipline false rest
  | _ :: rest => held && lockDiscipline held rest

/-! ## The counter as a Go `int`

The type `int` of Go has 32 or 64 bits, by platform; `bits` is that width. -/

/-- The value of a machine word of `bits` bits read as a two's complement `int`. -/
def toSigned (bits : Nat) (w : Nat) : Int :=
  if w % 2 ^ bits < 2 ^ (bits - 1) then ((w % 2 ^ bits : Nat) : Int)
  else ((w % 2 ^ bits : Nat) : Int) - ((2 ^ bits : Nat) : Int)

/-- The function `strconv.Itoa` on any `int`: a minus sign in front of the decimal
digits of a negative number. -/
def strconvItoa (n : Int) : String :=
  if n < 0 then "-" ++ Nat.repr n.natAbs else Nat.repr n.natAbs

/-- The method `Subscribe` with the counter of the source: `nextSubID` is an
`int` of `bits` bits, held in the field as a machine word; the id is
`strconv.Itoa` of its value and the increment `c.nextSubID++` wraps around. -/
def SubscribeInt {I V : Type} (bits : Nat) (J : JSON I V) (c : SubscriptionClient)
    (req : Request V) : SubscriptionClient × Except GoError Subscription :=
  match J.Encode { Query := req.q, Variables := req.vars } with
  | .error err => (c, .error (err.Wrap "failed to encode request body"))
  | .ok reqBody =>
    let id := strconvItoa (toSigned bits c.nextSubID)
    let c1 := { c with nextSubID := (c.nextSubID + 1) % 2 ^ bits }
    let msg : subscriptionMessage :=
      { ID := some id, Type_ := subscriptionMessageTypeStart, Payload := reqBody }
    match c1.conn.SendJSONMessage msg with
    | (conn, some err) => ({ c1 with conn := conn }, .error err)
    | (conn, none) =>
      let ch := makeChan c1.chans
      let sub : Subscription := { id := id, Channel := ch.2 }
      (addSubscription { c1 with conn := conn, chans := ch.1 } sub, .ok sub)

/-- A sequence of `SubscribeInt` calls: the final client and what each call
returned, in call order. -/
def subscribeAllInt {I V : Type} (bits : Nat) (J : JSON I V) (c : SubscriptionClient)
    (reqs : List (Request V)) : SubscriptionClient × List (Except GoError Subscription) :=
  match reqs with
  | [] => (c, [])
  | req :: rest =>
    let r := SubscribeInt bits J c req
    let rs := subscribeAllInt bits J r.1 rest
    (rs.1, r.2 :: rs.2)

/-- The client state after one step, with `SubscribeInt` for `Subscribe`. -/
def stepInt {I V : Type} (bits : Nat) (J : JSON I V) (c : SubscriptionClient) (op : Op V) :
    Except Fault SubscriptionClient :=
  match op with
  | .subscribe req => .ok (SubscribeInt bits J c req).1
  | .unsubscribe sub => step J c (.unsubscribe sub)
  | .close => step J c .close
  | .dispatch rawMsg => step J c (.dispatch rawMsg)

/-- The client state after a finite sequence of steps, with `SubscribeInt`. -/
def stepsInt {I V : Type} (bits : Nat) (J : JSON I V) (c : SubscriptionClient)
    (ops : List (Op V)) : Except Fault SubscriptionClient :=
  match ops with
  | [] => .ok c
  | op :: rest =>
    match stepInt bits J c op with
    | .error f => .error f
    | .ok c' => stepsInt bits J c' rest

/-- The handles returned so far, after one more step, with `SubscribeInt`. -/
def handlesAfterInt {I V : Type} (bits : Nat) (J : JSON I V) (c : SubscriptionClient)
    (hs : List Subscription) (op : Op V) : List Subscription :=
  match op with
  | .subscribe req =>
    match (SubscribeInt bits J c req).2 with
    | .ok sub => sub :: hs
    | .error _ => hs
  | _ => hs

/-- Whether a sequence of steps calls `Unsubscribe` only on handles returned
before, with `SubscribeInt`. -/
def legalRunInt {I V : Type} (bits : Nat) (J : JSON I V) (c : SubscriptionClient)
    (hs : List Subscription) (ops : List (Op V)) : Bool :=
  match ops with
  | [] => true
  | op :: rest =>
    (match op with
      | .unsubscribe sub => decide (sub ∈ hs)
      | _ => true)
    && (match stepInt bits J c op with
      | .error _ => true
      | .ok c' => legalRunInt bits J c' (handlesAfterInt bits J c hs op) rest)

/-- The number of `Subscribe` calls in a sequence of steps. -/
def subscribeCalls {V : Type} (ops : List (Op V)) : Nat :=
  match ops with
  | [] => 0
  | .subscribe _ :: rest => subscribeCalls rest + 1
  | _ :: rest => subscribeCalls rest

/-! ## Sends and their receivers

The channel of a subscription is unbuffered: a send returns only when a receiver
takes the payload. The receivers are the callers' business; `demand ch` says how
many payloads the receiver of the channel at address `ch` is still going to
take. Calls that run while the dispatch loop is blocked in a send are not
modelled. -/

/-- How a turn of the dispatch loop ends: it returns, it panics, or it blocks for
ever. -/
inductive Ending (α : Type) where
  | returned (a : α)
  | panicked (f : Fault)
  | blocked

/-- The send statement `ch <- p` with its receiver: on a nil channel it blocks for
ever, on a closed channel it panics, on an open channel it blocks for ever when
the receiver takes no more payloads and otherwise hands the payload over. -/
def sendChanWith (demand : Nat → Nat) (chans : List Chan) (ch : Nat)
    (p : SubscriptionPayload) : Ending (List Chan × (Nat → Nat)) :=
  match chans[ch]? with
  | none => .blocked
  | some st =>
    if st.closed then .panicked .sendOnClosedChannel
    else if demand ch = 0 then .blocked
    else .returned (chans.set ch { st with received := st.received ++ [p] },
      Function.update demand ch (demand ch - 1))

/-- The body of the loop of `run` for one inbound frame, with the receivers. -/
def dispatchWith {I V : Type} (demand : Nat → Nat) (J : JSON I V) (c : SubscriptionClient)
    (rawMsg : Message) : Ending (SubscriptionClient × (Nat → Nat)) :=
  match J.UnmarshalAsJSON rawMsg with
  | .error _ => .returned (c, demand)
  | .ok msg =>
    match msg.ID with
    | none => .returned (c, demand)
    | some id =>
      if msg.Type_ = subscriptionMessageTypeError then
        match mapGet c.subscriptions id with
        | none => .returned (c, demand)
        | some sub =>
          match sendChanWith demand c.chans sub.Channel
              { Data := "", Error := msg.Payload } with
          | .returned r => .returned ({ c with chans := r.1 }, r.2)
          | .panicked f => .panicked f
          | .blocked => .blocked
      else if msg.Type_ = subscriptionMessageTypeData then
        match mapGet c.subscriptions id with
        | none => .returned (c, demand)
        | some sub =>
          match sendChanWith demand c.chans sub.Channel
              { Data := msg.Payload, Error := "" } with
          | .returned r => .returned ({ c with chans := r.1 }, r.2)
          | .panicked f => .panicked f
          | .blocked => .blocked
      else if msg.Type_ = subscriptionMessageTypeComplete then
        match mapGet c.subscriptions id with
        | none => .returned (c, demand)
        | some sub =>
          match removeSubscription c sub with
          | .error f => .panicked f
          | .ok c' => .returned (c', demand)
      else .returned (c, demand)

/-- How the range loop of `run` ends: the stream is used up, or a turn panics or
blocks for ever, in the client state given. -/
inductive LoopEnding where
  | finished (c : SubscriptionClient) (demand : Nat → Nat)
  | panicked (f : Fault) (c : SubscriptionClient)
  | blocked (c : SubscriptionClient)

/-- The range loop of `run` over the inbound stream, with the receivers. -/
def runLoopWith {I V : Type} (demand : Nat → Nat) (J : JSON I V) (frames : List Message)
    (c : SubscriptionClient) : LoopEnding :=
  match frames with
  | [] => .finished c demand
  | rawMsg :: rest =>
    match dispatchWith demand J { c with conn := { c.conn with stream := rest } } rawMsg with
    | .returned r => runLoopWith r.2 J rest r.1
    | .panicked f => .panicked f { c with conn := { c.conn with stream := rest } }
    | .blocked => .blocked { c with conn := { c.conn with stream := rest } }

/-- How `run` ends. It returns with the client and the result of the deferred
`Close`; or it panics, with the client the deferred `Close` left behind, if that
`Close` returned; or it blocks for ever in a send, in the client state given, and
the deferred `Close` is not reached. -/
inductive RunEnding where
  | returned (c : SubscriptionClient) (err : Option GoError)
  | panicked (f : Fault) (c : Option SubscriptionClient)
  | blocked (c : SubscriptionClient)
deriving DecidableEq, Repr

/-- The method `run` with the receivers: the loop, then the deferred `Close`,
which also runs when the loop panics. -/
def runWith {I V : Type} (demand : Nat → Nat) (J : JSON I V) (c : SubscriptionClient) :
    RunEnding :=
  match runLoopWith demand J c.conn.stream c with
  | .finished c' _ =>
    match Close c' with
    | .error f => .panicked f none
    | .ok r => .returned r.1 r.2
  | .panicked f c' =>
    match Close c' with
    | .error f' => .panicked f' none
    | .ok r => .panicked f (some r.1)
  | .blocked c' => .blocked c'

/-! # Properties -/

/-! ## Closing a channel twice -/

/-- C1 (the code breaks the claim). A subscription handle returned by `Subscribe`
has its channel closed a second time, which is a run-time panic, when
`Unsubscribe` is called twice on it, when `Unsubscribe` follows a server
`complete` for its id, and when `Unsubscribe` follows `Close`. Each run starts
from a fresh client, calls `Unsubscribe` only on the handle `Subscribe` returned,
and its steps before the last one succeed. -/
theorem unsubscribe_closes_closed_channel :
    (Subscribe sampleJSON (fresh (sampleConn [])) sampleRequest).2 = .ok ⟨"0", 0⟩
    ∧ legalRun sampleJSON (fresh (sampleConn [])) []
        [.subscribe sampleRequest, .unsubscribe ⟨"0", 0⟩, .unsubscribe ⟨"0", 0⟩] = true
    ∧ (steps sampleJSON (fresh (sampleConn []))
        [.subscribe sampleRequest, .unsubscribe ⟨"0", 0⟩]).toOption.isSome = true
    ∧ steps sampleJSON (fresh (sampleConn []))
        [.subscribe sampleRequest, .unsubscribe ⟨"0", 0⟩, .unsubscribe ⟨"0", 0⟩]
        = .error .closeOfClosedChannel
    ∧ legalRun sampleJSON (fresh (sampleConn [])) []
        [.subscribe sampleRequest, .dispatch "complete0", .unsubscribe ⟨"0", 0⟩] = true
    ∧ (steps sampleJSON (fresh (sampleConn []))
        [.subscribe sampleRequest, .dispatch "complete0"]).toOption.isSome = true
    ∧ steps sampleJSON (fresh (sampleConn []))
        [.subscribe sampleRequest, .dispatch "complete0", .unsubscribe ⟨"0", 0⟩]
        = .error .closeOfClosedChannel
    ∧ legalRun sampleJSON (fresh (sampleConn [])) []
        [.subscribe sampleRequest, .close, .unsubscribe ⟨"0", 0⟩] = true
    ∧ (steps sampleJSON (fresh (sampleConn []))
        [.subscribe sampleRequest, .close]).toOption.isSome = true
    ∧ steps sampleJSON (fresh (sampleConn []))
        [.subscribe sampleRequest, .close, .unsubscribe ⟨"0", 0⟩]
        = .error .closeOfClosedChannel := by
  decide

/-! ## Handshake -/

/-- C2 (the code breaks the claim). When the init options cannot be marshalled,
`handshake` returns the error and the connection has not been closed: the client
is returned untouched. `NewSubscriptionClient` returns no client. -/
theorem handshake_marshal_error_keeps_connection_open :
    handshake sampleJSON (fresh (sampleConn ["ack"])) none
      = (fresh (sampleConn ["ack"]), some (GoError.New "json: unsupported type"))
    ∧ (handshake sampleJSON (fresh (sampleConn ["ack"])) none).1.conn.closed = false
    ∧ (handshake sampleJSON (fresh (sampleConn ["ack"])) none).1.conn.sent = []
    ∧ NewSubscriptionClient sampleJSON (.ok (sampleConn ["ack"])) none
      = (none, some (GoError.New "json: unsupported type")) := by
  decide

/-- On every failure of `handshake` after the init options were marshalled (the
send fails, the first frame does not decode, its type is not `connection_ack`),
the connection has been closed. -/
theorem handshake_error_closes_after_marshal {I V : Type} (J : JSON I V)
    (c : SubscriptionClient) (initOptions : I) (p : RawMessage)
    (hM : J.Marshal initOptions = .ok p)
    (hE : (handshake J c initOptions).2 ≠ none) :
    (handshake J c initOptions).1.conn.closed = true := by
  unfold handshake at hE ⊢
  simp only [hM] at hE ⊢
  rcases hs : c.conn.SendJSONMessage
      { ID := none, Type_ := subscriptionMessageTypeConnectionInit, Payload := p }
    with ⟨conn, _ | e⟩
  · simp only [hs] at hE ⊢
    cases hu : J.UnmarshalAsJSON conn.recv.1 with
    | error e => simp [Conn.Close]
    | ok msg =>
      simp only [hu] at hE ⊢
      by_cases h1 : msg.Type_ = subscriptionMessageTypeAck
      · simp [h1] at hE
      · rw [if_pos h1]
        by_cases h2 : msg.Type_ = subscriptionMessageTypeConnectionError
        · rw [if_pos h2]; rfl
        · rw [if_neg h2]; rfl
  · simp [hs, Conn.Close]

/-- `NewSubscriptionClient` returns a client exactly when it returns no error. -/
theorem NewSubscriptionClient_error_no_client {I V : Type} (J : JSON I V)
    (connect : Except GoError Conn) (initOptions : I) :
    (NewSubscriptionClient J connect initOptions).2 ≠ none ↔
      (NewSubscriptionClient J connect initOptions).1 = none := by
  unfold NewSubscriptionClient
  cases connect with
  | error e => simp
  | ok conn =>
    rcases h : handshake J (fresh conn) initOptions with ⟨c', _ | e⟩ <;> simp [h]

theorem SendJSONMessage_stream (conn : Conn) (m : subscriptionMessage) :
    (conn.SendJSONMessage m).1.stream = conn.stream := by
  unfold Conn.SendJSONMessage
  cases conn.sendResults <;> rfl

theorem SendJSONMessage_closed (conn : Conn) (m : subscriptionMessage) :
    (conn.SendJSONMessage m).1.closed = conn.closed := by
  unfold Conn.SendJSONMessage
  cases conn.sendResults <;> rfl

theorem SendJSONMessage_sent (conn : Conn) (m : subscriptionMessage) :
    (conn.SendJSONMessage m).1.sent = conn.sent ++ [m] := by
  unfold Conn.SendJSONMessage
  cases conn.sendResults <;> rfl

theorem recv_fst_of_stream (conn conn' : Conn) (h : conn'.stream = conn.stream) :
    conn'.recv.1 = conn.recv.1 := by
  unfold Conn.recv
  rw [h]
  cases conn.stream <;> rfl

theorem recv_closed (conn : Conn) : conn.recv.2.closed = conn.closed := by
  unfold Conn.recv
  cases conn.stream <;> rfl

/-- C3. Assume the init options marshal and the init send succeeds. Then
`handshake` returns no error exactly when the first inbound frame decodes with
type `connection_ack`, and then the connection is not closed by the handshake; if
the frame decodes with type `connection_error` the error returned has the frame's
payload as its message; for every other decoded type the error returned is the
fixed error `failed acknowledge`. -/
theorem handshake_outcome {I V : Type} (J : JSON I V) (c : SubscriptionClient)
    (initOptions : I) (p : RawMessage)
    (hM : J.Marshal initOptions = .ok p)
    (hS : (c.conn.SendJSONMessage
      { ID := none, Type_ := subscriptionMessageTypeConnectionInit, Payload := p }).2 = none) :
    ((handshake J c initOptions).2 = none ↔
      ∃ msg, J.UnmarshalAsJSON c.conn.recv.1 = .ok msg
        ∧ msg.Type_ = subscriptionMessageTypeAck)
    ∧ ((handshake J c initOptions).2 = none →
      (handshake J c initOptions).1.conn.closed = c.conn.closed)
    ∧ (∀ msg, J.UnmarshalAsJSON c.conn.recv.1 = .ok msg →
      msg.Type_ = subscriptionMessageTypeConnectionError →
      (handshake J c initOptions).2 = some (GoError.New msg.Payload)
        ∧ (GoError.New msg.Payload).msg = msg.Payload)
    ∧ (∀ msg, J.UnmarshalAsJSON c.conn.recv.1 = .ok msg →
      msg.Type_ ≠ subscriptionMessageTypeAck →
      msg.Type_ ≠ subscriptionMessageTypeConnectionError →
      (handshake J c initOptions).2 = some (GoError.New "failed acknowledge")) := by
  have hne : subscriptionMessageTypeConnectionError ≠ subscriptionMessageTypeAck := by decide
  rcases hs : c.conn.SendJSONMessage
      { ID := none, Type_ := subscriptionMessageTypeConnectionInit, Payload := p }
    with ⟨conn, r⟩
  rw [hs] at hS
  simp only at hS
  subst hS
  have hstream : conn.stream = c.conn.stream := by
    have := SendJSONMessage_stream c.conn
      { ID := none, Type_ := subscriptionMessageTypeConnectionInit, Payload := p }
    rw [hs] at this; exact this
  have hclosed : conn.closed = c.conn.closed := by
    have := SendJSONMessage_closed c.conn
      { ID := none, Type_ := subscriptionMessageTypeConnectionInit, Payload := p }
    rw [hs] at this; exact this
  have hrecv : conn.recv.1 = c.conn.recv.1 := recv_fst_of_stream c.conn conn hstream
  unfold handshake
  simp only [hM, hs]
  rw [hrecv]
  cases hu : J.UnmarshalAsJSON c.conn.recv.1 with
  | error e => simp
  | ok msg =>
    by_cases h1 : msg.Type_ = subscriptionMessageTypeAck
    · have h2 : msg.Type_ ≠ subscriptionMessageTypeConnectionError := by
        rw [h1]; exact fun h => hne h.symm
      simp [h1, recv_closed, hclosed, hne.symm]
    · by_cases h2 : msg.Type_ = subscriptionMessageTypeConnectionError
      · simp [h1, h2, hne, GoError.New]
      · simp [h1, h2]

theorem handshake_outcome_witness :
    sampleJSON.Marshal (some "x") = .ok "x"
    ∧ ((fresh (sampleConn ["refused"])).conn.SendJSONMessage
      { ID := none, Type_ := subscriptionMessageTypeConnectionInit, Payload := "x" }).2 = none
    ∧ ((handshake sampleJSON (fresh (sampleConn ["refused"])) (some "x")).2 = none ↔
      ∃ msg, sampleJSON.UnmarshalAsJSON (fresh (sampleConn ["refused"])).conn.recv.1 = .ok msg
        ∧ msg.Type_ = subscriptionMessageTypeAck)
    ∧ (handshake sampleJSON (fresh (sampleConn ["refused"])) (some "x")).2
        = some (GoError.New "no entry") :=
  have h := handshake_outcome sampleJSON (fresh (sampleConn ["refused"])) (some "x") "x"
    (by decide) (by decide)
  ⟨by decide, by decide, h.1, (h.2.2.1 { ID := none, Type_ := "connection_error", Payload := "no entry" }
    (by decide) (by decide)).1⟩

/-! ## Decimal strings -/

theorem digitChar_value (k : Nat) (hk : k < 10) : (Nat.digitChar k).toNat - 48 = k := by
  interval_cases k <;> decide

theorem toDigitsCore_value (fuel : Nat) : ∀ (n : Nat) (ds : List Char), n < fuel →
    digitsValue (Nat.toDigitsCore 10 fuel n ds) = n * 10 ^ ds.length + digitsValue ds := by
  induction fuel with
  | zero => intro n ds h; omega
  | succ fuel ih =>
    intro n ds h
    unfold Nat.toDigitsCore
    by_cases h0 : n / 10 = 0
    · simp only [h0, if_true]
      have hn : n < 10 := by omega
      simp only [digitsValue]
      rw [digitChar_value _ (Nat.mod_lt _ (by decide)), Nat.mod_eq_of_lt hn]
    · simp only [h0, if_false]
      rw [ih (n / 10) _ (by omega)]
      simp only [digitsValue, List.length_cons]
      rw [digitChar_value _ (Nat.mod_lt _ (by decide))]
      have h1 : n = 10 * (n / 10) + n % 10 := (Nat.div_add_mod n 10).symm
      rw [pow_succ]
      nth_rewrite 3 [h1]
      ring

theorem Itoa_injective : Function.Injective Itoa := by
  intro a b h
  unfold Itoa Nat.repr at h
  have hl : Nat.toDigits 10 a = Nat.toDigits 10 b := by
    have := congrArg String.data h
    simpa [List.asString] using this
  have ha := toDigitsCore_value (a + 1) a [] (by omega)
  have hb := toDigitsCore_value (b + 1) b [] (by omega)
  unfold Nat.toDigits at hl
  rw [hl, hb] at ha
  simpa [digitsValue] using ha.symm

/-! ## Subscribe -/

/-- What `Subscribe` does when the request body encodes, by the result of the
send: the frame, the new counter and the registration. -/
theorem Subscribe_of_encode {I V : Type} (J : JSON I V) (c : SubscriptionClient)
    (req : Request V) (body : RawMessage)
    (hE : J.Encode { Query := req.q, Variables := req.vars } = .ok body) :
    Subscribe J c req =
      match c.conn.SendJSONMessage
        { ID := some (Itoa c.nextSubID), Type_ := subscriptionMessageTypeStart,
          Payload := body } with
      | (conn, some err) =>
        ({ c with conn := conn, nextSubID := c.nextSubID + 1 }, .error err)
      | (conn, none) =>
        ({ conn := conn,
           subscriptions := mapSet c.subscriptions (Itoa c.nextSubID)
             { id := Itoa c.nextSubID, Channel := c.chans.length },
           nextSubID := c.nextSubID + 1,
           chans := c.chans ++ [{ closed := false, received := [] }] },
         .ok { id := Itoa c.nextSubID, Channel := c.chans.length }) := by
  unfold Subscribe
  simp only [hE]
  rcases c.conn.SendJSONMessage
      { ID := some (Itoa c.nextSubID), Type_ := subscriptionMessageTypeStart, Payload := body }
    with ⟨conn, _ | e⟩ <;> rfl

theorem Subscribe_of_encode_error {I V : Type} (J : JSON I V) (c : SubscriptionClient)
    (req : Request V) (err : GoError)
    (hE : J.Encode { Query := req.q, Variables := req.vars } = .error err) :
    Subscribe J c req = (c, .error (err.Wrap "failed to encode request body")) := by
  unfold Subscribe
  simp only [hE]

/-- The counter never goes down in `Subscribe`, and a returned subscription has
the old counter as its id and advances the counter by one. -/
theorem Subscribe_counter {I V : Type} (J : JSON I V) (c : SubscriptionClient)
    (req : Request V) :
    c.nextSubID ≤ (Subscribe J c req).1.nextSubID
    ∧ ∀ sub, (Subscribe J c req).2 = .ok sub →
        sub.id = Itoa c.nextSubID ∧ (Subscribe J c req).1.nextSubID = c.nextSubID + 1 := by
  cases hE : J.Encode { Query := req.q, Variables := req.vars } with
  | error err =>
    rw [Subscribe_of_encode_error J c req err hE]
    simp
  | ok body =>
    rw [Subscribe_of_encode J c req body hE]
    rcases c.conn.SendJSONMessage
        { ID := some (Itoa c.nextSubID), Type_ := subscriptionMessageTypeStart,
          Payload := body }
      with ⟨conn, _ | e⟩
    · constructor
      · show c.nextSubID ≤ c.nextSubID + 1
        omega
      · intro sub h
        simp only [Except.ok.injEq] at h
        subst h
        exact ⟨rfl, rfl⟩
    · constructor
      · show c.nextSubID ≤ c.nextSubID + 1
        omega
      · intro sub h
        simp at h

/-- When the request body encodes, `Subscribe` hands exactly one frame to the
transport: a `start` frame with the old counter as id and the body as payload. -/
theorem Subscribe_sent {I V : Type} (J : JSON I V) (c : SubscriptionClient)
    (req : Request V) (body : RawMessage)
    (hE : J.Encode { Query := req.q, Variables := req.vars } = .ok body) :
    (Subscribe J c req).1.conn.sent = c.conn.sent ++
      [{ ID := some (Itoa c.nextSubID), Type_ := subscriptionMessageTypeStart,
         Payload := body }] := by
  rw [Subscribe_of_encode J c req body hE]
  have hs := SendJSONMessage_sent c.conn
    { ID := some (Itoa c.nextSubID), Type_ := subscriptionMessageTypeStart, Payload := body }
  rcases hsend : c.conn.SendJSONMessage
      { ID := some (Itoa c.nextSubID), Type_ := subscriptionMessageTypeStart,
        Payload := body }
    with ⟨conn', _ | e⟩ <;> rw [hsend] at hs <;> exact hs

/-- The ids returned by a sequence of `Subscribe` calls are the decimal strings of
strictly increasing numbers, none below the counter the sequence started from. -/
theorem subscribeAll_ids {I V : Type} (J : JSON I V) (reqs : List (Request V)) :
    ∀ c : SubscriptionClient, ∃ ns : List Nat,
      ns.Pairwise (fun a b => a < b) ∧ (∀ n ∈ ns, c.nextSubID ≤ n)
      ∧ (returned (subscribeAll J c reqs).2).map (fun s => s.id) = ns.map Itoa := by
  induction reqs with
  | nil => intro c; exact ⟨[], List.Pairwise.nil, by simp, rfl⟩
  | cons req rest ih =>
    intro c
    obtain ⟨ns, hp, hge, hids⟩ := ih (Subscribe J c req).1
    obtain ⟨hmono, hok⟩ := Subscribe_counter J c req
    cases hr : (Subscribe J c req).2 with
    | error err =>
      refine ⟨ns, hp, fun n hn => le_trans hmono (hge n hn), ?_⟩
      simp only [subscribeAll, returned, hr, List.filterMap_cons]
      exact hids
    | ok sub =>
      obtain ⟨hid, hnext⟩ := hok sub hr
      refine ⟨c.nextSubID :: ns, ?_, ?_, ?_⟩
      · refine List.Pairwise.cons ?_ hp
        intro n hn
        have := hge n hn
        omega
      · intro n hn
        rcases List.mem_cons.mp hn with h | h
        · omega
        · have := hge n h
          omega
      · simp only [subscribeAll, returned, hr, List.filterMap_cons, List.map_cons, hid]
        exact congrArg _ hids

/-- With the unbounded counter of `Subscribe`: on a fresh client, for every
sequence of `Subscribe` calls, the ids of the subscriptions returned are the
decimal strings of a strictly increasing sequence of natural numbers, no two
returned subscriptions share an id, and the first call uses id "0". This holds of
the Go counter for sequences that stay below its wrap. -/
theorem subscribe_ids_increasing {I V : Type} (J : JSON I V) (conn : Conn)
    (reqs : List (Request V)) :
    (∃ ns : List Nat, ns.Pairwise (fun a b => a < b)
      ∧ (returned (subscribeAll J (fresh conn) reqs).2).map (fun s => s.id) = ns.map Itoa)
    ∧ ((returned (subscribeAll J (fresh conn) reqs).2).map (fun s => s.id)).Nodup
    ∧ (∀ req rest, reqs = req :: rest →
        (∀ body, J.Encode { Query := req.q, Variables := req.vars } = .ok body →
          (Subscribe J (fresh conn) req).1.conn.sent = conn.sent ++
            [{ ID := some "0", Type_ := subscriptionMessageTypeStart, Payload := body }])
        ∧ (∀ sub, (subscribeAll J (fresh conn) reqs).2.head? = some (.ok sub) →
            sub.id = "0")) := by
  obtain ⟨ns, hp, _, hids⟩ := subscribeAll_ids J reqs (fresh conn)
  refine ⟨⟨ns, hp, hids⟩, ?_, ?_⟩
  · rw [hids]
    refine List.Nodup.map Itoa_injective ?_
    exact hp.imp (fun h => Nat.ne_of_lt h)
  · intro req rest hreqs
    subst hreqs
    constructor
    · intro body hE
      have h0 : Itoa 0 = "0" := by decide
      rw [Subscribe_sent J (fresh conn) req body hE]
      exact congrArg (fun i => conn.sent ++
        [(⟨some i, subscriptionMessageTypeStart, body⟩ : subscriptionMessage)]) h0
    · intro sub h
      have h0 : Itoa 0 = "0" := by decide
      simp only [subscribeAll, List.head?_cons, Option.some.injEq] at h
      have := ((Subscribe_counter J (fresh conn) req).2 sub h).1
      rw [this]
      exact h0

theorem subscribe_ids_increasing_witness :
    (returned (subscribeAll sampleJSON (fresh (sampleConn []))
      [sampleRequest, sampleRequest, sampleRequest]).2).map (fun s => s.id) = ["0", "1", "2"]
    ∧ ((returned (subscribeAll sampleJSON (fresh (sampleConn []))
      [sampleRequest, sampleRequest, sampleRequest]).2).map (fun s => s.id)).Nodup
    ∧ (Subscribe sampleJSON (fresh (sampleConn [])) sampleRequest).1.conn.sent =
      [{ ID := some "0", Type_ := subscriptionMessageTypeStart,
         Payload := "subscription ($q: String) \x7b cnt \x7d|q=foo" }] :=
  have h := subscribe_ids_increasing sampleJSON (sampleConn [])
    [sampleRequest, sampleRequest, sampleRequest]
  ⟨by decide, h.2.1, (h.2.2 sampleRequest [sampleRequest, sampleRequest] rfl).1 _ (by decide)⟩

/-! ## Maps and channels -/

theorem mapGet_append (m1 m2 : List (String × Subscription)) (k : String) :
    mapGet (m1 ++ m2) k = (mapGet m1 k).orElse (fun _ => mapGet m2 k) := by
  induction m1 with
  | nil => simp [mapGet]
  | cons e rest ih =>
    obtain ⟨k', v⟩ := e
    by_cases h : k' = k
    · simp [mapGet, h]
    · simp [mapGet, h, ih]

theorem mapGet_mapDelete (m : List (String × Subscription)) (k k' : String) :
    mapGet (mapDelete m k) k' = if k' = k then none else mapGet m k' := by
  induction m with
  | nil => simp [mapGet, mapDelete]
  | cons e rest ih =>
    obtain ⟨k0, v⟩ := e
    unfold mapDelete at ih ⊢
    by_cases h0 : k0 = k
    · subst h0
      by_cases h1 : k' = k0
      · subst h1; simpa [mapGet] using ih
      · have h2 : ¬ k0 = k' := fun h => h1 h.symm
        simp [mapGet, h1, h2] at ih ⊢
        exact ih
    · by_cases h1 : k' = k
      · subst h1
        simp [List.filter_cons, h0, mapGet] at ih ⊢
        exact ih
      · by_cases h2 : k0 = k'
        · simp [List.filter_cons, h0, mapGet, h1, h2]
        · simp [List.filter_cons, h0, mapGet, h1, h2] at ih ⊢
          exact ih

theorem mapGet_mapDelete_self (m : List (String × Subscription)) (k : String) :
    mapGet (mapDelete m k) k = none := by
  rw [mapGet_mapDelete]; simp

theorem mapGet_mapDelete_ne (m : List (String × Subscription)) (k k' : String) (h : k' ≠ k) :
    mapGet (mapDelete m k) k' = mapGet m k' := by
  rw [mapGet_mapDelete]; simp [h]

theorem mapGet_mapSet_self (m : List (String × Subscription)) (k : String) (v : Subscription) :
    mapGet (mapSet m k v) k = some v := by
  unfold mapSet
  rw [mapGet_append, mapGet_mapDelete_self]
  simp [mapGet]

theorem mapGet_mapSet_ne (m : List (String × Subscription)) (k k' : String) (v : Subscription)
    (h : k' ≠ k) : mapGet (mapSet m k v) k' = mapGet m k' := by
  unfold mapSet
  rw [mapGet_append, mapGet_mapDelete_ne m k k' h]
  have h2 : ¬ k = k' := fun e => h e.symm
  cases mapGet m k' <;> simp [mapGet, h2]

theorem mapGet_mem (m : List (String × Subscription)) (k : String) (v : Subscription)
    (h : mapGet m k = some v) : (k, v) ∈ m := by
  induction m with
  | nil => simp [mapGet] at h
  | cons e rest ih =>
    obtain ⟨k0, v0⟩ := e
    by_cases h0 : k0 = k
    · simp [mapGet, h0] at h
      simp [h0, h]
    · simp [mapGet, h0] at h
      exact List.mem_cons_of_mem _ (ih h)

/-- The effect of a successful `close(ch)`: the channel at `ch` was open and is
now closed with the same payloads; nothing else changes. -/
theorem closeChan_ok (chans : List Chan) (ch : Nat) (h : chanOpen chans ch = true) :
    ∃ chans', closeChan chans ch = .ok chans'
      ∧ chanClosed chans' ch = true
      ∧ chanOpen chans' ch = false
      ∧ chans'.length = chans.length
      ∧ (∀ a, delivered chans' a = delivered chans a)
      ∧ (∀ a, a ≠ ch → chans'[a]? = chans[a]?) := by
  unfold chanOpen at h
  unfold closeChan
  cases hg : chans[ch]? with
  | none => simp [hg] at h
  | some st =>
    simp only [hg, Bool.not_eq_true'] at h
    have hlt : ch < chans.length := by
      by_contra hc
      rw [List.getElem?_eq_none (by omega)] at hg
      cases hg
    refine ⟨chans.set ch { st with closed := true }, by simp [h], ?_, ?_, ?_, ?_, ?_⟩
    · simp [chanClosed, List.getElem?_set, hlt]
    · simp [chanOpen, List.getElem?_set, hlt]
    · simp
    · intro a
      unfold delivered
      by_cases ha : ch = a
      · subst ha; simp [List.getElem?_set, hlt, hg]
      · simp [List.getElem?_set, ha]
    · intro a ha
      have : ¬ ch = a := fun e => ha e.symm
      simp [List.getElem?_set, this]

/-- A `close(ch)` that does not succeed: the channel at `ch` is not open. -/
theorem closeChan_error (chans : List Chan) (ch : Nat) (h : chanOpen chans ch = false) :
    ∃ f, closeChan chans ch = .error f := by
  unfold chanOpen at h
  unfold closeChan
  cases hg : chans[ch]? with
  | none => exact ⟨_, rfl⟩
  | some st =>
    simp only [hg, Bool.not_eq_false'] at h
    simp [h]

/-- The effect of a send on an open channel: the payload is added at the end of
what the channel delivered; the channel stays open; nothing else changes. -/
theorem sendChan_ok (chans : List Chan) (ch : Nat) (p : SubscriptionPayload)
    (h : chanOpen chans ch = true) :
    ∃ chans', sendChan chans ch p = .ok chans'
      ∧ delivered chans' ch = delivered chans ch ++ [p]
      ∧ chans'.length = chans.length
      ∧ (∀ a, chanOpen chans' a = chanOpen chans a)
      ∧ (∀ a, chanClosed chans' a = chanClosed chans a)
      ∧ (∀ a, a ≠ ch → chans'[a]? = chans[a]?) := by
  unfold chanOpen at h
  unfold sendChan
  cases hg : chans[ch]? with
  | none => simp [hg] at h
  | some st =>
    simp only [hg, Bool.not_eq_true'] at h
    have hlt : ch < chans.length := by
      by_contra hc
      rw [List.getElem?_eq_none (by omega)] at hg
      cases hg
    refine ⟨chans.set ch { st with received := st.received ++ [p] }, by simp [h], ?_, ?_, ?_, ?_, ?_⟩
    · simp [delivered, List.getElem?_set, hlt, hg]
    · simp
    · intro a
      unfold chanOpen
      by_cases ha : ch = a
      · subst ha; simp [List.getElem?_set, hlt, hg]
      · simp [List.getElem?_set, ha]
    · intro a
      unfold chanClosed
      by_cases ha : ch = a
      · subst ha; simp [List.getElem?_set, hlt, hg]
      · simp [List.getElem?_set, ha]
    · intro a ha
      have : ¬ ch = a := fun e => ha e.symm
      simp [List.getElem?_set, this]

theorem chanOpen_lt (chans : List Chan) (ch : Nat) (h : chanOpen chans ch = true) :
    ch < chans.length := by
  unfold chanOpen at h
  by_contra hc
  rw [List.getElem?_eq_none (by omega)] at h
  simp at h

theorem chanOpen_of_getElem? (chans chans' : List Chan) (a : Nat) (h : chans'[a]? = chans[a]?) :
    chanOpen chans' a = chanOpen chans a := by
  unfold chanOpen; rw [h]

theorem delivered_of_getElem? (chans chans' : List Chan) (a : Nat) (h : chans'[a]? = chans[a]?) :
    delivered chans' a = delivered chans a := by
  unfold delivered; rw [h]

/-- The effect of `make(chan ...)`: the new address is the old heap size, it holds
an open channel that delivered nothing, and the old addresses are untouched. -/
theorem makeChan_spec (chans : List Chan) :
    (makeChan chans).2 = chans.length
    ∧ chanOpen (makeChan chans).1 chans.length = true
    ∧ delivered (makeChan chans).1 chans.length = []
    ∧ (∀ a, a < chans.length → (makeChan chans).1[a]? = chans[a]?) := by
  refine ⟨rfl, ?_, ?_, ?_⟩
  · simp [makeChan, chanOpen]
  · simp [makeChan, delivered]
  · intro a ha
    simp [makeChan, List.getElem?_append_left ha]

/-! ## Subscribe: the start frame and the registration -/

/-- C5. For every client and every request whose body encodes, `Subscribe` hands
exactly one frame to the transport; its type is `start`, its id is present and is
the decimal string of the counter, and its payload is the encoding of the body
with the query and the variables of the request, so that any decoder that inverts
the encoder gives back exactly the query and the variables. When `Subscribe`
returns a subscription, its id is the id of the frame, it is registered under
that id, and its channel is open and has delivered nothing. -/
theorem subscribe_start_frame {I V : Type} (J : JSON I V) (c : SubscriptionClient)
    (req : Request V) (body : RawMessage)
    (hE : J.Encode { Query := req.q, Variables := req.vars } = .ok body) :
    (∃ frame : subscriptionMessage,
      (Subscribe J c req).1.conn.sent = c.conn.sent ++ [frame]
      ∧ frame.Type_ = subscriptionMessageTypeStart
      ∧ frame.ID = some (Itoa c.nextSubID)
      ∧ J.Encode { Query := req.q, Variables := req.vars } = .ok frame.Payload
      ∧ (∀ decodeBody : RawMessage → Option (subscriptionRequestBody V),
          (∀ b p, J.Encode b = .ok p → decodeBody p = some b) →
          decodeBody frame.Payload = some { Query := req.q, Variables := req.vars })
      ∧ (∀ sub, (Subscribe J c req).2 = .ok sub → frame.ID = some sub.id))
    ∧ (∀ sub, (Subscribe J c req).2 = .ok sub →
        mapGet (Subscribe J c req).1.subscriptions sub.id = some sub
        ∧ chanOpen (Subscribe J c req).1.chans sub.Channel = true
        ∧ delivered (Subscribe J c req).1.chans sub.Channel = []) := by
  constructor
  · refine ⟨⟨some (Itoa c.nextSubID), subscriptionMessageTypeStart, body⟩,
      Subscribe_sent J c req body hE, rfl, rfl, hE, ?_, ?_⟩
    · intro decodeBody hinv
      exact hinv _ _ hE
    · intro sub hsub
      rw [((Subscribe_counter J c req).2 sub hsub).1]
  · intro sub hsub
    rw [Subscribe_of_encode J c req body hE] at hsub ⊢
    revert hsub
    rcases c.conn.SendJSONMessage
        { ID := some (Itoa c.nextSubID), Type_ := subscriptionMessageTypeStart,
          Payload := body }
      with ⟨conn, _ | e⟩ <;> intro hsub
    · have hsub' := Except.ok.inj hsub
      subst hsub'
      refine ⟨mapGet_mapSet_self _ _ _, ?_, ?_⟩
      · exact (makeChan_spec c.chans).2.1
      · exact (makeChan_spec c.chans).2.2.1
    · exact Except.noConfusion hsub

theorem subscribe_start_frame_witness :
    sampleJSON.Encode { Query := sampleRequest.q, Variables := sampleRequest.vars }
      = .ok "subscription ($q: String) \x7b cnt \x7d|q=foo"
    ∧ (Subscribe sampleJSON (fresh (sampleConn [])) sampleRequest).2 = .ok ⟨"0", 0⟩
    ∧ mapGet (Subscribe sampleJSON (fresh (sampleConn [])) sampleRequest).1.subscriptions "0"
      = some ⟨"0", 0⟩
    ∧ chanOpen (Subscribe sampleJSON (fresh (sampleConn [])) sampleRequest).1.chans 0 = true :=
  have h := subscribe_start_frame sampleJSON (fresh (sampleConn [])) sampleRequest
    "subscription ($q: String) \x7b cnt \x7d|q=foo" (by decide)
  have h2 := h.2 ⟨"0", 0⟩ (by decide)
  ⟨by decide, by decide, h2.1, h2.2.1⟩

/-- C6. For every client and request, if the body encodes and the send of the
start frame fails, `Subscribe` returns that error and no subscription, and the
map and every channel are exactly as before the call. -/
theorem subscribe_send_failure {I V : Type} (J : JSON I V) (c : SubscriptionClient)
    (req : Request V) (body : RawMessage) (err : GoError)
    (hE : J.Encode { Query := req.q, Variables := req.vars } = .ok body)
    (hS : (c.conn.SendJSONMessage
      { ID := some (Itoa c.nextSubID), Type_ := subscriptionMessageTypeStart,
        Payload := body }).2 = some err) :
    (Subscribe J c req).2 = .error err
    ∧ (Subscribe J c req).1.subscriptions = c.subscriptions
    ∧ (Subscribe J c req).1.chans = c.chans := by
  rw [Subscribe_of_encode J c req body hE]
  rcases hsend : c.conn.SendJSONMessage
      { ID := some (Itoa c.nextSubID), Type_ := subscriptionMessageTypeStart,
        Payload := body }
    with ⟨conn, _ | e⟩
  · rw [hsend] at hS; simp at hS
  · rw [hsend] at hS
    simp only [Option.some.injEq] at hS
    subst hS
    exact ⟨rfl, rfl, rfl⟩

theorem subscribe_send_failure_witness :
    (Subscribe sampleJSON
      (fresh { sent := [], sendResults := [some (GoError.New "broken pipe")], stream := [],
               closed := false }) sampleRequest).2 = .error (GoError.New "broken pipe")
    ∧ (Subscribe sampleJSON
      (fresh { sent := [], sendResults := [some (GoError.New "broken pipe")], stream := [],
               closed := false }) sampleRequest).1.subscriptions = []
    ∧ (Subscribe sampleJSON
      (fresh { sent := [], sendResults := [some (GoError.New "broken pipe")], stream := [],
               closed := false }) sampleRequest).1.chans = [] :=
  subscribe_send_failure sampleJSON
    (fresh { sent := [], sendResults := [some (GoError.New "broken pipe")], stream := [],
             closed := false })
    sampleRequest "subscription ($q: String) \x7b cnt \x7d|q=foo" (GoError.New "broken pipe")
    (by decide) (by decide)

/-! ## The dispatch loop: one frame -/

/-- C7. In a client where id `i` is registered with an open channel, the dispatch
of a frame that decodes with id `i`, type `data` and payload `p` delivers exactly
one payload to the subscription registered under `i`, with `Data` equal to `p` and
`Error` empty; the map, the other channels, the connection and the counter are
unchanged, `i` stays registered and its channel stays open. -/
theorem dispatch_data_delivers {I V : Type} (J : JSON I V) (c : SubscriptionClient)
    (rawMsg : Message) (i : String) (p : RawMessage) (sub : Subscription)
    (hU : J.UnmarshalAsJSON rawMsg
      = .ok { ID := some i, Type_ := subscriptionMessageTypeData, Payload := p })
    (hG : mapGet c.subscriptions i = some sub)
    (hO : chanOpen c.chans sub.Channel = true) :
    ∃ c', dispatch J c rawMsg = .ok c'
      ∧ delivered c'.chans sub.Channel
          = delivered c.chans sub.Channel ++ [{ Data := p, Error := "" }]
      ∧ (∀ a, a ≠ sub.Channel → c'.chans[a]? = c.chans[a]?)
      ∧ c'.subscriptions = c.subscriptions
      ∧ mapGet c'.subscriptions i = some sub
      ∧ chanOpen c'.chans sub.Channel = true
      ∧ c'.conn = c.conn ∧ c'.nextSubID = c.nextSubID := by
  have hne : subscriptionMessageTypeData ≠ subscriptionMessageTypeError := by decide
  obtain ⟨chans', hs, hd, _, ho, _, hother⟩ :=
    sendChan_ok c.chans sub.Channel { Data := p, Error := "" } hO
  refine ⟨{ c with chans := chans' }, ?_, hd, hother, rfl, hG, ?_, rfl, rfl⟩
  · unfold dispatch
    simp only [hU, hne, if_false, if_true, hG, hs]
  · rw [ho]; exact hO

theorem dispatch_data_delivers_witness :
    dispatch sampleJSON (Subscribe sampleJSON (fresh (sampleConn [])) sampleRequest).1 "data0"
      = .ok { conn := (Subscribe sampleJSON (fresh (sampleConn [])) sampleRequest).1.conn,
              subscriptions := [("0", ⟨"0", 0⟩)], nextSubID := 1,
              chans := [{ closed := false, received := [{ Data := "bar", Error := "" }] }] }
    ∧ ∃ c', dispatch sampleJSON
        (Subscribe sampleJSON (fresh (sampleConn [])) sampleRequest).1 "data0" = .ok c'
      ∧ delivered c'.chans 0 = [{ Data := "bar", Error := "" }] :=
  have h := dispatch_data_delivers sampleJSON
    (Subscribe sampleJSON (fresh (sampleConn [])) sampleRequest).1 "data0" "0" "bar" ⟨"0", 0⟩
    (by decide) (by decide) (by decide)
  ⟨by decide, h.elim (fun c' hc => ⟨c', hc.1, hc.2.1⟩)⟩

/-- C8. In a client where id `i` is registered with an open channel, the dispatch
of a frame that decodes with id `i`, type `error` and payload `p` delivers exactly
one payload to the subscription registered under `i`, with `Error` equal to `p`
and `Data` empty; the map, the other channels, the connection and the counter are
unchanged, `i` stays registered and its channel stays open. -/
theorem dispatch_error_delivers {I V : Type} (J : JSON I V) (c : SubscriptionClient)
    (rawMsg : Message) (i : String) (p : RawMessage) (sub : Subscription)
    (hU : J.UnmarshalAsJSON rawMsg
      = .ok { ID := some i, Type_ := subscriptionMessageTypeError, Payload := p })
    (hG : mapGet c.subscriptions i = some sub)
    (hO : chanOpen c.chans sub.Channel = true) :
    ∃ c', dispatch J c rawMsg = .ok c'
      ∧ delivered c'.chans sub.Channel
          = delivered c.chans sub.Channel ++ [{ Data := "", Error := p }]
      ∧ (∀ a, a ≠ sub.Channel → c'.chans[a]? = c.chans[a]?)
      ∧ c'.subscriptions = c.subscriptions
      ∧ mapGet c'.subscriptions i = some sub
      ∧ chanOpen c'.chans sub.Channel = true
      ∧ c'.conn = c.conn ∧ c'.nextSubID = c.nextSubID := by
  obtain ⟨chans', hs, hd, _, ho, _, hother⟩ :=
    sendChan_ok c.chans sub.Channel { Data := "", Error := p } hO
  refine ⟨{ c with chans := chans' }, ?_, hd, hother, rfl, hG, ?_, rfl, rfl⟩
  · unfold dispatch
    simp only [hU, if_true, hG, hs]
  · rw [ho]; exact hO

theorem dispatch_error_delivers_witness :
    dispatch sampleJSON (Subscribe sampleJSON (fresh (sampleConn [])) sampleRequest).1 "error0"
      = .ok { conn := (Subscribe sampleJSON (fresh (sampleConn [])) sampleRequest).1.conn,
              subscriptions := [("0", ⟨"0", 0⟩)], nextSubID := 1,
              chans := [{ closed := false, received := [{ Data := "", Error := "oops" }] }] }
    ∧ ∃ c', dispatch sampleJSON
        (Subscribe sampleJSON (fresh (sampleConn [])) sampleRequest).1 "error0" = .ok c'
      ∧ delivered c'.chans 0 = [{ Data := "", Error := "oops" }] :=
  have h := dispatch_error_delivers sampleJSON
    (Subscribe sampleJSON (fresh (sampleConn [])) sampleRequest).1 "error0" "0" "oops" ⟨"0", 0⟩
    (by decide) (by decide) (by decide)
  ⟨by decide, h.elim (fun c' hc => ⟨c', hc.1, hc.2.1⟩)⟩

/-! ## Teardown -/

/-- A call of `removeSubscription` that returns: the channel was closed by it,
the id was deleted, and nothing else changed. -/
theorem removeSubscription_ok (c c' : SubscriptionClient) (sub : Subscription)
    (h : removeSubscription c sub = .ok c') :
    closeChan c.chans sub.Channel = .ok c'.chans
    ∧ c'.subscriptions = mapDelete c.subscriptions sub.id
    ∧ c'.conn = c.conn ∧ c'.nextSubID = c.nextSubID := by
  unfold removeSubscription at h
  cases hc : closeChan c.chans sub.Channel with
  | error f => rw [hc] at h; exact Except.noConfusion h
  | ok chans =>
    rw [hc] at h
    have := Except.ok.inj h
    subst this
    exact ⟨rfl, rfl, rfl, rfl⟩

/-- On an open channel `removeSubscription` returns. -/
theorem removeSubscription_of_open (c : SubscriptionClient) (sub : Subscription)
    (h : chanOpen c.chans sub.Channel = true) :
    ∃ c', removeSubscription c sub = .ok c' := by
  obtain ⟨chans', hc, _⟩ := closeChan_ok c.chans sub.Channel h
  unfold removeSubscription
  rw [hc]
  exact ⟨_, rfl⟩

/-- A turn of the dispatch loop that returns leaves the connection and the
counter alone, and either leaves the map alone or deletes one id from it. -/
theorem dispatch_ok {I V : Type} (J : JSON I V) (c c' : SubscriptionClient)
    (rawMsg : Message) (h : dispatch J c rawMsg = .ok c') :
    c'.conn = c.conn ∧ c'.nextSubID = c.nextSubID
    ∧ (c'.subscriptions = c.subscriptions
        ∨ ∃ k, c'.subscriptions = mapDelete c.subscriptions k) := by
  unfold dispatch at h
  split at h
  · cases h; exact ⟨rfl, rfl, Or.inl rfl⟩
  · split at h
    · cases h; exact ⟨rfl, rfl, Or.inl rfl⟩
    · split at h
      · split at h
        · cases h; exact ⟨rfl, rfl, Or.inl rfl⟩
        · split at h
          · exact Except.noConfusion h
          · cases h; exact ⟨rfl, rfl, Or.inl rfl⟩
      · split at h
        · split at h
          · cases h; exact ⟨rfl, rfl, Or.inl rfl⟩
          · split at h
            · exact Except.noConfusion h
            · cases h; exact ⟨rfl, rfl, Or.inl rfl⟩
        · split at h
          · split at h
            · cases h; exact ⟨rfl, rfl, Or.inl rfl⟩
            · obtain ⟨_, hs, hc, hn⟩ := removeSubscription_ok _ _ _ h
              exact ⟨hc, hn, Or.inr ⟨_, hs⟩⟩
          · cases h; exact ⟨rfl, rfl, Or.inl rfl⟩

/-- The range loop of `Close`, when it returns, leaves the connection and the
counter alone and registers nothing. -/
theorem closeLoop_ok (pending : List (String × Subscription)) :
    ∀ c c' : SubscriptionClient, closeLoop pending c = .ok c' →
      c'.conn = c.conn ∧ c'.nextSubID = c.nextSubID
      ∧ ∀ k, mapGet c.subscriptions k = none → mapGet c'.subscriptions k = none := by
  induction pending with
  | nil =>
    intro c c' h
    cases h
    exact ⟨rfl, rfl, fun _ hk => hk⟩
  | cons e rest ih =>
    obtain ⟨k0, sub⟩ := e
    intro c c' h
    unfold closeLoop at h
    split at h
    · cases hr : removeSubscription c sub with
      | error f => rw [hr] at h; exact Except.noConfusion h
      | ok c1 =>
        rw [hr] at h
        obtain ⟨_, hs, hc, hn⟩ := removeSubscription_ok _ _ _ hr
        obtain ⟨hc', hn', hk'⟩ := ih c1 c' h
        refine ⟨hc'.trans hc, hn'.trans hn, ?_⟩
        intro k hk
        apply hk'
        rw [hs, mapGet_mapDelete]
        split
        · rfl
        · exact hk
    · exact ih c c' h

/-- An id is retired in a client when it was allocated (it is the decimal string
of a number below the counter) and is not registered. A retired id stays retired
through every step that returns. -/
theorem retired_step {I V : Type} (J : JSON I V) (c c' : SubscriptionClient) (op : Op V)
    (i : String) (h : step J c op = .ok c')
    (hA : ∃ n, n < c.nextSubID ∧ i = Itoa n) (hN : mapGet c.subscriptions i = none) :
    (∃ n, n < c'.nextSubID ∧ i = Itoa n) ∧ mapGet c'.subscriptions i = none := by
  obtain ⟨n, hn, hi⟩ := hA
  cases op with
  | subscribe req =>
    have h' := Except.ok.inj h
    subst h'
    refine ⟨⟨n, lt_of_lt_of_le hn (Subscribe_counter J c req).1, hi⟩, ?_⟩
    cases hE : J.Encode { Query := req.q, Variables := req.vars } with
    | error err => rw [Subscribe_of_encode_error J c req err hE]; exact hN
    | ok body =>
      rw [Subscribe_of_encode J c req body hE]
      rcases c.conn.SendJSONMessage
          { ID := some (Itoa c.nextSubID), Type_ := subscriptionMessageTypeStart,
            Payload := body }
        with ⟨conn, _ | e⟩
      · show mapGet (mapSet c.subscriptions (Itoa c.nextSubID) _) i = none
        rw [mapGet_mapSet_ne _ _ _ _ ?_]
        · exact hN
        · rw [hi]
          intro heq
          have := Itoa_injective heq
          omega
      · exact hN
  | unsubscribe sub =>
    unfold step at h
    simp only at h
    cases hu : Unsubscribe c sub with
    | error f => rw [hu] at h; exact Except.noConfusion h
    | ok r =>
      rw [hu] at h
      have h' := Except.ok.inj h
      subst h'
      unfold Unsubscribe at hu
      cases hr : removeSubscription c sub with
      | error f => rw [hr] at hu; exact Except.noConfusion hu
      | ok c1 =>
        rw [hr] at hu
        have hu' := Except.ok.inj hu
        subst hu'
        obtain ⟨_, hs, _, hnx⟩ := removeSubscription_ok _ _ _ hr
        refine ⟨⟨n, ?_, hi⟩, ?_⟩
        · show n < c1.nextSubID
          omega
        · show mapGet c1.subscriptions i = none
          rw [hs, mapGet_mapDelete]
          split
          · rfl
          · exact hN
  | close =>
    unfold step at h
    simp only at h
    cases hu : Close c with
    | error f => rw [hu] at h; exact Except.noConfusion h
    | ok r =>
      rw [hu] at h
      have h' := Except.ok.inj h
      subst h'
      unfold Close at hu
      cases hr : closeLoop c.subscriptions c with
      | error f => rw [hr] at hu; exact Except.noConfusion hu
      | ok c1 =>
        rw [hr] at hu
        have hu' := Except.ok.inj hu
        subst hu'
        obtain ⟨_, hnx, hk⟩ := closeLoop_ok _ _ _ hr
        refine ⟨⟨n, ?_, hi⟩, ?_⟩
        · show n < c1.nextSubID
          omega
        · exact hk i hN
  | dispatch rawMsg =>
    obtain ⟨_, hnx, hs⟩ := dispatch_ok J c c' rawMsg h
    refine ⟨⟨n, by omega, hi⟩, ?_⟩
    rcases hs with hs | ⟨k, hs⟩
    · rw [hs]; exact hN
    · rw [hs, mapGet_mapDelete]
      split
      · rfl
      · exact hN

theorem retired_steps {I V : Type} (J : JSON I V) (ops : List (Op V)) (i : String) :
    ∀ c c' : SubscriptionClient, steps J c ops = .ok c' →
      (∃ n, n < c.nextSubID ∧ i = Itoa n) → mapGet c.subscriptions i = none →
      (∃ n, n < c'.nextSubID ∧ i = Itoa n) ∧ mapGet c'.subscriptions i = none := by
  induction ops with
  | nil =>
    intro c c' h hA hN
    cases h
    exact ⟨hA, hN⟩
  | cons op rest ih =>
    intro c c' h hA hN
    unfold steps at h
    cases hs : step J c op with
    | error f => rw [hs] at h; exact Except.noConfusion h
    | ok c1 =>
      rw [hs] at h
      obtain ⟨hA1, hN1⟩ := retired_step J c c1 op i hs hA hN
      exact ih c1 c' h hA1 hN1

/-- A frame for an id that is not registered changes nothing. -/
theorem dispatch_unregistered {I V : Type} (J : JSON I V) (c : SubscriptionClient)
    (rawMsg : Message) (msg : subscriptionMessage) (i : String)
    (hU : J.UnmarshalAsJSON rawMsg = .ok msg) (hI : msg.ID = some i)
    (hN : mapGet c.subscriptions i = none) :
    dispatch J c rawMsg = .ok c := by
  unfold dispatch
  simp only [hU, hI, hN]
  split_ifs <;> rfl

/-- What the registry invariant says about one registered id. -/
theorem registryInv_at (c : SubscriptionClient) (i : String) (sub : Subscription)
    (hInv : registryInv c = true) (hG : mapGet c.subscriptions i = some sub) :
    (∃ n, n < c.nextSubID ∧ i = Itoa n) ∧ sub.id = i
      ∧ chanOpen c.chans sub.Channel = true := by
  unfold registryInv at hInv
  rw [List.all_eq_true] at hInv
  have h := hInv (i, sub) (mapGet_mem _ _ _ hG)
  simp only [Bool.and_eq_true, List.any_eq_true, List.mem_range, decide_eq_true_eq] at h
  obtain ⟨⟨⟨n, hn, hi⟩, hid⟩, ho⟩ := h
  exact ⟨⟨n, hn, hi⟩, hid, ho⟩

/-- C9. In a client that satisfies the registry invariant and where id `i` is
registered, the dispatch of a `complete` frame with id `i` closes the channel of
that subscription, removes `i` from the map, delivers no payload, sends no frame,
and leaves every other map entry and every other channel unchanged. After it, in
every state reached by any further steps, the dispatch of a `data` frame with id
`i` returns the state unchanged: nothing is delivered. -/
theorem dispatch_complete_removes {I V : Type} (J : JSON I V) (c : SubscriptionClient)
    (rawMsg : Message) (i : String) (p : RawMessage) (sub : Subscription)
    (hInv : registryInv c = true)
    (hU : J.UnmarshalAsJSON rawMsg
      = .ok { ID := some i, Type_ := subscriptionMessageTypeComplete, Payload := p })
    (hG : mapGet c.subscriptions i = some sub) :
    ∃ c', dispatch J c rawMsg = .ok c'
      ∧ chanClosed c'.chans sub.Channel = true
      ∧ mapGet c'.subscriptions i = none
      ∧ (∀ a, delivered c'.chans a = delivered c.chans a)
      ∧ (∀ k, k ≠ i → mapGet c'.subscriptions k = mapGet c.subscriptions k)
      ∧ (∀ a, a ≠ sub.Channel → c'.chans[a]? = c.chans[a]?)
      ∧ c'.conn = c.conn ∧ c'.nextSubID = c.nextSubID
      ∧ (∀ (ops : List (Op V)) (c'' : SubscriptionClient) (rawMsg' : Message)
          (p' : RawMessage), steps J c' ops = .ok c'' →
          J.UnmarshalAsJSON rawMsg'
            = .ok { ID := some i, Type_ := subscriptionMessageTypeData, Payload := p' } →
          dispatch J c'' rawMsg' = .ok c'') := by
  have hne1 : subscriptionMessageTypeComplete ≠ subscriptionMessageTypeError := by decide
  have hne2 : subscriptionMessageTypeComplete ≠ subscriptionMessageTypeData := by decide
  obtain ⟨hA, hid, hO⟩ := registryInv_at c i sub hInv hG
  obtain ⟨chans', hc, hcl, _, _, hd, hother⟩ := closeChan_ok c.chans sub.Channel hO
  have hr : removeSubscription c sub
      = .ok { c with chans := chans', subscriptions := mapDelete c.subscriptions sub.id } := by
    unfold removeSubscription
    rw [hc]
  have hN : mapGet (mapDelete c.subscriptions sub.id) i = none := by
    rw [hid]; exact mapGet_mapDelete_self _ _
  refine ⟨{ c with chans := chans', subscriptions := mapDelete c.subscriptions sub.id },
    ?_, hcl, hN, hd, ?_, hother, rfl, rfl, ?_⟩
  · unfold dispatch
    simp only [hU, hne1, hne2, if_false, if_true, hG, hr]
  · intro k hk
    show mapGet (mapDelete c.subscriptions sub.id) k = _
    rw [hid]
    exact mapGet_mapDelete_ne _ _ _ hk
  · intro ops c'' rawMsg' p' hsteps hU'
    have := retired_steps J ops i _ c'' hsteps hA hN
    exact dispatch_unregistered J c'' rawMsg' _ i hU' rfl this.2

theorem dispatch_complete_removes_witness :
    dispatch sampleJSON (Subscribe sampleJSON (fresh (sampleConn [])) sampleRequest).1
        "complete0"
      = .ok { conn := (Subscribe sampleJSON (fresh (sampleConn [])) sampleRequest).1.conn,
              subscriptions := [], nextSubID := 1,
              chans := [{ closed := true, received := [] }] }
    ∧ ∃ c', dispatch sampleJSON
        (Subscribe sampleJSON (fresh (sampleConn [])) sampleRequest).1 "complete0" = .ok c'
      ∧ mapGet c'.subscriptions "0" = none
      ∧ ∀ c'', steps sampleJSON c' [.subscribe sampleRequest, .dispatch "data1"] = .ok c'' →
          dispatch sampleJSON c'' "data0" = .ok c'' :=
  have h := dispatch_complete_removes sampleJSON
    (Subscribe sampleJSON (fresh (sampleConn [])) sampleRequest).1 "complete0" "0" ""
    ⟨"0", 0⟩ (by decide) (by decide) (by decide)
  ⟨by decide, h.elim (fun c' hc => ⟨c', hc.1, hc.2.2.1,
    fun c'' hs => hc.2.2.2.2.2.2.2.2 _ c'' "data0" "bar" hs (by decide)⟩)⟩

/-- C10. For every client and every subscription `sub` whose channel is open, as
the channel of every registered subscription is, `Unsubscribe` closes the channel
of `sub`, removes its id from the map and leaves every other entry and every
other channel unchanged, then hands exactly one frame to the transport, of type
`stop` with the id of `sub`. The removal and the close happen whatever the
transport answers, and the value returned is exactly that answer. -/
theorem unsubscribe_closes_and_sends_stop (c : SubscriptionClient) (sub : Subscription)
    (hO : chanOpen c.chans sub.Channel = true) :
    ∃ c', Unsubscribe c sub = .ok (c', (c.conn.SendJSONMessage
        { ID := some sub.id, Type_ := subscriptionMessageTypeStop, Payload := "" }).2)
      ∧ chanClosed c'.chans sub.Channel = true
      ∧ mapGet c'.subscriptions sub.id = none
      ∧ (∀ k, k ≠ sub.id → mapGet c'.subscriptions k = mapGet c.subscriptions k)
      ∧ (∀ a, a ≠ sub.Channel → c'.chans[a]? = c.chans[a]?)
      ∧ (∀ a, delivered c'.chans a = delivered c.chans a)
      ∧ c'.conn.sent = c.conn.sent ++
          [{ ID := some sub.id, Type_ := subscriptionMessageTypeStop, Payload := "" }]
      ∧ c'.nextSubID = c.nextSubID := by
  obtain ⟨chans', hc, hcl, _, _, hd, hother⟩ := closeChan_ok c.chans sub.Channel hO
  have hr : removeSubscription c sub
      = .ok { c with chans := chans', subscriptions := mapDelete c.subscriptions sub.id } := by
    unfold removeSubscription
    rw [hc]
  refine ⟨⟨(c.conn.SendJSONMessage ⟨some sub.id, subscriptionMessageTypeStop, ""⟩).1,
    mapDelete c.subscriptions sub.id, c.nextSubID, chans'⟩, ?_, hcl,
    mapGet_mapDelete_self _ _, ?_, hother, hd, SendJSONMessage_sent _ _, rfl⟩
  · unfold Unsubscribe
    rw [hr]
  · intro k hk
    exact mapGet_mapDelete_ne _ _ _ hk

theorem unsubscribe_closes_and_sends_stop_witness :
    mapGet (Subscribe sampleJSON
        (fresh { sent := [], sendResults := [none, some (GoError.New "broken pipe")],
                 stream := [], closed := false }) sampleRequest).1.subscriptions "0"
      = some ⟨"0", 0⟩
    ∧ (∃ c', Unsubscribe (Subscribe sampleJSON
        (fresh { sent := [], sendResults := [none, some (GoError.New "broken pipe")],
                 stream := [], closed := false }) sampleRequest).1 ⟨"0", 0⟩
      = .ok (c', some (GoError.New "broken pipe"))
      ∧ chanClosed c'.chans 0 = true ∧ mapGet c'.subscriptions "0" = none)
    ∧ steps sampleJSON (fresh (sampleConn []))
        [.subscribe sampleRequest, .unsubscribe ⟨"0", 0⟩]
      = .ok { conn := { sent := [⟨some "0", "start",
                          "subscription ($q: String) \x7b cnt \x7d|q=foo"⟩,
                          ⟨some "0", "stop", ""⟩],
                        sendResults := [], stream := [], closed := false },
              subscriptions := [], nextSubID := 1,
              chans := [{ closed := true, received := [] }] } :=
  have h := unsubscribe_closes_and_sends_stop (Subscribe sampleJSON
      (fresh { sent := [], sendResults := [none, some (GoError.New "broken pipe")],
               stream := [], closed := false }) sampleRequest).1 ⟨"0", 0⟩
    (by decide)
  ⟨by decide, h.elim (fun c' hc => ⟨c', hc.1, hc.2.1, hc.2.2.1⟩), by decide⟩

/-! ## The invariant of reachable states -/

theorem mem_mapDelete (m : List (String × Subscription)) (k : String)
    (e : String × Subscription) (h : e ∈ mapDelete m k) : e ∈ m ∧ e.1 ≠ k := by
  unfold mapDelete at h
  rw [List.mem_filter] at h
  exact ⟨h.1, by simpa using h.2⟩

theorem sessionInv_registryInv (c : SubscriptionClient) (hs : List Subscription)
    (h : sessionInv c hs) : registryInv c = true := by
  obtain ⟨ha, _, hc⟩ := h
  unfold registryInv
  rw [List.all_eq_true]
  intro e he
  obtain ⟨hmem, hid, ho⟩ := hc e he
  obtain ⟨⟨n, hn, hi⟩, _⟩ := ha e.2 hmem
  simp only [Bool.and_eq_true, List.any_eq_true, List.mem_range, decide_eq_true_eq]
  exact ⟨⟨⟨n, hn, by rw [← hid, hi]⟩, hid⟩, ho⟩

theorem sessionInv_fresh (conn : Conn) : sessionInv (fresh conn) [] := by
  refine ⟨?_, List.Pairwise.nil, ?_⟩
  · intro h hh; cases hh
  · intro e he; cases he

/-- Sends and receives on the connection do not touch the invariant. -/
theorem sessionInv_conn (c : SubscriptionClient) (hs : List Subscription) (conn : Conn)
    (h : sessionInv c hs) : sessionInv { c with conn := conn } hs := h

theorem sessionInv_removeSubscription (c c' : SubscriptionClient) (hs : List Subscription)
    (sub : Subscription) (h : sessionInv c hs) (hmem : sub ∈ hs)
    (hr : removeSubscription c sub = .ok c') : sessionInv c' hs := by
  obtain ⟨ha, hb, hc⟩ := h
  obtain ⟨hclose, hsubs, _, hnext⟩ := removeSubscription_ok c c' sub hr
  have hopen : chanOpen c.chans sub.Channel = true := by
    by_contra hno
    have hf : chanOpen c.chans sub.Channel = false := by simpa using hno
    obtain ⟨f, hf'⟩ := closeChan_error c.chans sub.Channel hf
    rw [hf'] at hclose
    exact Except.noConfusion hclose
  obtain ⟨chans', hc', _, _, hlen, _, hother⟩ := closeChan_ok c.chans sub.Channel hopen
  rw [hc'] at hclose
  have hch := Except.ok.inj hclose
  refine ⟨?_, hb, ?_⟩
  · intro h hh
    obtain ⟨⟨n, hn, hi⟩, hlt⟩ := ha h hh
    refine ⟨⟨n, by omega, hi⟩, ?_⟩
    rw [← hch, hlen]; exact hlt
  · intro e he
    rw [hsubs] at he
    obtain ⟨he1, he2⟩ := mem_mapDelete _ _ _ he
    obtain ⟨hm, hid, ho⟩ := hc e he1
    refine ⟨hm, hid, ?_⟩
    have hne : e.2 ≠ sub := by
      intro heq
      apply he2
      rw [← hid, heq]
    have hsymm : Symmetric (fun a b : Subscription => a.id ≠ b.id ∧ a.Channel ≠ b.Channel) :=
      fun a b hab => ⟨fun h => hab.1 h.symm, fun h => hab.2 h.symm⟩
    have hdist := hb.forall hsymm hm hmem hne
    rw [← hch, chanOpen_of_getElem? c.chans chans' _ (hother _ hdist.2)]
    exact ho

theorem sessionInv_Subscribe {I V : Type} (J : JSON I V) (c : SubscriptionClient)
    (hs : List Subscription) (req : Request V) (h : sessionInv c hs) :
    sessionInv (Subscribe J c req).1 (handlesAfter J c hs (.subscribe req)) := by
  obtain ⟨ha, hb, hc⟩ := h
  unfold handlesAfter
  simp only
  cases hE : J.Encode { Query := req.q, Variables := req.vars } with
  | error err =>
    rw [Subscribe_of_encode_error J c req err hE]
    exact ⟨ha, hb, hc⟩
  | ok body =>
    rw [Subscribe_of_encode J c req body hE]
    rcases c.conn.SendJSONMessage
        { ID := some (Itoa c.nextSubID), Type_ := subscriptionMessageTypeStart,
          Payload := body }
      with ⟨conn, _ | e⟩
    · refine ⟨?_, ?_, ?_⟩
      · intro h hh
        rcases List.mem_cons.mp hh with heq | hold
        · subst heq
          exact ⟨⟨c.nextSubID, Nat.lt_succ_self _, rfl⟩, by simp⟩
        · obtain ⟨⟨n, hn, hi⟩, hlt⟩ := ha h hold
          exact ⟨⟨n, Nat.lt_succ_of_lt hn, hi⟩, by simp; omega⟩
      · refine List.Pairwise.cons ?_ hb
        intro h hh
        obtain ⟨⟨n, hn, hi⟩, hlt⟩ := ha h hh
        constructor
        · show Itoa c.nextSubID ≠ h.id
          rw [hi]
          intro heq
          have := Itoa_injective heq
          omega
        · show c.chans.length ≠ h.Channel
          omega
      · intro e he
        show e.2 ∈ _ :: hs ∧ e.2.id = e.1 ∧ chanOpen (c.chans ++ _) e.2.Channel = true
        have he' : e ∈ mapSet c.subscriptions (Itoa c.nextSubID)
            { id := Itoa c.nextSubID, Channel := c.chans.length } := he
        unfold mapSet at he'
        rcases List.mem_append.mp he' with hold | hnew
        · obtain ⟨he1, _⟩ := mem_mapDelete _ _ _ hold
          obtain ⟨hm, hid, ho⟩ := hc e he1
          refine ⟨List.mem_cons_of_mem _ hm, hid, ?_⟩
          have hlt := chanOpen_lt _ _ ho
          rw [chanOpen_of_getElem? c.chans _ _ (List.getElem?_append_left hlt)]
          exact ho
        · simp only [List.mem_singleton] at hnew
          subst hnew
          exact ⟨List.mem_cons_self _ _, rfl, (makeChan_spec c.chans).2.1⟩
    · refine ⟨?_, hb, hc⟩
      intro h hh
      obtain ⟨⟨n, hn, hi⟩, hlt⟩ := ha h hh
      exact ⟨⟨n, Nat.lt_succ_of_lt hn, hi⟩, hlt⟩

theorem sessionInv_sendChan (c : SubscriptionClient) (hs : List Subscription)
    (chans' : List Chan) (ch : Nat) (p : SubscriptionPayload) (h : sessionInv c hs)
    (hsend : sendChan c.chans ch p = .ok chans') :
    sessionInv { c with chans := chans' } hs := by
  obtain ⟨ha, hb, hc⟩ := h
  have hopen : chanOpen c.chans ch = true := by
    unfold sendChan at hsend
    unfold chanOpen
    cases hg : c.chans[ch]? with
    | none => rw [hg] at hsend; exact Except.noConfusion hsend
    | some st =>
      rw [hg] at hsend
      simp only at hsend ⊢
      cases hcl : st.closed with
      | true => rw [hcl] at hsend; exact Except.noConfusion hsend
      | false => rfl
  obtain ⟨chans2, hs2, _, hlen, ho, _, _⟩ := sendChan_ok c.chans ch p hopen
  rw [hs2] at hsend
  have := Except.ok.inj hsend
  subst this
  refine ⟨?_, hb, ?_⟩
  · intro h hh
    obtain ⟨hn, hlt⟩ := ha h hh
    exact ⟨hn, by show h.Channel < chans2.length; omega⟩
  · intro e he
    obtain ⟨hm, hid, hopn⟩ := hc e he
    exact ⟨hm, hid, by show chanOpen chans2 _ = true; rw [ho]; exact hopn⟩

theorem sessionInv_dispatch {I V : Type} (J : JSON I V) (c c' : SubscriptionClient)
    (hs : List Subscription) (rawMsg : Message) (h : sessionInv c hs)
    (hd : dispatch J c rawMsg = .ok c') : sessionInv c' hs := by
  unfold dispatch at hd
  split at hd
  · cases hd; exact h
  · split at hd
    · cases hd; exact h
    · split at hd
      · split at hd
        · cases hd; exact h
        · split at hd
          · exact Except.noConfusion hd
          · rename_i hsend
            cases hd
            exact sessionInv_sendChan c hs _ _ _ h hsend
      · split at hd
        · split at hd
          · cases hd; exact h
          · split at hd
            · exact Except.noConfusion hd
            · rename_i hsend
              cases hd
              exact sessionInv_sendChan c hs _ _ _ h hsend
        · split at hd
          · split at hd
            · cases hd; exact h
            · rename_i sub hget
              exact sessionInv_removeSubscription c c' hs sub h
                (h.2.2 _ (mapGet_mem _ _ _ hget)).1 hd
          · cases hd; exact h

theorem sessionInv_closeLoop (hs : List Subscription)
    (pending : List (String × Subscription)) :
    ∀ c c' : SubscriptionClient, sessionInv c hs → (∀ e ∈ pending, e.2 ∈ hs) →
      closeLoop pending c = .ok c' → sessionInv c' hs := by
  induction pending with
  | nil => intro c c' h _ hl; cases hl; exact h
  | cons e rest ih =>
    obtain ⟨k0, sub⟩ := e
    intro c c' h hp hl
    have hrest : ∀ e ∈ rest, e.2 ∈ hs := fun e he => hp e (List.mem_cons_of_mem _ he)
    unfold closeLoop at hl
    split at hl
    · cases hr : removeSubscription c sub with
      | error f => rw [hr] at hl; exact Except.noConfusion hl
      | ok c1 =>
        rw [hr] at hl
        exact ih c1 c' (sessionInv_removeSubscription c c1 hs sub h
          (hp (k0, sub) (List.mem_cons_self _ _)) hr) hrest hl
    · exact ih c c' h hrest hl

theorem sessionInv_Close (c : SubscriptionClient) (hs : List Subscription)
    (r : SubscriptionClient × Option GoError) (h : sessionInv c hs)
    (hc : Close c = .ok r) : sessionInv r.1 hs := by
  unfold Close at hc
  cases hl : closeLoop c.subscriptions c with
  | error f => rw [hl] at hc; exact Except.noConfusion hc
  | ok c1 =>
    rw [hl] at hc
    have := Except.ok.inj hc
    subst this
    exact sessionInv_conn c1 hs _
      (sessionInv_closeLoop hs c.subscriptions c c1 h (fun e he => (h.2.2 e he).1) hl)

theorem sessionInv_Unsubscribe (c : SubscriptionClient) (hs : List Subscription)
    (sub : Subscription) (r : SubscriptionClient × Option GoError) (h : sessionInv c hs)
    (hmem : sub ∈ hs) (hu : Unsubscribe c sub = .ok r) : sessionInv r.1 hs := by
  unfold Unsubscribe at hu
  cases hr : removeSubscription c sub with
  | error f => rw [hr] at hu; exact Except.noConfusion hu
  | ok c1 =>
    rw [hr] at hu
    have := Except.ok.inj hu
    subst this
    exact sessionInv_conn c1 hs _ (sessionInv_removeSubscription c c1 hs sub h hmem hr)

/-- The invariant holds after every legal run that returns. -/
theorem sessionInv_steps {I V : Type} (J : JSON I V) (ops : List (Op V)) :
    ∀ (c c' : SubscriptionClient) (hs : List Subscription), sessionInv c hs →
      legalRun J c hs ops = true → steps J c ops = .ok c' →
      ∃ hs', sessionInv c' hs' := by
  induction ops with
  | nil => intro c c' hs h _ hst; cases hst; exact ⟨hs, h⟩
  | cons op rest ih =>
    intro c c' hs h hl hst
    unfold steps at hst
    unfold legalRun at hl
    rw [Bool.and_eq_true] at hl
    obtain ⟨hl1, hl2⟩ := hl
    cases hs1 : step J c op with
    | error f => rw [hs1] at hst; exact Except.noConfusion hst
    | ok c1 =>
      rw [hs1] at hst hl2
      simp only at hl2
      refine ih c1 c' (handlesAfter J c hs op) ?_ hl2 hst
      cases op with
      | subscribe req =>
        have := Except.ok.inj hs1
        subst this
        exact sessionInv_Subscribe J c hs req h
      | unsubscribe sub =>
        simp only [decide_eq_true_eq] at hl1
        unfold step at hs1
        simp only at hs1
        cases hu : Unsubscribe c sub with
        | error f => rw [hu] at hs1; exact Except.noConfusion hs1
        | ok r =>
          rw [hu] at hs1
          have := Except.ok.inj hs1
          subst this
          exact sessionInv_Unsubscribe c hs sub r h hl1 hu
      | close =>
        unfold step at hs1
        simp only at hs1
        cases hu : Close c with
        | error f => rw [hu] at hs1; exact Except.noConfusion hs1
        | ok r =>
          rw [hu] at hs1
          have := Except.ok.inj hs1
          subst this
          exact sessionInv_Close c hs r h hu
      | dispatch rawMsg =>
        exact sessionInv_dispatch J c c1 hs rawMsg h hs1

/-- Every state reached from a fresh client by a run that does not panic and
calls `Unsubscribe` only on handles returned by `Subscribe` satisfies the
registry invariant: every registered id is allocated, is stored with a
subscription carrying it, and has an open channel. -/
theorem registryInv_reachable {I V : Type} (J : JSON I V) (conn : Conn) (ops : List (Op V))
    (c : SubscriptionClient) (hl : legalRun J (fresh conn) [] ops = true)
    (hst : steps J (fresh conn) ops = .ok c) : registryInv c = true := by
  obtain ⟨hs', h⟩ := sessionInv_steps J ops (fresh conn) c [] (sessionInv_fresh conn) hl hst
  exact sessionInv_registryInv c hs' h

/-! ## Close -/

theorem chanClosed_of_getElem? (chans chans' : List Chan) (a : Nat) (h : chans'[a]? = chans[a]?) :
    chanClosed chans' a = chanClosed chans a := by
  unfold chanClosed; rw [h]

/-- Under the invariant two handles with the same id are the same handle. -/
theorem sessionInv_handle_eq (c : SubscriptionClient) (hs : List Subscription)
    (a b : Subscription) (h : sessionInv c hs) (ha : a ∈ hs) (hb : b ∈ hs)
    (hid : a.id = b.id) : a = b := by
  by_contra hne
  have hsymm : Symmetric (fun a b : Subscription => a.id ≠ b.id ∧ a.Channel ≠ b.Channel) :=
    fun a b hab => ⟨fun h => hab.1 h.symm, fun h => hab.2 h.symm⟩
  exact (h.2.1.forall hsymm ha hb hne).1 hid

/-- Under the invariant two handles with different ids have different channels. -/
theorem sessionInv_channel_ne (c : SubscriptionClient) (hs : List Subscription)
    (a b : Subscription) (h : sessionInv c hs) (ha : a ∈ hs) (hb : b ∈ hs)
    (hid : a.id ≠ b.id) : a.Channel ≠ b.Channel := by
  have hne : a ≠ b := fun e => hid (by rw [e])
  have hsymm : Symmetric (fun a b : Subscription => a.id ≠ b.id ∧ a.Channel ≠ b.Channel) :=
    fun a b hab => ⟨fun h => hab.1 h.symm, fun h => hab.2 h.symm⟩
  exact (h.2.1.forall hsymm ha hb hne).2

/-- The removal of a subscription whose channel is open, spelled out. -/
theorem removeSubscription_spec (c : SubscriptionClient) (sub : Subscription)
    (hO : chanOpen c.chans sub.Channel = true) :
    ∃ c', removeSubscription c sub = .ok c'
      ∧ c'.subscriptions = mapDelete c.subscriptions sub.id
      ∧ c'.conn = c.conn ∧ c'.nextSubID = c.nextSubID
      ∧ chanClosed c'.chans sub.Channel = true
      ∧ c'.chans.length = c.chans.length
      ∧ (∀ a, delivered c'.chans a = delivered c.chans a)
      ∧ (∀ a, a ≠ sub.Channel → c'.chans[a]? = c.chans[a]?) := by
  obtain ⟨chans', hc, hcl, _, hlen, hd, hother⟩ := closeChan_ok c.chans sub.Channel hO
  refine ⟨{ c with chans := chans', subscriptions := mapDelete c.subscriptions sub.id },
    ?_, rfl, rfl, rfl, hcl, hlen, hd, hother⟩
  unfold removeSubscription
  rw [hc]

/-- The range loop of `Close` under the invariant, for pending entries that are
handles stored under their own id: it returns, every pending key is gone from
the map and no other key is touched, the channel of every pending entry that was
registered is closed, closed channels stay closed, no payload is delivered, and
the channels of no pending entry are untouched. -/
theorem closeLoop_spec (hs : List Subscription) (pending : List (String × Subscription)) :
    ∀ c : SubscriptionClient, sessionInv c hs →
      (∀ e ∈ pending, e.2 ∈ hs ∧ e.2.id = e.1) →
      ∃ c', closeLoop pending c = .ok c'
        ∧ sessionInv c' hs
        ∧ c'.conn = c.conn ∧ c'.nextSubID = c.nextSubID
        ∧ (∀ k, mapGet c'.subscriptions k
            = if k ∈ pending.map Prod.fst then none else mapGet c.subscriptions k)
        ∧ (∀ a, delivered c'.chans a = delivered c.chans a)
        ∧ (∀ a, chanClosed c.chans a = true → chanClosed c'.chans a = true)
        ∧ (∀ e ∈ pending, mapGet c.subscriptions e.1 = some e.2 →
            chanClosed c'.chans e.2.Channel = true)
        ∧ (∀ a, (∀ e ∈ pending, e.2.Channel ≠ a) → c'.chans[a]? = c.chans[a]?) := by
  induction pending with
  | nil =>
    intro c h _
    exact ⟨c, rfl, h, rfl, rfl, by simp, fun _ => rfl, fun _ ha => ha,
      fun e he => absurd he (List.not_mem_nil e), fun _ _ => rfl⟩
  | cons e rest ih =>
    obtain ⟨k0, sub⟩ := e
    intro c h hp
    have hrest : ∀ e ∈ rest, e.2 ∈ hs ∧ e.2.id = e.1 :=
      fun e he => hp e (List.mem_cons_of_mem _ he)
    obtain ⟨hsubmem, hsubid⟩ := hp (k0, sub) (List.mem_cons_self _ _)
    simp only at hsubmem hsubid
    unfold closeLoop
    cases hget : mapGet c.subscriptions k0 with
    | none =>
      simp only [Option.isSome_none, Bool.false_eq_true, if_false]
      obtain ⟨c', hl, hinv, hconn, hnext, hmap, hdel, hmono, hclosed, hother⟩ := ih c h hrest
      refine ⟨c', hl, hinv, hconn, hnext, ?_, hdel, hmono, ?_, ?_⟩
      · intro k
        rw [hmap k]
        by_cases hk : k ∈ rest.map Prod.fst
        · simp [hk]
        · by_cases hk0 : k = k0
          · subst hk0; simp [hget]
          · simp only [List.map_cons, List.mem_cons, hk0, hk, or_self, if_false]
      · intro e he hreg
        rcases List.mem_cons.mp he with heq | hin
        · subst heq
          simp only at hreg
          rw [hget] at hreg
          cases hreg
        · exact hclosed e hin hreg
      · intro a ha
        exact hother a (fun e he => ha e (List.mem_cons_of_mem _ he))
    | some s' =>
      simp only [Option.isSome_some, if_true]
      have hs' := h.2.2 (k0, s') (mapGet_mem _ _ _ hget)
      simp only at hs'
      have heq : s' = sub :=
        sessionInv_handle_eq c hs s' sub h hs'.1 hsubmem (by rw [hs'.2.1, hsubid])
      subst heq
      obtain ⟨c1, hr, hsubs1, hconn1, hnext1, hcl1, _, hdel1, hother1⟩ :=
        removeSubscription_spec c s' hs'.2.2
      rw [hr]
      simp only
      have hinv1 := sessionInv_removeSubscription c c1 hs s' h hsubmem hr
      obtain ⟨c', hl, hinv, hconn, hnext, hmap, hdel, hmono, hclosed, hother⟩ :=
        ih c1 hinv1 hrest
      refine ⟨c', hl, hinv, hconn.trans hconn1, hnext.trans hnext1, ?_, ?_, ?_, ?_, ?_⟩
      · intro k
        rw [hmap k, hsubs1, mapGet_mapDelete, hsubid]
        by_cases hk : k ∈ rest.map Prod.fst
        · simp [hk]
        · by_cases hk0 : k = k0
          · simp [hk0]
          · simp only [List.map_cons, List.mem_cons, hk0, hk, or_self, if_false]
      · intro a
        rw [hdel a, hdel1 a]
      · intro a ha
        apply hmono
        by_cases hac : a = s'.Channel
        · rw [hac]; exact hcl1
        · rw [chanClosed_of_getElem? c.chans c1.chans a (hother1 a hac)]
          exact ha
      · intro e he hreg
        rcases List.mem_cons.mp he with heq | hin
        · subst heq
          exact hmono _ hcl1
        · by_cases hek : e.1 = k0
          · have he2 := hrest e hin
            have hes : e.2 = s' := by
              rw [hek, hget] at hreg
              exact (Option.some.inj hreg).symm
            rw [hes]
            exact hmono _ hcl1
          · apply hclosed e hin
            rw [hsubs1, mapGet_mapDelete_ne _ _ _ (by rw [hsubid]; exact hek)]
            exact hreg
      · intro a ha
        have ha0 : a ≠ s'.Channel := fun e => ha (k0, s') (List.mem_cons_self _ _) e.symm
        rw [hother a (fun e he => ha e (List.mem_cons_of_mem _ he)), hother1 a ha0]

theorem mapGet_none_nil (m : List (String × Subscription))
    (h : ∀ k, mapGet m k = none) : m = [] := by
  cases m with
  | nil => rfl
  | cons e rest =>
    obtain ⟨k, v⟩ := e
    have := h k
    simp [mapGet] at this

/-- The whole of `Close` under the invariant. -/
theorem Close_spec (c : SubscriptionClient) (hs : List Subscription) (h : sessionInv c hs) :
    ∃ c', Close c = .ok (c', (c.conn.SendJSONMessage
        { ID := none, Type_ := subscriptionMessageTerminate, Payload := "" }).2)
      ∧ sessionInv c' hs
      ∧ c'.subscriptions = []
      ∧ (∀ k sub, mapGet c.subscriptions k = some sub →
          chanClosed c'.chans sub.Channel = true)
      ∧ (∀ a, chanClosed c.chans a = true → chanClosed c'.chans a = true)
      ∧ (∀ a, (∀ e ∈ c.subscriptions, e.2.Channel ≠ a) → c'.chans[a]? = c.chans[a]?)
      ∧ (∀ a, delivered c'.chans a = delivered c.chans a)
      ∧ c'.conn = (c.conn.SendJSONMessage
          { ID := none, Type_ := subscriptionMessageTerminate, Payload := "" }).1
      ∧ c'.nextSubID = c.nextSubID := by
  obtain ⟨c1, hl, hinv, hconn, hnext, hmap, hdel, hmono, hclosed, hother⟩ :=
    closeLoop_spec hs c.subscriptions c h (fun e he => ⟨(h.2.2 e he).1, (h.2.2 e he).2.1⟩)
  refine ⟨{ c1 with conn := (c.conn.SendJSONMessage
      ⟨none, subscriptionMessageTerminate, ""⟩).1 }, ?_, sessionInv_conn c1 hs _ hinv, ?_,
    ?_, hmono, hother, hdel, rfl, hnext⟩
  · unfold Close
    rw [hl]
    simp only [hconn]
  · apply mapGet_none_nil
    intro k
    rw [hmap k]
    split
    · rfl
    · rename_i hk
      cases hg : mapGet c.subscriptions k with
      | none => rfl
      | some s =>
        exfalso
        apply hk
        exact List.mem_map.mpr ⟨(k, s), mapGet_mem _ _ _ hg, rfl⟩
  · intro k sub hg
    exact hclosed (k, sub) (mapGet_mem _ _ _ hg) hg

/-- Under the invariant a turn of the dispatch loop never panics. -/
theorem dispatch_total {I V : Type} (J : JSON I V) (c : SubscriptionClient)
    (hs : List Subscription) (rawMsg : Message) (h : sessionInv c hs) :
    ∃ c', dispatch J c rawMsg = .ok c' := by
  unfold dispatch
  split
  · exact ⟨_, rfl⟩
  · split
    · exact ⟨_, rfl⟩
    · split
      · split
        · exact ⟨_, rfl⟩
        · rename_i sub hget
          obtain ⟨chans', hsend, _⟩ := sendChan_ok c.chans sub.Channel
            { Data := "", Error := _ } (h.2.2 _ (mapGet_mem _ _ _ hget)).2.2
          rw [hsend]
          exact ⟨_, rfl⟩
      · split
        · split
          · exact ⟨_, rfl⟩
          · rename_i sub hget
            obtain ⟨chans', hsend, _⟩ := sendChan_ok c.chans sub.Channel
              { Data := _, Error := "" } (h.2.2 _ (mapGet_mem _ _ _ hget)).2.2
            rw [hsend]
            exact ⟨_, rfl⟩
        · split
          · split
            · exact ⟨_, rfl⟩
            · rename_i sub hget
              obtain ⟨c', hr, _⟩ := removeSubscription_spec c sub
                (h.2.2 _ (mapGet_mem _ _ _ hget)).2.2
              exact ⟨c', hr⟩
          · exact ⟨_, rfl⟩

/-- Under the invariant the range loop of `run` returns for every finite list of
frames; it keeps the invariant, hands no frame to the transport, leaves the
counter alone and has received every frame of the list. -/
theorem runLoop_spec {I V : Type} (J : JSON I V) (hs : List Subscription)
    (frames : List Message) :
    ∀ c : SubscriptionClient, sessionInv c hs →
      ∃ c', runLoop J frames c = .ok c'
        ∧ sessionInv c' hs
        ∧ c'.conn.sent = c.conn.sent
        ∧ c'.conn.sendResults = c.conn.sendResults
        ∧ c'.nextSubID = c.nextSubID
        ∧ c'.conn.stream = (match frames with
            | [] => c.conn.stream
            | _ :: _ => []) := by
  induction frames with
  | nil => intro c h; exact ⟨c, rfl, h, rfl, rfl, rfl, rfl⟩
  | cons m rest ih =>
    intro c h
    have h0 : sessionInv { c with conn := { c.conn with stream := rest } } hs :=
      sessionInv_conn c hs _ h
    obtain ⟨c1, hd⟩ := dispatch_total J _ hs m h0
    obtain ⟨hconn1, hnext1, _⟩ := dispatch_ok J _ c1 m hd
    have h1 := sessionInv_dispatch J _ c1 hs m h0 hd
    obtain ⟨c', hl, hinv, hsent, hres, hnext, hstream⟩ := ih c1 h1
    refine ⟨c', ?_, hinv, ?_, ?_, ?_, ?_⟩
    · unfold runLoop
      rw [hd]
      exact hl
    · rw [hsent, hconn1]
    · rw [hres, hconn1]
    · rw [hnext, hnext1]
    · rw [hstream, hconn1]
      cases rest <;> rfl

/-- On an empty map `Close` only sends the terminate frame. -/
theorem Close_of_empty (c : SubscriptionClient) (h : c.subscriptions = []) :
    Close c = .ok ({ c with conn := (c.conn.SendJSONMessage
        { ID := none, Type_ := subscriptionMessageTerminate, Payload := "" }).1 },
      (c.conn.SendJSONMessage
        { ID := none, Type_ := subscriptionMessageTerminate, Payload := "" }).2) := by
  have hl : closeLoop c.subscriptions c = .ok c := by
    rw [h]; rfl
  unfold Close
  rw [hl]

/-- C11. For every client that satisfies the invariant of reachable states (the
map entries are handles returned by `Subscribe`, stored under their own id, with
open channels, and different handles have different channels), the empty client
included, a single call of `Close` returns, closes the channel of every
registered subscription, leaves the map empty, delivers nothing, and hands
exactly one frame to the transport, of type `connection_terminate` with no id;
the value returned is the result of that send. -/
theorem close_tears_down (c : SubscriptionClient) (hs : List Subscription)
    (hInv : sessionInv c hs) :
    ∃ c', Close c = .ok (c', (c.conn.SendJSONMessage
        { ID := none, Type_ := subscriptionMessageTerminate, Payload := "" }).2)
      ∧ (∀ k sub, mapGet c.subscriptions k = some sub →
          chanClosed c'.chans sub.Channel = true)
      ∧ c'.subscriptions = []
      ∧ c'.conn.sent = c.conn.sent ++
          [{ ID := none, Type_ := subscriptionMessageTerminate, Payload := "" }]
      ∧ (∀ a, delivered c'.chans a = delivered c.chans a)
      ∧ (∀ a, (∀ e ∈ c.subscriptions, e.2.Channel ≠ a) → c'.chans[a]? = c.chans[a]?)
      ∧ c'.nextSubID = c.nextSubID := by
  obtain ⟨c', hc, _, hempty, hclosed, _, hother, hdel, hconn, hnext⟩ := Close_spec c hs hInv
  refine ⟨c', hc, hclosed, hempty, ?_, hdel, hother, hnext⟩
  rw [hconn]
  exact SendJSONMessage_sent _ _

theorem close_tears_down_witness :
    (∃ c', Close (subscribeAll sampleJSON (fresh (sampleConn []))
        [sampleRequest, sampleRequest]).1 = .ok (c', none)
      ∧ c'.subscriptions = []
      ∧ chanClosed c'.chans 0 = true ∧ chanClosed c'.chans 1 = true)
    ∧ Close (fresh (sampleConn []))
      = .ok ({ conn := { sent := [⟨none, "connection_terminate", ""⟩], sendResults := [],
                         stream := [], closed := false },
               subscriptions := [], nextSubID := 0, chans := [] }, none) :=
  have h := close_tears_down
    (subscribeAll sampleJSON (fresh (sampleConn [])) [sampleRequest, sampleRequest]).1 _
    (sessionInv_Subscribe sampleJSON _ _ sampleRequest
      (sessionInv_Subscribe sampleJSON _ _ sampleRequest (sessionInv_fresh (sampleConn []))))
  ⟨h.elim (fun c' hc => ⟨c', hc.1, hc.2.2.1, hc.2.1 "0" ⟨"0", 0⟩ (by decide),
    hc.2.1 "1" ⟨"1", 1⟩ (by decide)⟩), by decide⟩

/-- C12. For every client that satisfies the invariant of reachable states,
`Close` called twice in a row returns both times, and so does `Close` called on
the client the dispatch loop `run` leaves behind after its own `Close`; the
second `Close` closes no channel: the map and every channel after it are those
after the first. -/
theorem close_idempotent {I V : Type} (J : JSON I V) (c : SubscriptionClient)
    (hs : List Subscription) (hInv : sessionInv c hs) :
    (∃ c1 r1 c2 r2, Close c = .ok (c1, r1) ∧ Close c1 = .ok (c2, r2)
      ∧ c2.subscriptions = c1.subscriptions ∧ c2.chans = c1.chans)
    ∧ (∃ c1 r1 c2 r2, run J c = .ok (c1, r1) ∧ Close c1 = .ok (c2, r2)
      ∧ c2.subscriptions = c1.subscriptions ∧ c2.chans = c1.chans) := by
  constructor
  · obtain ⟨c1, hc, _, hempty, _⟩ := Close_spec c hs hInv
    exact ⟨c1, _, _, _, hc, Close_of_empty c1 hempty, rfl, rfl⟩
  · obtain ⟨cl, hl, hinvl, _⟩ := runLoop_spec J hs c.conn.stream c hInv
    obtain ⟨c1, hc, _, hempty, _⟩ := Close_spec cl hs hinvl
    refine ⟨c1, (cl.conn.SendJSONMessage ⟨none, subscriptionMessageTerminate, ""⟩).2,
      _, _, ?_, Close_of_empty c1 hempty, rfl, rfl⟩
    unfold run
    rw [hl]
    exact hc

theorem close_idempotent_witness :
    (∃ c1 r1 c2 r2, Close (Subscribe sampleJSON (fresh (sampleConn [])) sampleRequest).1
        = .ok (c1, r1) ∧ Close c1 = .ok (c2, r2)
      ∧ c2.subscriptions = c1.subscriptions ∧ c2.chans = c1.chans)
    ∧ (steps sampleJSON (fresh (sampleConn [])) [.subscribe sampleRequest, .close, .close]
      = .ok { conn := { sent := [⟨some "0", "start",
                          "subscription ($q: String) \x7b cnt \x7d|q=foo"⟩,
                          ⟨none, "connection_terminate", ""⟩,
                          ⟨none, "connection_terminate", ""⟩],
                        sendResults := [], stream := [], closed := false },
              subscriptions := [], nextSubID := 1,
              chans := [{ closed := true, received := [] }] }) :=
  ⟨(close_idempotent sampleJSON (Subscribe sampleJSON (fresh (sampleConn [])) sampleRequest).1
    _ (sessionInv_Subscribe sampleJSON _ _ sampleRequest (sessionInv_fresh (sampleConn [])))).1,
    by decide⟩

/-! ## Routing by id -/

/-- The turn of the dispatch loop with the map lookup pulled in front of the
switch on the type: every case of the switch starts with the same lookup. -/
theorem dispatch_eq {I V : Type} (J : JSON I V) (c : SubscriptionClient) (rawMsg : Message) :
    dispatch J c rawMsg =
      match J.UnmarshalAsJSON rawMsg with
      | .error _ => .ok c
      | .ok msg =>
        match msg.ID with
        | none => .ok c
        | some id =>
          match mapGet c.subscriptions id with
          | none => .ok c
          | some sub =>
            if msg.Type_ = subscriptionMessageTypeError then
              match sendChan c.chans sub.Channel { Data := "", Error := msg.Payload } with
              | .error f => .error f
              | .ok chans => .ok { c with chans := chans }
            else if msg.Type_ = subscriptionMessageTypeData then
              match sendChan c.chans sub.Channel { Data := msg.Payload, Error := "" } with
              | .error f => .error f
              | .ok chans => .ok { c with chans := chans }
            else if msg.Type_ = subscriptionMessageTypeComplete then
              removeSubscription c sub
            else .ok c := by
  unfold dispatch
  cases J.UnmarshalAsJSON rawMsg with
  | error e => rfl
  | ok msg =>
    simp only
    cases msg.ID with
    | none => rfl
    | some id =>
      simp only
      cases mapGet c.subscriptions id with
      | none => simp only; split_ifs <;> rfl
      | some sub => rfl

/-- What a frame with id `i` does under the invariant: the turn returns, map
entries under other ids are as before, and so is the channel of every handle
with another id. -/
theorem dispatch_frame {I V : Type} (J : JSON I V) (c : SubscriptionClient)
    (hs : List Subscription) (rawMsg : Message) (msg : subscriptionMessage) (i : String)
    (h : sessionInv c hs) (hU : J.UnmarshalAsJSON rawMsg = .ok msg) (hI : msg.ID = some i) :
    ∃ c', dispatch J c rawMsg = .ok c'
      ∧ (∀ k, k ≠ i → mapGet c'.subscriptions k = mapGet c.subscriptions k)
      ∧ (∀ s ∈ hs, s.id ≠ i → c'.chans[s.Channel]? = c.chans[s.Channel]?)
      ∧ (∀ a, (∀ sub, mapGet c.subscriptions i = some sub → sub.Channel ≠ a) →
          c'.chans[a]? = c.chans[a]?) := by
  rw [dispatch_eq, hU]
  simp only [hI]
  cases hget : mapGet c.subscriptions i with
  | none => exact ⟨c, rfl, fun _ _ => rfl, fun _ _ _ => rfl, fun _ _ => rfl⟩
  | some sub =>
    simp only
    obtain ⟨hmem, hid, hopen⟩ := h.2.2 (i, sub) (mapGet_mem _ _ _ hget)
    simp only at hmem hid hopen
    have hchan : ∀ s ∈ hs, s.id ≠ i → s.Channel ≠ sub.Channel := by
      intro s hsm hne
      exact sessionInv_channel_ne c hs s sub h hsm hmem (by rw [hid]; exact hne)
    split_ifs with h1 h2 h3
    · obtain ⟨chans', hsend, _, _, _, _, hother⟩ :=
        sendChan_ok c.chans sub.Channel { Data := "", Error := msg.Payload } hopen
      rw [hsend]
      exact ⟨_, rfl, fun _ _ => rfl, fun s hsm hne => hother _ (hchan s hsm hne),
        fun a ha => hother a (fun e => ha sub rfl e.symm)⟩
    · obtain ⟨chans', hsend, _, _, _, _, hother⟩ :=
        sendChan_ok c.chans sub.Channel { Data := msg.Payload, Error := "" } hopen
      rw [hsend]
      exact ⟨_, rfl, fun _ _ => rfl, fun s hsm hne => hother _ (hchan s hsm hne),
        fun a ha => hother a (fun e => ha sub rfl e.symm)⟩
    · obtain ⟨c', hr, hsubs, _, _, _, _, _, hother⟩ := removeSubscription_spec c sub hopen
      refine ⟨c', hr, ?_, fun s hsm hne => hother _ (hchan s hsm hne),
        fun a ha => hother a (fun e => ha sub rfl e.symm)⟩
      intro k hk
      rw [hsubs, hid]
      exact mapGet_mapDelete_ne _ _ _ hk
    · exact ⟨c, rfl, fun _ _ => rfl, fun _ _ _ => rfl, fun _ _ => rfl⟩

/-- C14. For every client that satisfies the invariant of reachable states and
every frame that decodes with id `i`, the turn of the dispatch loop returns and
leaves every subscription with another id alone: the map entry under every other
id is as before, and the channel of every handle with another id is as before,
so nothing was delivered to it and it was not closed. The only channel that can
change is the channel of the subscription registered under `i`. -/
theorem dispatch_no_cross_talk {I V : Type} (J : JSON I V) (c : SubscriptionClient)
    (hs : List Subscription) (rawMsg : Message) (msg : subscriptionMessage) (i : String)
    (hInv : sessionInv c hs) (hU : J.UnmarshalAsJSON rawMsg = .ok msg)
    (hI : msg.ID = some i) :
    ∃ c', dispatch J c rawMsg = .ok c'
      ∧ (∀ k, k ≠ i → mapGet c'.subscriptions k = mapGet c.subscriptions k)
      ∧ (∀ s ∈ hs, s.id ≠ i →
          delivered c'.chans s.Channel = delivered c.chans s.Channel
          ∧ chanClosed c'.chans s.Channel = chanClosed c.chans s.Channel
          ∧ chanOpen c'.chans s.Channel = chanOpen c.chans s.Channel)
      ∧ (∀ a, (∀ sub, mapGet c.subscriptions i = some sub → sub.Channel ≠ a) →
          c'.chans[a]? = c.chans[a]?) := by
  obtain ⟨c', hd, hmap, hch, honly⟩ := dispatch_frame J c hs rawMsg msg i hInv hU hI
  refine ⟨c', hd, hmap, ?_, honly⟩
  intro s hsm hne
  have := hch s hsm hne
  exact ⟨delivered_of_getElem? _ _ _ this, chanClosed_of_getElem? _ _ _ this,
    chanOpen_of_getElem? _ _ _ this⟩

theorem dispatch_no_cross_talk_witness :
    dispatch sampleJSON (subscribeAll sampleJSON (fresh (sampleConn []))
        [sampleRequest, sampleRequest]).1 "data1"
      = .ok { conn := (subscribeAll sampleJSON (fresh (sampleConn []))
                [sampleRequest, sampleRequest]).1.conn,
              subscriptions := [("0", ⟨"0", 0⟩), ("1", ⟨"1", 1⟩)], nextSubID := 2,
              chans := [{ closed := false, received := [] },
                        { closed := false, received := [⟨"baz", ""⟩] }] }
    ∧ ∃ c', dispatch sampleJSON (subscribeAll sampleJSON (fresh (sampleConn []))
        [sampleRequest, sampleRequest]).1 "data1" = .ok c'
      ∧ mapGet c'.subscriptions "0" = some ⟨"0", 0⟩
      ∧ delivered c'.chans 0 = [] :=
  have h := dispatch_no_cross_talk sampleJSON
    (subscribeAll sampleJSON (fresh (sampleConn [])) [sampleRequest, sampleRequest]).1 _
    "data1" ⟨some "1", "data", "baz"⟩ "1"
    (sessionInv_Subscribe sampleJSON _ _ sampleRequest
      (sessionInv_Subscribe sampleJSON _ _ sampleRequest (sessionInv_fresh (sampleConn []))))
    (by decide) rfl
  ⟨by decide, h.elim (fun c' hc => ⟨c', hc.1, hc.2.1 "0" (by decide),
    (hc.2.2.1 ⟨"0", 0⟩ (by decide) (by decide)).1⟩)⟩

/-! ## Delivery in order -/

/-- A turn of the dispatch loop under the invariant, seen from a handle whose id
is not registered: the id stays unregistered and the channel of the handle is
untouched. -/
theorem dispatch_skips {I V : Type} (J : JSON I V) (c : SubscriptionClient)
    (hs : List Subscription) (rawMsg : Message) (s : Subscription)
    (h : sessionInv c hs) (hmem : s ∈ hs) (hN : mapGet c.subscriptions s.id = none) :
    ∃ c', dispatch J c rawMsg = .ok c' ∧ sessionInv c' hs
      ∧ mapGet c'.subscriptions s.id = none
      ∧ c'.chans[s.Channel]? = c.chans[s.Channel]? := by
  cases hU : J.UnmarshalAsJSON rawMsg with
  | error e =>
    have hd : dispatch J c rawMsg = .ok c := by rw [dispatch_eq, hU]
    exact ⟨c, hd, h, hN, rfl⟩
  | ok msg =>
    cases hI : msg.ID with
    | none =>
      have hd : dispatch J c rawMsg = .ok c := by rw [dispatch_eq, hU]; simp only [hI]
      exact ⟨c, hd, h, hN, rfl⟩
    | some j =>
      by_cases hj : s.id = j
      · have hd := dispatch_unregistered J c rawMsg msg j hU hI (by rw [← hj]; exact hN)
        exact ⟨c, hd, h, hN, rfl⟩
      · obtain ⟨c', hd, hmap, hch, _⟩ := dispatch_frame J c hs rawMsg msg j h hU hI
        refine ⟨c', hd, sessionInv_dispatch J c c' hs rawMsg h hd, ?_, hch s hmem hj⟩
        rw [hmap _ hj]
        exact hN

/-- Once the id of a handle is not registered, no frame of the stream delivers
anything on its channel. -/
theorem runLoop_unregistered {I V : Type} (J : JSON I V) (hs : List Subscription)
    (s : Subscription) (frames : List Message) :
    ∀ c : SubscriptionClient, sessionInv c hs → s ∈ hs →
      mapGet c.subscriptions s.id = none →
      ∃ c', runLoop J frames c = .ok c'
        ∧ delivered c'.chans s.Channel = delivered c.chans s.Channel := by
  induction frames with
  | nil => intro c _ _ _; exact ⟨c, rfl, rfl⟩
  | cons m rest ih =>
    intro c h hmem hN
    have h0 : sessionInv { c with conn := { c.conn with stream := rest } } hs :=
      sessionInv_conn c hs _ h
    obtain ⟨c1, hd, h1, hN1, hch⟩ := dispatch_skips J _ hs m s h0 hmem hN
    obtain ⟨c', hl, hdel⟩ := ih c1 h1 hmem hN1
    refine ⟨c', ?_, ?_⟩
    · unfold runLoop
      rw [hd]
      exact hl
    · rw [hdel]
      exact delivered_of_getElem? _ _ _ hch

/-- The payloads the dispatch loop delivers to a registered subscription over a
list of frames are the expected ones, in order. -/
theorem runLoop_delivered {I V : Type} (J : JSON I V) (hs : List Subscription)
    (i : String) (s : Subscription) (frames : List Message) :
    ∀ c : SubscriptionClient, sessionInv c hs → mapGet c.subscriptions i = some s →
      ∃ c', runLoop J frames c = .ok c'
        ∧ delivered c'.chans s.Channel
            = delivered c.chans s.Channel ++ expectedPayloads J i frames := by
  have hne1 : subscriptionMessageTypeComplete ≠ subscriptionMessageTypeError := by decide
  have hne2 : subscriptionMessageTypeComplete ≠ subscriptionMessageTypeData := by decide
  have hne3 : subscriptionMessageTypeData ≠ subscriptionMessageTypeError := by decide
  induction frames with
  | nil => intro c _ _; exact ⟨c, rfl, by simp [expectedPayloads]⟩
  | cons m rest ih =>
    intro c h hG
    have h0 : sessionInv { c with conn := { c.conn with stream := rest } } hs :=
      sessionInv_conn c hs _ h
    obtain ⟨hmem, hid, hopen⟩ := h.2.2 (i, s) (mapGet_mem _ _ _ hG)
    simp only at hmem hid hopen
    unfold runLoop expectedPayloads
    cases hU : J.UnmarshalAsJSON m with
    | error e =>
      have hd : dispatch J { c with conn := { c.conn with stream := rest } } m
          = .ok { c with conn := { c.conn with stream := rest } } := by
        rw [dispatch_eq, hU]
      rw [hd]
      exact ih _ h0 hG
    | ok msg =>
      simp only
      by_cases hI : msg.ID = some i
      · simp only [hI, if_true]
        rw [dispatch_eq, hU]
        simp only [hI]
        have hG0 : mapGet ({ c with conn := { c.conn with stream := rest } } :
            SubscriptionClient).subscriptions i = some s := hG
        rw [hG0]
        simp only
        by_cases hc : msg.Type_ = subscriptionMessageTypeComplete
        · have he : msg.Type_ ≠ subscriptionMessageTypeError := by rw [hc]; exact hne1
          have hd : msg.Type_ ≠ subscriptionMessageTypeData := by rw [hc]; exact hne2
          simp only [hc, hne1, hne2, if_true, if_false]
          obtain ⟨c1, hr, hsubs, _, _, _, _, hdel, _⟩ :=
            removeSubscription_spec { c with conn := { c.conn with stream := rest } } s hopen
          rw [hr]
          simp only
          have h1 := sessionInv_removeSubscription _ c1 hs s h0 hmem hr
          have hN1 : mapGet c1.subscriptions s.id = none := by
            rw [hsubs]; exact mapGet_mapDelete_self _ _
          obtain ⟨c', hl, hdel'⟩ := runLoop_unregistered J hs s rest c1 h1 hmem hN1
          refine ⟨c', hl, ?_⟩
          rw [hdel', hdel, List.append_nil]
        · by_cases hd : msg.Type_ = subscriptionMessageTypeData
          · simp only [hd, hne3, hne2.symm, if_true, if_false]
            obtain ⟨chans', hsend, hdel, _⟩ :=
              sendChan_ok c.chans s.Channel { Data := msg.Payload, Error := "" } hopen
            have hsend0 : sendChan ({ c with conn := { c.conn with stream := rest } } :
                SubscriptionClient).chans s.Channel { Data := msg.Payload, Error := "" }
                = .ok chans' := hsend
            rw [hsend0]
            simp only
            have h1 := sessionInv_sendChan _ hs chans' s.Channel _ h0 hsend0
            obtain ⟨c', hl, hdel'⟩ := ih _ h1 hG
            refine ⟨c', hl, ?_⟩
            rw [hdel']
            show delivered chans' s.Channel ++ _ = _
            rw [hdel, List.append_assoc]
            rfl
          · by_cases he : msg.Type_ = subscriptionMessageTypeError
            · simp only [he, hne3.symm, hne1.symm, if_true, if_false]
              obtain ⟨chans', hsend, hdel, _⟩ :=
                sendChan_ok c.chans s.Channel { Data := "", Error := msg.Payload } hopen
              have hsend0 : sendChan ({ c with conn := { c.conn with stream := rest } } :
                  SubscriptionClient).chans s.Channel { Data := "", Error := msg.Payload }
                  = .ok chans' := hsend
              rw [hsend0]
              simp only
              have h1 := sessionInv_sendChan _ hs chans' s.Channel _ h0 hsend0
              obtain ⟨c', hl, hdel'⟩ := ih _ h1 hG
              refine ⟨c', hl, ?_⟩
              rw [hdel']
              show delivered chans' s.Channel ++ _ = _
              rw [hdel, List.append_assoc]
              rfl
            · simp only [hc, hd, he, if_false]
              exact ih _ h0 hG
      · simp only [hI, if_false]
        cases hid' : msg.ID with
        | none =>
          have hd : dispatch J { c with conn := { c.conn with stream := rest } } m
              = .ok { c with conn := { c.conn with stream := rest } } := by
            rw [dispatch_eq, hU]; simp only [hid']
          rw [hd]
          exact ih _ h0 hG
        | some j =>
          have hji : i ≠ j := by
            intro e
            apply hI
            rw [hid', e]
          obtain ⟨c1, hd, hmap, hch, _⟩ := dispatch_frame J _ hs m msg j h0 hU hid'
          rw [hd]
          simp only
          have h1 := sessionInv_dispatch J _ c1 hs m h0 hd
          have hG1 : mapGet c1.subscriptions i = some s := by
            rw [hmap i hji]; exact hG
          obtain ⟨c', hl, hdel'⟩ := ih c1 h1 hG1
          refine ⟨c', hl, ?_⟩
          rw [hdel', delivered_of_getElem? _ _ _ (hch s hmem (by rw [hid]; exact hji))]

/-- C13. For every client that satisfies the invariant of reachable states, every
subscription `s` registered under id `i` and every finite list of inbound frames,
the dispatch loop processes the list without panic, and the payloads it delivers
to `s` are, in the same order, the frames of the list that decode with id `i` and
type `data` or `error`, mapped to `Data` or `Error` of that payload, up to the
first `complete` frame for `i`. -/
theorem delivery_in_order {I V : Type} (J : JSON I V) (c : SubscriptionClient)
    (hs : List Subscription) (i : String) (s : Subscription) (frames : List Message)
    (hInv : sessionInv c hs) (hG : mapGet c.subscriptions i = some s) :
    ∃ c', runLoop J frames c = .ok c'
      ∧ delivered c'.chans s.Channel
          = delivered c.chans s.Channel ++ expectedPayloads J i frames :=
  runLoop_delivered J hs i s frames c hInv hG

theorem delivery_in_order_witness :
    expectedPayloads sampleJSON "0" ["data0", "data1", "zzz", "error0", "complete0", "data0"]
      = [⟨"bar", ""⟩, ⟨"", "oops"⟩]
    ∧ ∃ c', runLoop sampleJSON ["data0", "data1", "zzz", "error0", "complete0", "data0"]
        (subscribeAll sampleJSON (fresh (sampleConn [])) [sampleRequest, sampleRequest]).1
        = .ok c'
      ∧ delivered c'.chans 0 = [⟨"bar", ""⟩, ⟨"", "oops"⟩] :=
  have h := delivery_in_order sampleJSON
    (subscribeAll sampleJSON (fresh (sampleConn [])) [sampleRequest, sampleRequest]).1 _
    "0" ⟨"0", 0⟩ ["data0", "data1", "zzz", "error0", "complete0", "data0"]
    (sessionInv_Subscribe sampleJSON _ _ sampleRequest
      (sessionInv_Subscribe sampleJSON _ _ sampleRequest (sessionInv_fresh (sampleConn []))))
    (by decide)
  ⟨by decide, h.elim (fun c' hc => ⟨c', hc.1, hc.2⟩)⟩

/-! ## Inert frames -/

/-- C15. For every client, the dispatch of a frame that fails to decode, or has no
id, or carries an id with no map entry, or has a type other than `data`, `error`
and `complete`, returns the client unchanged: no payload is delivered, no channel
is closed, no frame is sent, and the map and the counter are as before; the loop
goes on with the next frame. -/
theorem inert_frame_dropped {I V : Type} (J : JSON I V) (c : SubscriptionClient)
    (rawMsg : Message)
    (hInert : (∃ err, J.UnmarshalAsJSON rawMsg = .error err)
      ∨ (∃ msg, J.UnmarshalAsJSON rawMsg = .ok msg
          ∧ (msg.ID = none
            ∨ (∃ i, msg.ID = some i ∧ mapGet c.subscriptions i = none)
            ∨ (msg.Type_ ≠ subscriptionMessageTypeData
                ∧ msg.Type_ ≠ subscriptionMessageTypeError
                ∧ msg.Type_ ≠ subscriptionMessageTypeComplete)))) :
    dispatch J c rawMsg = .ok c
    ∧ ∀ rest, runLoop J (rawMsg :: rest) c
        = runLoop J rest { c with conn := { c.conn with stream := rest } } := by
  have key : ∀ c' : SubscriptionClient, c'.subscriptions = c.subscriptions →
      dispatch J c' rawMsg = .ok c' := by
    intro c' hsub
    rcases hInert with ⟨err, hU⟩ | ⟨msg, hU, hcase⟩
    · rw [dispatch_eq, hU]
    · rcases hcase with hI | ⟨i, hI, hN⟩ | ⟨h1, h2, h3⟩
      · rw [dispatch_eq, hU]; simp only [hI]
      · exact dispatch_unregistered J c' rawMsg msg i hU hI (by rw [hsub]; exact hN)
      · rw [dispatch_eq, hU]
        simp only
        cases msg.ID with
        | none => rfl
        | some i =>
          simp only
          cases mapGet c'.subscriptions i with
          | none => rfl
          | some sub => simp only [h1, h2, h3, if_false]
  refine ⟨key c rfl, ?_⟩
  intro rest
  have := key { c with conn := { c.conn with stream := rest } } rfl
  conv_lhs => unfold runLoop
  rw [this]

theorem inert_frame_dropped_witness :
    (∃ err, sampleJSON.UnmarshalAsJSON "zzz" = .error err)
    ∧ dispatch sampleJSON (Subscribe sampleJSON (fresh (sampleConn [])) sampleRequest).1 "zzz"
      = .ok (Subscribe sampleJSON (fresh (sampleConn [])) sampleRequest).1
    ∧ dispatch sampleJSON (Subscribe sampleJSON (fresh (sampleConn [])) sampleRequest).1 "ack"
      = .ok (Subscribe sampleJSON (fresh (sampleConn [])) sampleRequest).1
    ∧ dispatch sampleJSON (Subscribe sampleJSON (fresh (sampleConn [])) sampleRequest).1 "data1"
      = .ok (Subscribe sampleJSON (fresh (sampleConn [])) sampleRequest).1 :=
  ⟨⟨_, rfl⟩,
   (inert_frame_dropped sampleJSON _ "zzz" (Or.inl ⟨_, rfl⟩)).1,
   (inert_frame_dropped sampleJSON _ "ack"
      (Or.inr ⟨_, rfl, Or.inl rfl⟩)).1,
   (inert_frame_dropped sampleJSON _ "data1"
      (Or.inr ⟨_, rfl, Or.inr (Or.inl ⟨"1", rfl, by decide⟩)⟩)).1⟩

/-! ## The frames on the wire -/

/-- When the init options marshal, `handshake` hands exactly one frame to the
transport: a `connection_init` frame without id, with the marshalled options as
payload. The map, the counter and the channels are not touched. -/
theorem handshake_sent {I V : Type} (J : JSON I V) (c : SubscriptionClient)
    (initOptions : I) (p : RawMessage) (hM : J.Marshal initOptions = .ok p) :
    (handshake J c initOptions).1.conn.sent = c.conn.sent ++
      [{ ID := none, Type_ := subscriptionMessageTypeConnectionInit, Payload := p }] := by
  have hs := SendJSONMessage_sent c.conn
    { ID := none, Type_ := subscriptionMessageTypeConnectionInit, Payload := p }
  unfold handshake
  simp only [hM]
  rcases hsend : c.conn.SendJSONMessage
      { ID := none, Type_ := subscriptionMessageTypeConnectionInit, Payload := p }
    with ⟨conn, _ | e⟩
  · rw [hsend] at hs
    simp only at hs ⊢
    have hrecv : conn.recv.2.sent = conn.sent := by
      unfold Conn.recv
      cases conn.stream <;> rfl
    cases J.UnmarshalAsJSON conn.recv.1 with
    | error e => simp only [Conn.Close, hrecv, hs]
    | ok msg =>
      simp only
      split_ifs <;> simp only [Conn.Close, hrecv, hs]
  · rw [hsend] at hs
    simp only [Conn.Close]
    exact hs

/-- When the init options marshal and the init send succeeds, `handshake` takes
exactly one frame off the inbound stream. -/
theorem handshake_stream {I V : Type} (J : JSON I V) (c : SubscriptionClient)
    (initOptions : I) (p : RawMessage) (hM : J.Marshal initOptions = .ok p)
    (hS : (c.conn.SendJSONMessage
      { ID := none, Type_ := subscriptionMessageTypeConnectionInit, Payload := p }).2 = none) :
    (handshake J c initOptions).1.conn.stream = c.conn.stream.tail := by
  have hst := SendJSONMessage_stream c.conn
    { ID := none, Type_ := subscriptionMessageTypeConnectionInit, Payload := p }
  unfold handshake
  simp only [hM]
  rcases hsend : c.conn.SendJSONMessage
      { ID := none, Type_ := subscriptionMessageTypeConnectionInit, Payload := p }
    with ⟨conn, _ | e⟩
  · rw [hsend] at hst
    simp only at hst ⊢
    have hrecv : conn.recv.2.stream = conn.stream.tail := by
      unfold Conn.recv
      cases h : conn.stream with
      | nil => simp [h]
      | cons m rest => rfl
    cases J.UnmarshalAsJSON conn.recv.1 with
    | error e => simp only [Conn.Close, hrecv, hst]
    | ok msg =>
      simp only
      split_ifs <;> simp only [Conn.Close, hrecv, hst]
  · rw [hsend] at hS
    simp at hS

/-- C16. For every client and every init payload that marshals, `handshake` hands
exactly one frame to the transport, of type `connection_init`, without id, whose
payload is the marshalled init options; when that send succeeds it takes exactly
one frame, the first, off the inbound stream and leaves all later frames there. -/
theorem handshake_wire_exchange {I V : Type} (J : JSON I V) (c : SubscriptionClient)
    (initOptions : I) (p : RawMessage) (hM : J.Marshal initOptions = .ok p) :
    (∃ frame : subscriptionMessage,
      (handshake J c initOptions).1.conn.sent = c.conn.sent ++ [frame]
      ∧ frame.Type_ = subscriptionMessageTypeConnectionInit
      ∧ frame.ID = none
      ∧ J.Marshal initOptions = .ok frame.Payload)
    ∧ ((c.conn.SendJSONMessage
        { ID := none, Type_ := subscriptionMessageTypeConnectionInit, Payload := p }).2 = none →
      (handshake J c initOptions).1.conn.stream = c.conn.stream.tail
      ∧ ∀ m rest, c.conn.stream = m :: rest →
          (handshake J c initOptions).1.conn.stream = rest) := by
  refine ⟨⟨⟨none, subscriptionMessageTypeConnectionInit, p⟩,
    handshake_sent J c initOptions p hM, rfl, rfl, hM⟩, ?_⟩
  intro hS
  have := handshake_stream J c initOptions p hM hS
  refine ⟨this, ?_⟩
  intro m rest hst
  rw [this, hst]
  rfl

theorem handshake_wire_exchange_witness :
    sampleJSON.Marshal (some "x") = .ok "x"
    ∧ (handshake sampleJSON (fresh (sampleConn ["ack", "data0", "complete0"])) (some "x")).1
      = fresh { sent := [⟨none, "connection_init", "x"⟩], sendResults := [],
                stream := ["data0", "complete0"], closed := false }
    ∧ (handshake sampleJSON (fresh (sampleConn ["ack", "data0", "complete0"]))
        (some "x")).1.conn.stream = ["data0", "complete0"] :=
  have h := handshake_wire_exchange sampleJSON
    (fresh (sampleConn ["ack", "data0", "complete0"])) (some "x") "x" (by decide)
  ⟨by decide, by decide, (h.2 (by decide)).2 "ack" ["data0", "complete0"] rfl⟩

/-- A call of `Unsubscribe` that returns has handed exactly one frame to the
transport, the `stop` frame with the id of the subscription. -/
theorem Unsubscribe_sent (c c' : SubscriptionClient) (sub : Subscription)
    (r : Option GoError) (h : Unsubscribe c sub = .ok (c', r)) :
    c'.conn.sent = c.conn.sent ++
      [{ ID := some sub.id, Type_ := subscriptionMessageTypeStop, Payload := "" }] := by
  unfold Unsubscribe at h
  cases hr : removeSubscription c sub with
  | error f => rw [hr] at h; exact Except.noConfusion h
  | ok c1 =>
    rw [hr] at h
    have h' := Except.ok.inj h
    obtain ⟨_, _, hconn, _⟩ := removeSubscription_ok c c1 sub hr
    have h1 := congrArg (fun x => x.1.conn.sent) h'
    simp only at h1
    rw [← h1, SendJSONMessage_sent, hconn]

/-- A call of `Close` that returns has handed exactly one frame to the transport,
the `connection_terminate` frame, which carries no id. -/
theorem Close_sent (c c' : SubscriptionClient) (r : Option GoError)
    (h : Close c = .ok (c', r)) :
    c'.conn.sent = c.conn.sent ++
      [{ ID := none, Type_ := subscriptionMessageTerminate, Payload := "" }] := by
  unfold Close at h
  cases hl : closeLoop c.subscriptions c with
  | error f => rw [hl] at h; exact Except.noConfusion h
  | ok c1 =>
    rw [hl] at h
    have h' := Except.ok.inj h
    obtain ⟨hconn, _, _⟩ := closeLoop_ok c.subscriptions c c1 hl
    have h1 := congrArg (fun x => x.1.conn.sent) h'
    simp only at h1
    rw [← h1, SendJSONMessage_sent, hconn]

/-- C17. The nine message type constants are exactly the strings
`connection_init`, `start`, `stop`, `connection_ack`, `connection_terminate`,
`connection_error`, `data`, `error` and `complete`; they are pairwise distinct;
and the one frame sent by `handshake`, by `Subscribe`, by `Unsubscribe` and by
`Close` has type `connection_init`, `start`, `stop` and `connection_terminate`
respectively. -/
theorem wire_type_literals {I V : Type} (J : JSON I V) :
    [subscriptionMessageTypeConnectionInit, subscriptionMessageTypeStart,
      subscriptionMessageTypeStop, subscriptionMessageTypeAck,
      subscriptionMessageTerminate, subscriptionMessageTypeConnectionError,
      subscriptionMessageTypeData, subscriptionMessageTypeError,
      subscriptionMessageTypeComplete]
      = ["connection_init", "start", "stop", "connection_ack", "connection_terminate",
         "connection_error", "data", "error", "complete"]
    ∧ [subscriptionMessageTypeConnectionInit, subscriptionMessageTypeStart,
        subscriptionMessageTypeStop, subscriptionMessageTypeAck,
        subscriptionMessageTerminate, subscriptionMessageTypeConnectionError,
        subscriptionMessageTypeData, subscriptionMessageTypeError,
        subscriptionMessageTypeComplete].Nodup
    ∧ (∀ (c : SubscriptionClient) (initOptions : I) (p : RawMessage),
        J.Marshal initOptions = .ok p →
        ∃ frame, (handshake J c initOptions).1.conn.sent = c.conn.sent ++ [frame]
          ∧ frame.Type_ = "connection_init")
    ∧ (∀ (c : SubscriptionClient) (req : Request V) (body : RawMessage),
        J.Encode { Query := req.q, Variables := req.vars } = .ok body →
        ∃ frame, (Subscribe J c req).1.conn.sent = c.conn.sent ++ [frame]
          ∧ frame.Type_ = "start")
    ∧ (∀ (c c' : SubscriptionClient) (sub : Subscription) (r : Option GoError),
        Unsubscribe c sub = .ok (c', r) →
        ∃ frame, c'.conn.sent = c.conn.sent ++ [frame] ∧ frame.Type_ = "stop")
    ∧ (∀ (c c' : SubscriptionClient) (r : Option GoError),
        Close c = .ok (c', r) →
        ∃ frame, c'.conn.sent = c.conn.sent ++ [frame]
          ∧ frame.Type_ = "connection_terminate") := by
  refine ⟨rfl, by decide, ?_, ?_, ?_, ?_⟩
  · intro c initOptions p hM
    exact ⟨_, handshake_sent J c initOptions p hM, rfl⟩
  · intro c req body hE
    exact ⟨_, Subscribe_sent J c req body hE, rfl⟩
  · intro c c' sub r h
    exact ⟨_, Unsubscribe_sent c c' sub r h, rfl⟩
  · intro c c' r h
    exact ⟨_, Close_sent c c' r h, rfl⟩

theorem wire_type_literals_witness :
    (∃ frame, (handshake sampleJSON (fresh (sampleConn ["ack"])) (some "x")).1.conn.sent
        = (fresh (sampleConn ["ack"])).conn.sent ++ [frame]
      ∧ frame.Type_ = "connection_init")
    ∧ (steps sampleJSON (handshake sampleJSON (fresh (sampleConn ["ack"])) (some "x")).1
        [.subscribe sampleRequest, .unsubscribe ⟨"0", 0⟩, .close]).toOption.map
          (fun c => c.conn.sent.map (fun m => m.Type_))
      = some ["connection_init", "start", "stop", "connection_terminate"] :=
  ⟨(wire_type_literals sampleJSON).2.2.1 (fresh (sampleConn ["ack"])) (some "x") "x"
    (by decide), by decide⟩

/-! ## The mutex -/

/-- C19 (the code breaks the claim). `addSubscription` and `removeSubscription`,
and with them `Unsubscribe`, touch the map only while the mutex is held. The
other accesses happen without it: `Subscribe` reads and increments the counter
before any `Lock`, a turn of the dispatch loop looks the id up in the map without
a `Lock`, and `Close` ranges over the map without a `Lock`. -/
theorem registry_accessed_without_lock :
    lockDiscipline false addSubscriptionAccesses = true
    ∧ lockDiscipline false removeSubscriptionAccesses = true
    ∧ lockDiscipline false UnsubscribeAccesses = true
    ∧ SubscribeAccesses sampleJSON (fresh (sampleConn [])) sampleRequest
        = [.counterRead, .counterRead, .counterWrite, .lock, .mapWrite, .unlock]
    ∧ lockDiscipline false
        (SubscribeAccesses sampleJSON (fresh (sampleConn [])) sampleRequest) = false
    ∧ dispatchAccesses sampleJSON
        (Subscribe sampleJSON (fresh (sampleConn [])) sampleRequest).1 "data0" = [.mapRead]
    ∧ lockDiscipline false (dispatchAccesses sampleJSON
        (Subscribe sampleJSON (fresh (sampleConn [])) sampleRequest).1 "data0") = false
    ∧ lockDiscipline false (dispatchAccesses sampleJSON
        (Subscribe sampleJSON (fresh (sampleConn [])) sampleRequest).1 "complete0") = false
    ∧ CloseAccesses (Subscribe sampleJSON (fresh (sampleConn [])) sampleRequest).1
        = [.mapRead, .lock, .mapWrite, .unlock, .mapRead]
    ∧ lockDiscipline false
        (CloseAccesses (Subscribe sampleJSON (fresh (sampleConn [])) sampleRequest).1)
        = false := by
  decide

/-! ## The registry invariant -/

/-- No step that returns makes the counter smaller. -/
theorem step_counter_mono {I V : Type} (J : JSON I V) (c c' : SubscriptionClient)
    (op : Op V) (h : step J c op = .ok c') : c.nextSubID ≤ c'.nextSubID := by
  cases op with
  | subscribe req =>
    have h' := Except.ok.inj h
    subst h'
    exact (Subscribe_counter J c req).1
  | unsubscribe sub =>
    unfold step at h
    simp only at h
    cases hu : Unsubscribe c sub with
    | error f => rw [hu] at h; exact Except.noConfusion h
    | ok r =>
      rw [hu] at h
      have h' := Except.ok.inj h
      subst h'
      unfold Unsubscribe at hu
      cases hr : removeSubscription c sub with
      | error f => rw [hr] at hu; exact Except.noConfusion hu
      | ok c1 =>
        rw [hr] at hu
        have hu' := Except.ok.inj hu
        subst hu'
        obtain ⟨_, _, _, hnx⟩ := removeSubscription_ok _ _ _ hr
        show c.nextSubID ≤ c1.nextSubID
        omega
  | close =>
    unfold step at h
    simp only at h
    cases hu : Close c with
    | error f => rw [hu] at h; exact Except.noConfusion h
    | ok r =>
      rw [hu] at h
      have h' := Except.ok.inj h
      subst h'
      unfold Close at hu
      cases hr : closeLoop c.subscriptions c with
      | error f => rw [hr] at hu; exact Except.noConfusion hu
      | ok c1 =>
        rw [hr] at hu
        have hu' := Except.ok.inj hu
        subst hu'
        obtain ⟨_, hnx, _⟩ := closeLoop_ok _ _ _ hr
        show c.nextSubID ≤ c1.nextSubID
        omega
  | dispatch rawMsg =>
    obtain ⟨_, hnx, _⟩ := dispatch_ok J c c' rawMsg h
    omega

/-- Along a run that returns the counter never goes down: every state on the
way has a counter no larger than the final one. -/
theorem steps_counter_mono {I V : Type} (J : JSON I V) (ops1 : List (Op V)) :
    ∀ (c c1 c2 : SubscriptionClient) (ops2 : List (Op V)),
      steps J c ops1 = .ok c1 → steps J c (ops1 ++ ops2) = .ok c2 →
      c.nextSubID ≤ c1.nextSubID ∧ c1.nextSubID ≤ c2.nextSubID := by
  induction ops1 with
  | nil =>
    intro c c1 c2 ops2 h1 h2
    cases h1
    refine ⟨le_refl _, ?_⟩
    simp only [List.nil_append] at h2
    induction ops2 generalizing c with
    | nil => cases h2; exact le_refl _
    | cons op rest ih =>
      unfold steps at h2
      cases hs : step J c op with
      | error f => rw [hs] at h2; exact Except.noConfusion h2
      | ok c' =>
        rw [hs] at h2
        exact le_trans (step_counter_mono J c c' op hs) (ih c' h2)
  | cons op rest ih =>
    intro c c1 c2 ops2 h1 h2
    unfold steps at h1
    simp only [List.cons_append] at h2
    unfold steps at h2
    cases hs : step J c op with
    | error f => rw [hs] at h1; exact Except.noConfusion h1
    | ok c' =>
      rw [hs] at h1 h2
      obtain ⟨ha, hb⟩ := ih c' c1 c2 ops2 h1 h2
      exact ⟨le_trans (step_counter_mono J c c' op hs) ha, hb⟩

/-- Under the registry invariant the id `Subscribe` allocates next is not a key
of the map. -/
theorem registryInv_next_free (c : SubscriptionClient) (h : registryInv c = true) :
    mapGet c.subscriptions (Itoa c.nextSubID) = none := by
  cases hg : mapGet c.subscriptions (Itoa c.nextSubID) with
  | none => rfl
  | some sub =>
    obtain ⟨⟨n, hn, hi⟩, _⟩ := registryInv_at c _ sub h hg
    have := Itoa_injective hi
    omega

/-! ## The counter as a Go `int` -/

theorem two_pow_bits (bits : Nat) (hb : 0 < bits) : 2 ^ bits = 2 * 2 ^ (bits - 1) := by
  obtain ⟨k, rfl⟩ : ∃ k, bits = k + 1 := ⟨bits - 1, by omega⟩
  simp [pow_succ, Nat.mul_comm]

/-- Below half the range a machine word is its own value. -/
theorem toSigned_of_lt (bits : Nat) (hb : 0 < bits) (w : Nat) (h : w < 2 ^ (bits - 1)) :
    toSigned bits w = (w : Int) := by
  have h2 := two_pow_bits bits hb
  have hmod : w % 2 ^ bits = w := Nat.mod_eq_of_lt (by omega)
  unfold toSigned
  rw [hmod, if_pos h]

/-- On a number that is not negative `strconv.Itoa` gives the decimal digits. -/
theorem strconvItoa_natCast (n : Nat) : strconvItoa (n : Int) = Itoa n := by
  unfold strconvItoa Itoa
  have h : ¬ ((n : Int) < 0) := by omega
  rw [if_neg h, Int.natAbs_ofNat]

/-- As long as the counter is below half the range of `int`, `SubscribeInt` does
what `Subscribe` does. -/
theorem SubscribeInt_eq {I V : Type} (bits : Nat) (hb : 0 < bits) (J : JSON I V)
    (c : SubscriptionClient) (req : Request V) (h : c.nextSubID < 2 ^ (bits - 1)) :
    SubscribeInt bits J c req = Subscribe J c req := by
  have h2 := two_pow_bits bits hb
  have hid : strconvItoa (toSigned bits c.nextSubID) = Itoa c.nextSubID := by
    rw [toSigned_of_lt bits hb _ h, strconvItoa_natCast]
  have hnext : (c.nextSubID + 1) % 2 ^ bits = c.nextSubID + 1 :=
    Nat.mod_eq_of_lt (by omega)
  unfold SubscribeInt Subscribe
  rw [hid, hnext]

/-- The counter after `SubscribeInt`: unchanged when the body does not encode,
and one more, wrapped around, when it does, whatever the send does. -/
theorem SubscribeInt_next {I V : Type} (bits : Nat) (J : JSON I V) (c : SubscriptionClient)
    (req : Request V) (body : RawMessage)
    (hE : J.Encode { Query := req.q, Variables := req.vars } = .ok body) :
    (SubscribeInt bits J c req).1.nextSubID = (c.nextSubID + 1) % 2 ^ bits := by
  unfold SubscribeInt
  simp only [hE]
  rcases ({ c with nextSubID := (c.nextSubID + 1) % 2 ^ bits } : SubscriptionClient).conn.SendJSONMessage
      { ID := some (strconvItoa (toSigned bits c.nextSubID)),
        Type_ := subscriptionMessageTypeStart, Payload := body }
    with ⟨conn, _ | e⟩ <;> rfl

/-- On a transport that accepts every frame `SubscribeInt` returns a subscription
whose id is `strconv.Itoa` of the counter, and the transport goes on accepting. -/
theorem SubscribeInt_accepted {I V : Type} (bits : Nat) (J : JSON I V)
    (c : SubscriptionClient) (req : Request V) (body : RawMessage)
    (hE : J.Encode { Query := req.q, Variables := req.vars } = .ok body)
    (hS : c.conn.sendResults = []) :
    (SubscribeInt bits J c req).2
        = .ok { id := strconvItoa (toSigned bits c.nextSubID), Channel := c.chans.length }
    ∧ (SubscribeInt bits J c req).1.conn.sendResults = [] := by
  have hsend : ∀ m : subscriptionMessage,
      ({ c with nextSubID := (c.nextSubID + 1) % 2 ^ bits } :
        SubscriptionClient).conn.SendJSONMessage m
      = ({ sent := c.conn.sent ++ [m], sendResults := [], stream := c.conn.stream,
           closed := c.conn.closed }, none) := by
    intro m
    show c.conn.SendJSONMessage m = _
    unfold Conn.SendJSONMessage
    rw [hS]
  unfold SubscribeInt
  simp only [hE, hsend]
  exact ⟨rfl, rfl⟩

theorem subscribeAllInt_append {I V : Type} (bits : Nat) (J : JSON I V)
    (l1 l2 : List (Request V)) : ∀ c : SubscriptionClient,
    subscribeAllInt bits J c (l1 ++ l2)
      = ((subscribeAllInt bits J (subscribeAllInt bits J c l1).1 l2).1,
         (subscribeAllInt bits J c l1).2
           ++ (subscribeAllInt bits J (subscribeAllInt bits J c l1).1 l2).2) := by
  induction l1 with
  | nil => intro c; rfl
  | cons req rest ih =>
    intro c
    have := ih (SubscribeInt bits J c req).1
    show ((subscribeAllInt bits J (SubscribeInt bits J c req).1 (rest ++ l2)).1,
      (SubscribeInt bits J c req).2
        :: (subscribeAllInt bits J (SubscribeInt bits J c req).1 (rest ++ l2)).2) = _
    rw [this]
    rfl

/-- The counter and the transport after `n` calls of `SubscribeInt` with one
request whose body encodes, on a transport that accepts every frame. -/
theorem subscribeAllInt_replicate {I V : Type} (bits : Nat) (J : JSON I V)
    (req : Request V) (body : RawMessage)
    (hE : J.Encode { Query := req.q, Variables := req.vars } = .ok body) (n : Nat) :
    ∀ c : SubscriptionClient, c.nextSubID < 2 ^ bits → c.conn.sendResults = [] →
      (subscribeAllInt bits J c (List.replicate n req)).1.nextSubID
          = (c.nextSubID + n) % 2 ^ bits
      ∧ (subscribeAllInt bits J c (List.replicate n req)).1.conn.sendResults = [] := by
  induction n with
  | zero =>
    intro c hc hS
    exact ⟨(Nat.mod_eq_of_lt hc).symm, hS⟩
  | succ n ih =>
    intro c hc hS
    have hnext := SubscribeInt_next bits J c req body hE
    have hacc := (SubscribeInt_accepted bits J c req body hE hS).2
    have hlt : (SubscribeInt bits J c req).1.nextSubID < 2 ^ bits := by
      rw [hnext]; exact Nat.mod_lt _ (by positivity)
    obtain ⟨h1, h2⟩ := ih (SubscribeInt bits J c req).1 hlt hacc
    simp only [List.replicate_succ, subscribeAllInt]
    refine ⟨?_, h2⟩
    rw [h1, hnext, Nat.mod_add_mod]
    congr 1
    omega

/-- A run of `SubscribeInt` steps ends in the state `subscribeAllInt` ends in,
and is legal. -/
theorem stepsInt_subscribes {I V : Type} (bits : Nat) (J : JSON I V)
    (reqs : List (Request V)) : ∀ (c : SubscriptionClient) (hs : List Subscription),
    stepsInt bits J c (reqs.map Op.subscribe) = .ok (subscribeAllInt bits J c reqs).1
    ∧ legalRunInt bits J c hs (reqs.map Op.subscribe) = true := by
  induction reqs with
  | nil => intro c hs; exact ⟨rfl, rfl⟩
  | cons req rest ih =>
    intro c hs
    obtain ⟨h1, h2⟩ := ih (SubscribeInt bits J c req).1
      (handlesAfterInt bits J c hs (.subscribe req))
    constructor
    · simp only [List.map_cons, stepsInt, stepInt, subscribeAllInt]
      exact h1
    · simp only [List.map_cons, legalRunInt, stepInt, Bool.true_and]
      exact h2

/-- No decimal string of a natural number is the string `strconv.Itoa` gives for
the least 64-bit `int`. -/
theorem Itoa_ne_minInt (m : Nat) : Itoa m ≠ "-9223372036854775808" := by
  intro h
  have hm : m = 9223372036854775808 := by
    have hd := toDigitsCore_value (m + 1) m [] (by omega)
    have hl : Nat.toDigits 10 m = "-9223372036854775808".data := by
      have := congrArg String.data h
      simpa [Itoa, Nat.repr, List.asString] using this
    unfold Nat.toDigits at hl
    rw [hl] at hd
    simp only [digitsValue, List.length_nil, pow_zero, mul_one, add_zero] at hd
    rw [← hd]
    decide
  rw [hm] at h
  revert h
  decide

/-- `Subscribe` advances the counter by at most one. -/
theorem Subscribe_counter_le {I V : Type} (J : JSON I V) (c : SubscriptionClient)
    (req : Request V) : (Subscribe J c req).1.nextSubID ≤ c.nextSubID + 1 := by
  cases hE : J.Encode { Query := req.q, Variables := req.vars } with
  | error err =>
    rw [Subscribe_of_encode_error J c req err hE]
    exact Nat.le_succ _
  | ok body =>
    rw [Subscribe_of_encode J c req body hE]
    rcases c.conn.SendJSONMessage
        { ID := some (Itoa c.nextSubID), Type_ := subscriptionMessageTypeStart,
          Payload := body }
      with ⟨conn, _ | e⟩ <;> exact le_refl _

/-- A sequence of calls that keeps the counter below half the range of `int`
goes the same way with `SubscribeInt` as with `Subscribe`. -/
theorem subscribeAllInt_eq {I V : Type} (bits : Nat) (hb : 0 < bits) (J : JSON I V)
    (reqs : List (Request V)) : ∀ c : SubscriptionClient,
    c.nextSubID + reqs.length ≤ 2 ^ (bits - 1) →
    subscribeAllInt bits J c reqs = subscribeAll J c reqs := by
  induction reqs with
  | nil => intro c _; rfl
  | cons req rest ih =>
    intro c h
    simp only [List.length_cons] at h
    have heq := SubscribeInt_eq bits hb J c req (by omega)
    have hle := Subscribe_counter_le J c req
    unfold subscribeAllInt subscribeAll
    simp only
    rw [heq, ih (Subscribe J c req).1 (by omega)]

/-- C4, what fails. With the counter as a 64-bit `int`, the sequence of
`2 ^ 63 + 1` `Subscribe` calls on a fresh client, on a transport that accepts
every frame, returns a last subscription with the id `-9223372036854775808`, so
the ids returned are not the decimal strings of a strictly increasing sequence of
natural numbers. -/
theorem subscribe_ids_wrap_around :
    ((returned (subscribeAllInt 64 sampleJSON (fresh (sampleConn []))
        (List.replicate (2 ^ 63 + 1) sampleRequest)).2).map (fun s => s.id)).getLast?
      = some "-9223372036854775808"
    ∧ ¬ ∃ ns : List Nat, ns.Pairwise (fun a b => a < b)
        ∧ (returned (subscribeAllInt 64 sampleJSON (fresh (sampleConn []))
            (List.replicate (2 ^ 63 + 1) sampleRequest)).2).map (fun s => s.id)
          = ns.map Itoa := by
  have hE : sampleJSON.Encode { Query := sampleRequest.q, Variables := sampleRequest.vars }
      = .ok (sampleRequest.q ++ "|" ++ sampleRequest.vars) := rfl
  have hrep := subscribeAllInt_replicate 64 sampleJSON sampleRequest _ hE (2 ^ 63)
    (fresh (sampleConn [])) (by decide) rfl
  have hlast := SubscribeInt_accepted 64 sampleJSON
    (subscribeAllInt 64 sampleJSON (fresh (sampleConn []))
      (List.replicate (2 ^ 63) sampleRequest)).1 sampleRequest _ hE hrep.2
  have hid : strconvItoa (toSigned 64 (subscribeAllInt 64 sampleJSON (fresh (sampleConn []))
      (List.replicate (2 ^ 63) sampleRequest)).1.nextSubID) = "-9223372036854775808" := by
    rw [hrep.1]
    decide
  have hsplit : List.replicate (2 ^ 63 + 1) sampleRequest
      = List.replicate (2 ^ 63) sampleRequest ++ [sampleRequest] := List.replicate_succ' _ _
  have hids : (returned (subscribeAllInt 64 sampleJSON (fresh (sampleConn []))
      (List.replicate (2 ^ 63 + 1) sampleRequest)).2).map (fun s => s.id)
      = (returned (subscribeAllInt 64 sampleJSON (fresh (sampleConn []))
          (List.replicate (2 ^ 63) sampleRequest)).2).map (fun s => s.id)
        ++ ["-9223372036854775808"] := by
    have hone : ∀ c : SubscriptionClient, subscribeAllInt 64 sampleJSON c [sampleRequest]
        = ((SubscribeInt 64 sampleJSON c sampleRequest).1,
           [(SubscribeInt 64 sampleJSON c sampleRequest).2]) := fun _ => rfl
    rw [hsplit, subscribeAllInt_append, hone]
    simp only [returned, List.filterMap_append, List.map_append, hlast.1,
      List.filterMap_cons, List.filterMap_nil, List.map_cons, List.map_nil, hid]
  have hget : ((returned (subscribeAllInt 64 sampleJSON (fresh (sampleConn []))
      (List.replicate (2 ^ 63 + 1) sampleRequest)).2).map (fun s => s.id)).getLast?
      = some "-9223372036854775808" := by
    rw [hids, List.getLast?_append]
    rfl
  refine ⟨hget, ?_⟩
  rintro ⟨ns, _, hns⟩
  rw [hns] at hget
  have hmem := List.mem_of_getLast?_eq_some hget
  obtain ⟨m, _, hm⟩ := List.mem_map.mp hmem
  exact Itoa_ne_minInt m hm

/-- C4, amended. With the counter as an `int` of `bits` bits, on a fresh client,
for every sequence of at most `2 ^ (bits - 1)` `Subscribe` calls, the ids of the
subscriptions returned are the decimal strings of a strictly increasing sequence
of natural numbers, no two returned subscriptions share an id, and the first call
uses id "0": when its body encodes, the one frame it sends carries id "0", and a
subscription it returns has id "0". -/
theorem subscribe_ids_increasing_below_wrap {I V : Type} (bits : Nat) (hb : 0 < bits)
    (J : JSON I V) (conn : Conn) (reqs : List (Request V))
    (hlen : reqs.length ≤ 2 ^ (bits - 1)) :
    (∃ ns : List Nat, ns.Pairwise (fun a b => a < b)
      ∧ (returned (subscribeAllInt bits J (fresh conn) reqs).2).map (fun s => s.id)
          = ns.map Itoa)
    ∧ ((returned (subscribeAllInt bits J (fresh conn) reqs).2).map (fun s => s.id)).Nodup
    ∧ (∀ req rest, reqs = req :: rest →
        (∀ body, J.Encode { Query := req.q, Variables := req.vars } = .ok body →
          (SubscribeInt bits J (fresh conn) req).1.conn.sent = conn.sent ++
            [{ ID := some "0", Type_ := subscriptionMessageTypeStart, Payload := body }])
        ∧ (∀ sub, (subscribeAllInt bits J (fresh conn) reqs).2.head? = some (.ok sub) →
            sub.id = "0")) := by
  have hall : subscribeAllInt bits J (fresh conn) reqs = subscribeAll J (fresh conn) reqs :=
    subscribeAllInt_eq bits hb J reqs (fresh conn) (by
      show 0 + reqs.length ≤ _
      omega)
  have hold := subscribe_ids_increasing J conn reqs
  rw [hall]
  refine ⟨hold.1, hold.2.1, ?_⟩
  intro req rest hreqs
  have hpos : (fresh conn).nextSubID < 2 ^ (bits - 1) := by
    show 0 < _
    positivity
  rw [SubscribeInt_eq bits hb J (fresh conn) req hpos]
  exact hold.2.2 req rest hreqs

theorem subscribe_ids_increasing_below_wrap_witness :
    [sampleRequest, sampleRequest, sampleRequest].length ≤ 2 ^ (64 - 1)
    ∧ (returned (subscribeAllInt 64 sampleJSON (fresh (sampleConn []))
      [sampleRequest, sampleRequest, sampleRequest]).2).map (fun s => s.id) = ["0", "1", "2"]
    ∧ ((returned (subscribeAllInt 64 sampleJSON (fresh (sampleConn []))
      [sampleRequest, sampleRequest, sampleRequest]).2).map (fun s => s.id)).Nodup :=
  have h := subscribe_ids_increasing_below_wrap 64 (by decide) sampleJSON (sampleConn [])
    [sampleRequest, sampleRequest, sampleRequest] (by decide)
  ⟨by decide, by decide, h.2.1⟩

/-! ## Runs with the counter as a Go `int` -/

theorem subscribeCalls_append {V : Type} (a b : List (Op V)) :
    subscribeCalls (a ++ b) = subscribeCalls a + subscribeCalls b := by
  induction a with
  | nil => simp [subscribeCalls]
  | cons op rest ih =>
    have hc : (op :: rest) ++ b = op :: (rest ++ b) := rfl
    rw [hc]
    cases op with
    | subscribe req =>
      show subscribeCalls (rest ++ b) + 1 = (subscribeCalls rest + 1) + subscribeCalls b
      omega
    | unsubscribe sub => exact ih
    | close => exact ih
    | dispatch rawMsg => exact ih

/-- A step advances the counter by at most one, and only a `Subscribe` does. -/
theorem step_counter_le {I V : Type} (J : JSON I V) (c c' : SubscriptionClient)
    (op : Op V) (h : step J c op = .ok c') :
    c'.nextSubID ≤ c.nextSubID + subscribeCalls [op] := by
  cases op with
  | subscribe req =>
    have h' := Except.ok.inj h
    subst h'
    exact Subscribe_counter_le J c req
  | unsubscribe sub =>
    unfold step at h
    simp only at h
    cases hu : Unsubscribe c sub with
    | error f => rw [hu] at h; exact Except.noConfusion h
    | ok r =>
      rw [hu] at h
      have h' := Except.ok.inj h
      subst h'
      unfold Unsubscribe at hu
      cases hr : removeSubscription c sub with
      | error f => rw [hr] at hu; exact Except.noConfusion hu
      | ok c1 =>
        rw [hr] at hu
        have hu' := Except.ok.inj hu
        subst hu'
        obtain ⟨_, _, _, hnx⟩ := removeSubscription_ok _ _ _ hr
        show c1.nextSubID ≤ c.nextSubID + 0
        omega
  | close =>
    unfold step at h
    simp only at h
    cases hu : Close c with
    | error f => rw [hu] at h; exact Except.noConfusion h
    | ok r =>
      rw [hu] at h
      have h' := Except.ok.inj h
      subst h'
      unfold Close at hu
      cases hr : closeLoop c.subscriptions c with
      | error f => rw [hr] at hu; exact Except.noConfusion hu
      | ok c1 =>
        rw [hr] at hu
        have hu' := Except.ok.inj hu
        subst hu'
        obtain ⟨_, hnx, _⟩ := closeLoop_ok _ _ _ hr
        show c1.nextSubID ≤ c.nextSubID + 0
        omega
  | dispatch rawMsg =>
    obtain ⟨_, hnx, _⟩ := dispatch_ok J c c' rawMsg h
    show c'.nextSubID ≤ c.nextSubID + 0
    omega

theorem steps_counter_le {I V : Type} (J : JSON I V) (ops : List (Op V)) :
    ∀ c c' : SubscriptionClient, steps J c ops = .ok c' →
      c'.nextSubID ≤ c.nextSubID + subscribeCalls ops := by
  induction ops with
  | nil => intro c c' h; cases h; exact Nat.le_add_right _ _
  | cons op rest ih =>
    intro c c' h
    unfold steps at h
    cases hs : step J c op with
    | error f => rw [hs] at h; exact Except.noConfusion h
    | ok c1 =>
      rw [hs] at h
      have h1 := step_counter_le J c c1 op hs
      have h2 := ih c1 c' h
      have h3 : subscribeCalls (op :: rest) = subscribeCalls [op] + subscribeCalls rest :=
        subscribeCalls_append [op] rest
      omega

/-- A step that keeps the counter below half the range of `int` goes the same
way with `SubscribeInt` as with `Subscribe`. -/
theorem stepInt_eq {I V : Type} (bits : Nat) (hb : 0 < bits) (J : JSON I V)
    (c : SubscriptionClient) (hs : List Subscription) (op : Op V)
    (h : c.nextSubID + subscribeCalls [op] ≤ 2 ^ (bits - 1)) :
    stepInt bits J c op = step J c op
    ∧ handlesAfterInt bits J c hs op = handlesAfter J c hs op := by
  cases op with
  | subscribe req =>
    have heq := SubscribeInt_eq bits hb J c req (by
      have : subscribeCalls [Op.subscribe req] = 1 := rfl
      omega)
    constructor
    · show Except.ok (SubscribeInt bits J c req).1 = Except.ok (Subscribe J c req).1
      rw [heq]
    · unfold handlesAfterInt handlesAfter
      simp only [heq]
  | unsubscribe sub => exact ⟨rfl, rfl⟩
  | close => exact ⟨rfl, rfl⟩
  | dispatch rawMsg => exact ⟨rfl, rfl⟩

/-- A run that keeps the counter below half the range of `int` goes the same way
with `SubscribeInt` as with `Subscribe`. -/
theorem stepsInt_eq {I V : Type} (bits : Nat) (hb : 0 < bits) (J : JSON I V)
    (ops : List (Op V)) : ∀ (c : SubscriptionClient) (hs : List Subscription),
    c.nextSubID + subscribeCalls ops ≤ 2 ^ (bits - 1) →
    stepsInt bits J c ops = steps J c ops
    ∧ legalRunInt bits J c hs ops = legalRun J c hs ops := by
  induction ops with
  | nil => intro c hs _; exact ⟨rfl, rfl⟩
  | cons op rest ih =>
    intro c hs h
    have h3 : subscribeCalls (op :: rest) = subscribeCalls [op] + subscribeCalls rest :=
      subscribeCalls_append [op] rest
    obtain ⟨he1, he2⟩ := stepInt_eq bits hb J c hs op (by omega)
    unfold stepsInt steps legalRunInt legalRun
    rw [he1, he2]
    cases hstep : step J c op with
    | error f => exact ⟨rfl, rfl⟩
    | ok c1 =>
      have hle := step_counter_le J c c1 op hstep
      obtain ⟨h1, h2⟩ := ih c1 (handlesAfter J c hs op) (by omega)
      simp only
      rw [h1, h2]
      exact ⟨rfl, rfl⟩

/-! ## Sends and their receivers -/

/-- A send on an open channel with its receiver: it blocks when the receiver
takes no more payloads, and otherwise it is the completed hand-off. -/
theorem sendChanWith_of_open (demand : Nat → Nat) (chans : List Chan) (ch : Nat)
    (p : SubscriptionPayload) (h : chanOpen chans ch = true) :
    ∃ chans', sendChan chans ch p = .ok chans'
      ∧ sendChanWith demand chans ch p
          = if demand ch = 0 then .blocked
            else .returned (chans', Function.update demand ch (demand ch - 1)) := by
  unfold chanOpen at h
  unfold sendChan sendChanWith
  cases hg : chans[ch]? with
  | none => simp [hg] at h
  | some st =>
    simp only [hg, Bool.not_eq_true'] at h
    simp only [h, Bool.false_eq_true, if_false]
    exact ⟨_, rfl, rfl⟩

/-- Under the invariant no turn of the dispatch loop panics, whatever the
receivers do: it returns or it blocks. -/
theorem dispatchWith_no_panic {I V : Type} (demand : Nat → Nat) (J : JSON I V)
    (c : SubscriptionClient) (hs : List Subscription) (rawMsg : Message) (f : Fault)
    (h : sessionInv c hs) : dispatchWith demand J c rawMsg ≠ .panicked f := by
  unfold dispatchWith
  split
  · intro hc; cases hc
  · split
    · intro hc; cases hc
    · split
      · split
        · intro hc; cases hc
        · rename_i sub hget
          obtain ⟨chans', _, hw⟩ := sendChanWith_of_open demand c.chans sub.Channel
            { Data := "", Error := _ } (h.2.2 _ (mapGet_mem _ _ _ hget)).2.2
          rw [hw]
          split_ifs <;> (intro hc; cases hc)
      · split
        · split
          · intro hc; cases hc
          · rename_i sub hget
            obtain ⟨chans', _, hw⟩ := sendChanWith_of_open demand c.chans sub.Channel
              { Data := _, Error := "" } (h.2.2 _ (mapGet_mem _ _ _ hget)).2.2
            rw [hw]
            split_ifs <;> (intro hc; cases hc)
        · split
          · split
            · intro hc; cases hc
            · rename_i sub hget
              obtain ⟨c', hr, _⟩ := removeSubscription_spec c sub
                (h.2.2 _ (mapGet_mem _ _ _ hget)).2.2
              rw [hr]
              intro hc; cases hc
          · intro hc; cases hc

/-! ## The dispatch loop and its receivers -/

/-- C18, what fails. A fresh client subscribes once, so that it satisfies the
registry invariant, and its stream holds a `data` frame for that subscription.
When nobody receives from the channel of the subscription, `run` does not return:
it blocks for ever in the send, the subscription stays registered, its channel
stays open and no `connection_terminate` frame is sent. -/
theorem run_blocks_without_receiver :
    registryInv (Subscribe sampleJSON (fresh (sampleConn ["data0"])) sampleRequest).1 = true
    ∧ runWith (fun _ => 0) sampleJSON
        (Subscribe sampleJSON (fresh (sampleConn ["data0"])) sampleRequest).1
      = .blocked
          { conn := { sent := [⟨some "0", "start",
                        "subscription ($q: String) \x7b cnt \x7d|q=foo"⟩],
                      sendResults := [], stream := [], closed := false },
            subscriptions := [("0", ⟨"0", 0⟩)], nextSubID := 1,
            chans := [{ closed := false, received := [] }] } := by
  decide

/-! ## The registry invariant with the counter as a Go `int` -/

/-- C20, what fails. With the counter as a 64-bit `int`, the legal run of
`2 ^ 63 - 1` `Subscribe` steps from a fresh client, none of which panics, reaches
a client whose counter is `9223372036854775807`; one more `Subscribe` makes the
counter `-9223372036854775808`: the counter has gone down. And a run that calls
`Unsubscribe` on a handle `Subscribe` never returned, made up around the channel
of a registered subscription, does not panic and leaves that subscription
registered with a closed channel, on which the next `data` frame panics. -/
theorem registry_invariant_limits :
    stepsInt 64 sampleJSON (fresh (sampleConn []))
        ((List.replicate (2 ^ 63 - 1) sampleRequest).map Op.subscribe)
      = .ok (subscribeAllInt 64 sampleJSON (fresh (sampleConn []))
          (List.replicate (2 ^ 63 - 1) sampleRequest)).1
    ∧ legalRunInt 64 sampleJSON (fresh (sampleConn [])) []
        ((List.replicate (2 ^ 63 - 1) sampleRequest).map Op.subscribe) = true
    ∧ toSigned 64 (subscribeAllInt 64 sampleJSON (fresh (sampleConn []))
        (List.replicate (2 ^ 63 - 1) sampleRequest)).1.nextSubID = 9223372036854775807
    ∧ toSigned 64 (SubscribeInt 64 sampleJSON (subscribeAllInt 64 sampleJSON
        (fresh (sampleConn [])) (List.replicate (2 ^ 63 - 1) sampleRequest)).1
        sampleRequest).1.nextSubID = -9223372036854775808
    ∧ ¬ (toSigned 64 (subscribeAllInt 64 sampleJSON (fresh (sampleConn []))
          (List.replicate (2 ^ 63 - 1) sampleRequest)).1.nextSubID
        ≤ toSigned 64 (SubscribeInt 64 sampleJSON (subscribeAllInt 64 sampleJSON
          (fresh (sampleConn [])) (List.replicate (2 ^ 63 - 1) sampleRequest)).1
          sampleRequest).1.nextSubID)
    ∧ legalRunInt 64 sampleJSON (fresh (sampleConn [])) []
        [.subscribe sampleRequest, .unsubscribe ⟨"", 0⟩] = false
    ∧ stepsInt 64 sampleJSON (fresh (sampleConn []))
        [.subscribe sampleRequest, .unsubscribe ⟨"", 0⟩]
      = .ok { conn := { sent := [⟨some "0", "start",
                          "subscription ($q: String) \x7b cnt \x7d|q=foo"⟩,
                          ⟨some "", "stop", ""⟩],
                        sendResults := [], stream := [], closed := false },
              subscriptions := [("0", ⟨"0", 0⟩)], nextSubID := 1,
              chans := [{ closed := true, received := [] }] }
    ∧ stepsInt 64 sampleJSON (fresh (sampleConn []))
        [.subscribe sampleRequest, .unsubscribe ⟨"", 0⟩, .dispatch "data0"]
      = .error .sendOnClosedChannel := by
  have hE : sampleJSON.Encode { Query := sampleRequest.q, Variables := sampleRequest.vars }
      = .ok (sampleRequest.q ++ "|" ++ sampleRequest.vars) := rfl
  have hrun := stepsInt_subscribes 64 sampleJSON (List.replicate (2 ^ 63 - 1) sampleRequest)
    (fresh (sampleConn [])) []
  have hrep := (subscribeAllInt_replicate 64 sampleJSON sampleRequest _ hE (2 ^ 63 - 1)
    (fresh (sampleConn [])) (by decide) rfl).1
  have hnext := SubscribeInt_next 64 sampleJSON (subscribeAllInt 64 sampleJSON
    (fresh (sampleConn [])) (List.replicate (2 ^ 63 - 1) sampleRequest)).1 sampleRequest _ hE
  have h1 : toSigned 64 (subscribeAllInt 64 sampleJSON (fresh (sampleConn []))
      (List.replicate (2 ^ 63 - 1) sampleRequest)).1.nextSubID = 9223372036854775807 := by
    rw [hrep]
    decide
  have h2 : toSigned 64 (SubscribeInt 64 sampleJSON (subscribeAllInt 64 sampleJSON
      (fresh (sampleConn [])) (List.replicate (2 ^ 63 - 1) sampleRequest)).1
      sampleRequest).1.nextSubID = -9223372036854775808 := by
    rw [hnext, hrep]
    decide
  refine ⟨hrun.1, hrun.2, h1, h2, ?_, by decide, by decide, by decide⟩
  rw [h1, h2]
  decide

/-- C20, amended. With the counter as an `int` of `bits` bits, in every state
reached from a fresh client by steps that do not panic, with `Unsubscribe` called
on handles returned by `Subscribe` and with fewer than `2 ^ (bits - 1) - 1`
`Subscribe` calls, every key of the map is the decimal string of a natural number
below the counter, the subscription stored under a key carries that key as its
id, and its channel is open. The counter has not gone down along the run and
does not go down at a further step, and it advances by one in every `Subscribe`
whose body encodes, whether or not the start send succeeds. So the id `Subscribe`
allocates next is not in the map, and no turn of the dispatch loop, taken as a
whole, sends on a closed channel: whatever the receivers do, it returns or it
blocks, and it does not panic. -/
theorem registry_invariant_below_wrap {I V : Type} (bits : Nat) (hb : 0 < bits)
    (J : JSON I V) (conn : Conn) (ops : List (Op V)) (c : SubscriptionClient)
    (hn : subscribeCalls ops + 1 < 2 ^ (bits - 1))
    (hl : legalRunInt bits J (fresh conn) [] ops = true)
    (hst : stepsInt bits J (fresh conn) ops = .ok c) :
    registryInv c = true
    ∧ (∀ k sub, mapGet c.subscriptions k = some sub →
        (∃ n : Nat, (n : Int) < toSigned bits c.nextSubID ∧ k = Itoa n) ∧ sub.id = k
          ∧ chanOpen c.chans sub.Channel = true)
    ∧ (∀ (ops1 ops2 : List (Op V)) (c1 : SubscriptionClient), ops = ops1 ++ ops2 →
        stepsInt bits J (fresh conn) ops1 = .ok c1 →
        toSigned bits c1.nextSubID ≤ toSigned bits c.nextSubID)
    ∧ (∀ (op : Op V) (c' : SubscriptionClient), stepInt bits J c op = .ok c' →
        toSigned bits c.nextSubID ≤ toSigned bits c'.nextSubID)
    ∧ (∀ (req : Request V) (body : RawMessage),
        J.Encode { Query := req.q, Variables := req.vars } = .ok body →
        toSigned bits (SubscribeInt bits J c req).1.nextSubID
          = toSigned bits c.nextSubID + 1)
    ∧ mapGet c.subscriptions (strconvItoa (toSigned bits c.nextSubID)) = none
    ∧ (∀ (demand : Nat → Nat) (rawMsg : Message) (f : Fault),
        dispatchWith demand J c rawMsg ≠ .panicked f) := by
  have h2 := two_pow_bits bits hb
  have h0 : (fresh conn).nextSubID = 0 := rfl
  obtain ⟨heq, hleq⟩ := stepsInt_eq bits hb J ops (fresh conn) [] (by rw [h0]; omega)
  rw [heq] at hst
  rw [hleq] at hl
  obtain ⟨hs', hinv⟩ :=
    sessionInv_steps J ops (fresh conn) c [] (sessionInv_fresh conn) hl hst
  have hreg := sessionInv_registryInv c hs' hinv
  have hcle := steps_counter_le J ops (fresh conn) c hst
  rw [h0] at hcle
  have hc : toSigned bits c.nextSubID = (c.nextSubID : Int) :=
    toSigned_of_lt bits hb _ (by omega)
  refine ⟨hreg, ?_, ?_, ?_, ?_, ?_, ?_⟩
  · intro k sub hg
    obtain ⟨⟨n, hn', hk⟩, hid, ho⟩ := registryInv_at c k sub hreg hg
    exact ⟨⟨n, by rw [hc]; exact_mod_cast hn', hk⟩, hid, ho⟩
  · intro ops1 ops2 c1 hops h1
    subst hops
    have hcalls := subscribeCalls_append ops1 ops2
    obtain ⟨heq1, _⟩ := stepsInt_eq bits hb J ops1 (fresh conn) [] (by rw [h0]; omega)
    rw [heq1] at h1
    have hmono := (steps_counter_mono J ops1 (fresh conn) c1 c ops2 h1 hst).2
    rw [hc, toSigned_of_lt bits hb _ (by omega)]
    exact_mod_cast hmono
  · intro op c' hstep
    have hone : subscribeCalls [op] ≤ 1 := by
      cases op <;> simp [subscribeCalls]
    obtain ⟨heq1, _⟩ := stepInt_eq bits hb J c [] op (by omega)
    rw [heq1] at hstep
    have hmono := step_counter_mono J c c' op hstep
    have hle := step_counter_le J c c' op hstep
    rw [hc, toSigned_of_lt bits hb _ (by omega)]
    exact_mod_cast hmono
  · intro req body hE
    rw [SubscribeInt_next bits J c req body hE, hc]
    have hmod : (c.nextSubID + 1) % 2 ^ bits = c.nextSubID + 1 :=
      Nat.mod_eq_of_lt (by omega)
    rw [hmod, toSigned_of_lt bits hb _ (by omega)]
    push_cast
    rfl
  · rw [hc, strconvItoa_natCast]
    exact registryInv_next_free c hreg
  · intro demand rawMsg f
    exact dispatchWith_no_panic demand J c hs' rawMsg f hinv

theorem registry_invariant_below_wrap_witness :
    subscribeCalls ([.subscribe sampleRequest, .subscribe sampleRequest, .dispatch "data0",
       .subscribe sampleRequest, .unsubscribe ⟨"0", 0⟩, .dispatch "data0"] :
         List (Op String)) + 1 < 2 ^ (64 - 1)
    ∧ legalRunInt 64 sampleJSON
      (fresh { sent := [], sendResults := [none, some (GoError.New "broken pipe")],
               stream := [], closed := false }) []
      [.subscribe sampleRequest, .subscribe sampleRequest, .dispatch "data0",
       .subscribe sampleRequest, .unsubscribe ⟨"0", 0⟩, .dispatch "data0"] = true
    ∧ registryInv
        { conn := { sent := [⟨some "0", "start", "subscription ($q: String) \x7b cnt \x7d|q=foo"⟩,
                             ⟨some "1", "start", "subscription ($q: String) \x7b cnt \x7d|q=foo"⟩,
                             ⟨some "2", "start", "subscription ($q: String) \x7b cnt \x7d|q=foo"⟩,
                             ⟨some "0", "stop", ""⟩],
                    sendResults := [], stream := [], closed := false },
          subscriptions := [("2", ⟨"2", 1⟩)], nextSubID := 3,
          chans := [{ closed := true, received := [⟨"bar", ""⟩] },
                    { closed := false, received := [] }] } = true :=
  ⟨by decide, by decide,
   (registry_invariant_below_wrap 64 (by decide) sampleJSON
      { sent := [], sendResults := [none, some (GoError.New "broken pipe")],
        stream := [], closed := false }
      [.subscribe sampleRequest, .subscribe sampleRequest, .dispatch "data0",
       .subscribe sampleRequest, .unsubscribe ⟨"0", 0⟩, .dispatch "data0"]
      _ (by decide) (by decide) (by decide)).1⟩

/-! ## What the receivers have to take -/

theorem expectedPayloads_cons_undecoded {I V : Type} (J : JSON I V) (i : String)
    (m : Message) (rest : List Message) (err : GoError)
    (hU : J.UnmarshalAsJSON m = .error err) :
    expectedPayloads J i (m :: rest) = expectedPayloads J i rest := by
  conv_lhs => unfold expectedPayloads
  simp only [hU]

theorem expectedPayloads_cons_other {I V : Type} (J : JSON I V) (i : String)
    (m : Message) (rest : List Message) (msg : subscriptionMessage)
    (hU : J.UnmarshalAsJSON m = .ok msg) (hI : msg.ID ≠ some i) :
    expectedPayloads J i (m :: rest) = expectedPayloads J i rest := by
  conv_lhs => unfold expectedPayloads
  simp only [hU, hI, if_false]

theorem expectedPayloads_cons_data {I V : Type} (J : JSON I V) (i : String)
    (m : Message) (rest : List Message) (msg : subscriptionMessage)
    (hU : J.UnmarshalAsJSON m = .ok msg) (hI : msg.ID = some i)
    (hT : msg.Type_ = subscriptionMessageTypeData) :
    expectedPayloads J i (m :: rest)
      = { Data := msg.Payload, Error := "" } :: expectedPayloads J i rest := by
  have hne : subscriptionMessageTypeData ≠ subscriptionMessageTypeComplete := by decide
  conv_lhs => unfold expectedPayloads
  simp only [hU, hI, hT, hne, if_true, if_false]

theorem expectedPayloads_cons_error {I V : Type} (J : JSON I V) (i : String)
    (m : Message) (rest : List Message) (msg : subscriptionMessage)
    (hU : J.UnmarshalAsJSON m = .ok msg) (hI : msg.ID = some i)
    (hT : msg.Type_ = subscriptionMessageTypeError) :
    expectedPayloads J i (m :: rest)
      = { Data := "", Error := msg.Payload } :: expectedPayloads J i rest := by
  have hne1 : subscriptionMessageTypeError ≠ subscriptionMessageTypeComplete := by decide
  have hne2 : subscriptionMessageTypeError ≠ subscriptionMessageTypeData := by decide
  conv_lhs => unfold expectedPayloads
  simp only [hU, hI, hT, hne1, hne2, if_true, if_false]

/-- One turn of the dispatch loop under the invariant, when the receiver of every
registered subscription is going to take the payloads the frames hold for it: the
turn returns and does what `dispatch` does, and the receivers are still going to
take what the remaining frames hold. -/
theorem dispatchWith_step {I V : Type} (demand : Nat → Nat) (J : JSON I V)
    (c : SubscriptionClient) (hs : List Subscription) (m : Message) (rest : List Message)
    (h : sessionInv c hs)
    (hd : ∀ i s, mapGet c.subscriptions i = some s →
      (expectedPayloads J i (m :: rest)).length ≤ demand s.Channel) :
    ∃ c' d', dispatchWith demand J c m = .returned (c', d')
      ∧ dispatch J c m = .ok c'
      ∧ ∀ i s, mapGet c'.subscriptions i = some s →
          (expectedPayloads J i rest).length ≤ d' s.Channel := by
  have hde : subscriptionMessageTypeData ≠ subscriptionMessageTypeError := by decide
  have hce : subscriptionMessageTypeComplete ≠ subscriptionMessageTypeError := by decide
  have hcd : subscriptionMessageTypeComplete ≠ subscriptionMessageTypeData := by decide
  cases hU : J.UnmarshalAsJSON m with
  | error err =>
    refine ⟨c, demand, ?_, ?_, ?_⟩
    · unfold dispatchWith; simp only [hU]
    · rw [dispatch_eq, hU]
    · intro i s hg
      rw [← expectedPayloads_cons_undecoded J i m rest err hU]
      exact hd i s hg
  | ok msg =>
    cases hI : msg.ID with
    | none =>
      refine ⟨c, demand, ?_, ?_, ?_⟩
      · unfold dispatchWith; simp only [hU, hI]
      · rw [dispatch_eq, hU]; simp only [hI]
      · intro i s hg
        rw [← expectedPayloads_cons_other J i m rest msg hU (by rw [hI]; simp)]
        exact hd i s hg
    | some j =>
      have hother : ∀ i, i ≠ j →
          expectedPayloads J i (m :: rest) = expectedPayloads J i rest := by
        intro i hij
        apply expectedPayloads_cons_other J i m rest msg hU
        rw [hI]
        intro e
        exact hij (Option.some.inj e).symm
      cases hget : mapGet c.subscriptions j with
      | none =>
        refine ⟨c, demand, ?_, dispatch_unregistered J c m msg j hU hI hget, ?_⟩
        · unfold dispatchWith
          simp only [hU, hI, hget]
          split_ifs <;> rfl
        · intro i s hg
          have hij : i ≠ j := by
            intro e
            rw [e, hget] at hg
            cases hg
          rw [← hother i hij]
          exact hd i s hg
      | some sub =>
        obtain ⟨hmem, hid, hopen⟩ := h.2.2 (j, sub) (mapGet_mem _ _ _ hget)
        simp only at hmem hid hopen
        have hchan : ∀ i s, mapGet c.subscriptions i = some s → i ≠ j →
            s.Channel ≠ sub.Channel := by
          intro i s hg hij
          obtain ⟨hm', hid', _⟩ := h.2.2 (i, s) (mapGet_mem _ _ _ hg)
          simp only at hm' hid'
          exact sessionInv_channel_ne c hs s sub h hm' hmem (by rw [hid', hid]; exact hij)
        have hsent : ∀ p : SubscriptionPayload,
            (∃ tail, expectedPayloads J j (m :: rest) = p :: tail
              ∧ tail = expectedPayloads J j rest) →
            ∃ chans', sendChan c.chans sub.Channel p = .ok chans'
              ∧ sendChanWith demand c.chans sub.Channel p
                = .returned (chans', Function.update demand sub.Channel
                    (demand sub.Channel - 1))
              ∧ ∀ i s, mapGet c.subscriptions i = some s →
                  (expectedPayloads J i rest).length
                    ≤ Function.update demand sub.Channel (demand sub.Channel - 1) s.Channel := by
          intro p ⟨tail, hexp, htail⟩
          have hdj := hd j sub hget
          rw [hexp, List.length_cons, htail] at hdj
          obtain ⟨chans', hs', hw⟩ := sendChanWith_of_open demand c.chans sub.Channel p hopen
          refine ⟨chans', hs', ?_, ?_⟩
          · rw [hw, if_neg (by omega)]
          · intro i s hg
            by_cases hij : i = j
            · subst hij
              rw [hget] at hg
              have := Option.some.inj hg
              subst this
              simp only [Function.update_same]
              omega
            · rw [Function.update_noteq (hchan i s hg hij), ← hother i hij]
              exact hd i s hg
        by_cases he : msg.Type_ = subscriptionMessageTypeError
        · obtain ⟨chans', hs', hw, hrest⟩ := hsent { Data := "", Error := msg.Payload }
            ⟨_, expectedPayloads_cons_error J j m rest msg hU hI he, rfl⟩
          refine ⟨{ c with chans := chans' }, _, ?_, ?_, hrest⟩
          · unfold dispatchWith
            simp only [hU, hI, he, if_true, hget, hw]
          · rw [dispatch_eq, hU]
            simp only [hI, hget, he, if_true, hs']
        · by_cases hdt : msg.Type_ = subscriptionMessageTypeData
          · obtain ⟨chans', hs', hw, hrest⟩ := hsent { Data := msg.Payload, Error := "" }
              ⟨_, expectedPayloads_cons_data J j m rest msg hU hI hdt, rfl⟩
            refine ⟨{ c with chans := chans' }, _, ?_, ?_, hrest⟩
            · unfold dispatchWith
              simp only [hU, hI, hdt, hde, if_true, if_false, hget, hw]
            · rw [dispatch_eq, hU]
              simp only [hI, hget, hdt, hde, if_true, if_false, hs']
          · by_cases hc : msg.Type_ = subscriptionMessageTypeComplete
            · obtain ⟨c', hr, hsubs, _⟩ := removeSubscription_spec c sub hopen
              refine ⟨c', demand, ?_, ?_, ?_⟩
              · unfold dispatchWith
                simp only [hU, hI, hc, hce, hcd, if_true, if_false, hget, hr]
              · rw [dispatch_eq, hU]
                simp only [hI, hget, hc, hce, hcd, if_true, if_false, hr]
              · intro i s hg
                rw [hsubs, hid, mapGet_mapDelete] at hg
                by_cases hij : i = j
                · rw [if_pos hij] at hg
                  cases hg
                · rw [if_neg hij] at hg
                  rw [← hother i hij]
                  exact hd i s hg
            · refine ⟨c, demand, ?_, ?_, ?_⟩
              · unfold dispatchWith
                simp only [hU, hI, he, hdt, hc, if_false]
              · rw [dispatch_eq, hU]
                simp only [hI, hget, he, hdt, hc, if_false]
              · intro i s hg
                by_cases hij : i = j
                · subst hij
                  have hexp : expectedPayloads J i (m :: rest) = expectedPayloads J i rest := by
                    conv_lhs => unfold expectedPayloads
                    simp only [hU, hI, he, hdt, hc, if_true, if_false]
                  rw [← hexp]
                  exact hd i s hg
                · rw [← hother i hij]
                  exact hd i s hg

/-- Under the invariant, when the receiver of every registered subscription is
going to take at least the payloads the frames hold for it, the range loop of
`run` uses up the frames and ends where `runLoop` ends. -/
theorem runLoopWith_received {I V : Type} (J : JSON I V) (hs : List Subscription)
    (frames : List Message) : ∀ (demand : Nat → Nat) (c : SubscriptionClient),
    sessionInv c hs →
    (∀ i s, mapGet c.subscriptions i = some s →
      (expectedPayloads J i frames).length ≤ demand s.Channel) →
    ∃ c' d', runLoopWith demand J frames c = .finished c' d'
      ∧ runLoop J frames c = .ok c' := by
  induction frames with
  | nil => intro demand c _ _; exact ⟨c, demand, rfl, rfl⟩
  | cons m rest ih =>
    intro demand c h hd
    have h0 : sessionInv { c with conn := { c.conn with stream := rest } } hs :=
      sessionInv_conn c hs _ h
    obtain ⟨c1, d1, hw, hdis, hd1⟩ := dispatchWith_step demand J _ hs m rest h0 hd
    have h1 := sessionInv_dispatch J _ c1 hs m h0 hdis
    obtain ⟨c', d', hl, hr⟩ := ih d1 c1 h1 hd1
    refine ⟨c', d', ?_, ?_⟩
    · unfold runLoopWith
      rw [hw]
      exact hl
    · unfold runLoop
      rw [hdis]
      exact hr

/-- C18, amended. For every client that satisfies the invariant of reachable
states and every finite inbound stream, if the receiver of every registered
subscription takes at least as many payloads as the stream holds for it, so that
every send of the loop is received, then `run` returns: the loop processes the
whole stream and the deferred `Close` follows. On exit the map is empty, every
subscription registered when the stream ended has its channel closed, and the one
frame `run` handed to the transport, the last one sent, is a
`connection_terminate` frame. -/
theorem run_returns_when_received {I V : Type} (demand : Nat → Nat) (J : JSON I V)
    (c : SubscriptionClient) (hs : List Subscription) (hInv : sessionInv c hs)
    (hRecv : ∀ i s, mapGet c.subscriptions i = some s →
      (expectedPayloads J i c.conn.stream).length ≤ demand s.Channel) :
    ∃ cl d c', runLoopWith demand J c.conn.stream c = .finished cl d
      ∧ runWith demand J c = .returned c' (cl.conn.SendJSONMessage
          { ID := none, Type_ := subscriptionMessageTerminate, Payload := "" }).2
      ∧ Close cl = .ok (c', (cl.conn.SendJSONMessage
          { ID := none, Type_ := subscriptionMessageTerminate, Payload := "" }).2)
      ∧ c'.subscriptions = []
      ∧ (∀ k sub, mapGet cl.subscriptions k = some sub →
          chanClosed c'.chans sub.Channel = true)
      ∧ c'.conn.sent = c.conn.sent ++
          [{ ID := none, Type_ := subscriptionMessageTerminate, Payload := "" }]
      ∧ c'.conn.sent.getLast?
          = some { ID := none, Type_ := subscriptionMessageTerminate, Payload := "" }
      ∧ c'.conn.stream = [] := by
  obtain ⟨cl, d, hw, hl⟩ := runLoopWith_received J hs c.conn.stream demand c hInv hRecv
  obtain ⟨cl2, hl2, hinvl, hsent, _, _, hstream⟩ := runLoop_spec J hs c.conn.stream c hInv
  rw [hl] at hl2
  have hcl := Except.ok.inj hl2
  subst hcl
  obtain ⟨c', hc, _, hempty, hclosed, _, _, _, hconn, _⟩ := Close_spec cl hs hinvl
  have hs' : c'.conn.sent = c.conn.sent ++
      [{ ID := none, Type_ := subscriptionMessageTerminate, Payload := "" }] := by
    rw [hconn, SendJSONMessage_sent, hsent]
  refine ⟨cl, d, c', hw, ?_, hc, hempty, hclosed, hs', ?_, ?_⟩
  · unfold runWith
    rw [hw]
    simp only [hc]
  · rw [hs']
    simp
  · rw [hconn, SendJSONMessage_stream, hstream]
    cases c.conn.stream <;> rfl

theorem run_returns_when_received_witness :
    runWith (fun _ => 1) sampleJSON
        { conn := sampleConn ["data0", "ka", "zzz", "data1"],
          subscriptions := [("0", ⟨"0", 0⟩)], nextSubID := 1,
          chans := [{ closed := false, received := [] }] }
      = .returned { conn := { sent := [⟨none, "connection_terminate", ""⟩],
                              sendResults := [], stream := [], closed := false },
                    subscriptions := [], nextSubID := 1,
                    chans := [{ closed := true, received := [⟨"bar", ""⟩] }] } none
    ∧ ∃ cl d c', runLoopWith (fun _ => 1) sampleJSON ["data0", "ka", "zzz", "data1"]
        { conn := sampleConn ["data0", "ka", "zzz", "data1"],
          subscriptions := [("0", ⟨"0", 0⟩)], nextSubID := 1,
          chans := [{ closed := false, received := [] }] } = .finished cl d
      ∧ Close cl = .ok (c', (cl.conn.SendJSONMessage
          { ID := none, Type_ := subscriptionMessageTerminate, Payload := "" }).2)
      ∧ c'.subscriptions = [] ∧ c'.conn.stream = [] := by
  have hinv : sessionInv
      { conn := sampleConn ["data0", "ka", "zzz", "data1"],
        subscriptions := [("0", ⟨"0", 0⟩)], nextSubID := 1,
        chans := [{ closed := false, received := [] }] } [⟨"0", 0⟩] :=
    sessionInv_conn _ _ (sampleConn ["data0", "ka", "zzz", "data1"])
      (sessionInv_Subscribe sampleJSON _ _ sampleRequest (sessionInv_fresh (sampleConn [])))
  have hrecv : ∀ i s, mapGet [("0", (⟨"0", 0⟩ : Subscription))] i = some s →
      (expectedPayloads sampleJSON i ["data0", "ka", "zzz", "data1"]).length
        ≤ (fun _ => 1) s.Channel := by
    intro i s hg
    by_cases hi : "0" = i
    · subst hi
      show (expectedPayloads sampleJSON "0" ["data0", "ka", "zzz", "data1"]).length ≤ 1
      decide
    · simp [mapGet, hi] at hg
  have h := run_returns_when_received (fun _ => 1) sampleJSON _ _ hinv hrecv
  refine ⟨by decide, ?_⟩
  obtain ⟨cl, d, c', hc⟩ := h
  exact ⟨cl, d, c', hc.1, hc.2.2.1, hc.2.2.2.1, hc.2.2.2.2.2.2.2⟩

end Graphql
